import Mathlib

/-!
# Berkeley DB: B-tree search (`btree/bt_search.c`) and trickle writer (`mp/mp_trickle.c`)

A shallow embedding of `__bam_search`, `__bam_stkrel`, `__bam_stkgrow`,
`__memp_trickle` and `__memp_trick`, followed by the properties proved about them.

Conventions of the embedding.

* A page is its header fields together with the slot array `inp` and the items
  the slots address.  `inp[i]` is an offset; `items` maps an offset to the item
  stored there, so two slots holding the same offset address the same item
  (this is how on-page duplicates share one key).
* The page cache, the lock manager and the allocator are external.  Their calls
  are recorded, in order, in a trace; whether a call fails is decided by the
  environment, as a function of how many calls of that kind came before.
* `db_indx_t` is 16 bits wide, `db_recno_t` and `u_int32_t` 32 bits, `u_int8_t`
  8 bits; arithmetic the source performs in those types is reduced modulo the
  width.
* The unbounded loops (`for (;;)`, `goto loop`) take a fuel argument and
  return `none` when it runs out.
-/

namespace BerkeleyDB

/-! ## Data model -/

/-- Page type tags of `db_page.h` that the search distinguishes. -/
inductive PageType where
  | P_INVALID
  | P_IBTREE
  | P_LBTREE
  | P_BTREEMETA
  deriving DecidableEq

/-- Lock modes requested by the search. -/
inductive db_lockmode_t where
  | DB_LOCK_READ
  | DB_LOCK_WRITE
  deriving DecidableEq

/-- An on-page item.  Read as a `BKEYDATA` on a leaf page (`type`, `data`) and as
a `BINTERNAL` on an internal page (`type`, `pgno`, `nrecs`, `data`). -/
structure Item where
  type : Nat
  pgno : Nat
  nrecs : Nat
  data : Nat
  deriving DecidableEq

/-- A page: `pgno`, `level`, `TYPE`, the slot array `inp[0 .. NUM_ENT)` and the
items, indexed by the offsets stored in `inp`. -/
structure PAGE where
  pgno : Nat
  level : Nat
  type : PageType
  inp : List Nat
  items : List Item
  deriving DecidableEq

/-- Modelled from the spec: `P_INDX` of `db_page.h`, the number of slots of a leaf
key/data pair. -/
def P_INDX : Nat := 2

/-- Modelled from the spec: `O_INDX` of `db_page.h`, the number of slots of an
internal item, and the distance from a leaf key slot to its data slot. -/
def O_INDX : Nat := 1

/-- Modelled from the spec: `LOCK_INVALID`, the lock offset that stands for "no lock". -/
def LOCK_INVALID : Nat := 0

/-- Modelled from the spec: `DB_NOTFOUND` of `db.h`, the distinguished not-found
status; all that is used of it is that it is not 0. -/
def DB_NOTFOUND : Int := -30994

/-- The errno value `EINVAL`. -/
def EINVAL : Int := 22

/-- The errno value `EPERM`. -/
def EPERM : Int := 1

/-- Modelled from the spec: `NUM_ENT(h)` of `db_page.h`, the number of slots of the page. -/
def NUM_ENT (h : PAGE) : Nat := h.inp.length

/-- Modelled from the spec: `GET_BKEYDATA(h, indx)` and `GET_BINTERNAL(h, indx)` of
`db_page.h`, the item at the offset stored in slot `indx`. -/
def GET_ITEM (h : PAGE) (indx : Nat) : Item :=
  h.items.getD (h.inp.getD indx 0) ⟨0, 0, 0, 0⟩

/-- Modelled from the spec: `B_DISSET(t)` of `db_page.h`, the deleted bit (0x80) of
an item type byte. -/
def B_DISSET (t : Nat) : Bool := (t / 128) % 2 == 1

/-- Deleted bit of the data item of the pair whose key slot is `indx`:
`B_DISSET(GET_BKEYDATA(h, indx + O_INDX)->type)`. -/
def deleted (h : PAGE) (indx : Nat) : Bool := B_DISSET (GET_ITEM h (indx + O_INDX)).type

/-- The search flags the function tests with `LF_ISSET`. -/
structure Flags where
  S_WRITE : Bool
  S_DELNO : Bool
  S_DUPLAST : Bool
  S_EXACT : Bool
  S_PARENT : Bool
  S_STACK : Bool
  deriving DecidableEq

/-- A stack entry: page reference, index, lock handle, lock mode. -/
structure EPG where
  page : Option PAGE
  indx : Nat
  lock : Nat
  lock_mode : db_lockmode_t
  deriving DecidableEq

/-- Calls to the external collaborators, as recorded in the trace.
`lget couple held pgno mode got`: `__db_lget` with the coupling flag, the handle
held in the lock variable at the call, and the handle granted (`none` on error).
`fget pgno ok`: `memp_fget`.  `fput pgno`: `memp_fput` of the page numbered `pgno`.
`lput l`: `__LPUT`.  `tlput l`: `__TLPUT`. -/
inductive Event where
  | lget (couple : Bool) (held : Nat) (pgno : Nat) (mode : db_lockmode_t) (got : Option Nat)
  | fget (pgno : Nat) (ok : Bool)
  | fput (pgno : Nat)
  | lput (lock : Nat)
  | tlput (lock : Nat)
  deriving DecidableEq

/-- What the search is run against: the constants and handles it reads and the
behaviour of the collaborators.  `LEAFLEVEL` is the level number of leaf pages.
`bam_cmp h indx` is `__bam_cmp(dbp, key, h, indx, t->bt_compare)` for the key
being searched.  `memp_fget n pg` is what the `n`-th page fetch gives when
asked for page `pg`: its return value and, when that is 0, the page;
`lget_ret n` is the return value of the `n`-th lock request and `calloc_ret k`
that of allocating `k` stack entries (0 is success). -/
structure Env where
  LEAFLEVEL : Nat
  bt_root : Nat
  DB_BT_RECNUM : Bool
  bam_cmp : PAGE → Nat → Int
  memp_fget : Nat → Nat → Int × PAGE
  lget_ret : Nat → Int
  calloc_ret : Nat → Int

/-- The mutable state: the cursor's stack (`stk` is the storage `sp[0 .. esp - sp)`,
`csp` the offset of the current entry from `sp`), the trace of external calls and
the number of lock and fetch requests made so far. -/
structure State where
  stk : List EPG
  csp : Nat
  trace : List Event
  nlget : Nat
  nfget : Nat

/-- What a call leaves behind: the return value, the values stored through
`exactp` and `recnop` (`none` when nothing was stored) and the final state. -/
structure Result where
  ret : Int
  exactp : Option Nat
  recnop : Option Nat
  st : State

/-! ## External collaborators -/

/-- Modelled from the spec: `__db_lget` is not part of the sources at hand.  A
lock request either fails, leaving the lock variable as it was, or grants a
fresh handle (never `LOCK_INVALID`); a granted coupled request releases the
handle that was held. -/
def __db_lget (E : Env) (couple : Bool) (pgno : Nat) (mode : db_lockmode_t) (lock : Nat)
    (s : State) : Int × Nat × State :=
  if E.lget_ret s.nlget ≠ 0 then
    (E.lget_ret s.nlget, lock,
      { s with nlget := s.nlget + 1,
               trace := s.trace ++ [Event.lget couple lock pgno mode none] })
  else
    (0, s.nlget + 1,
      { s with nlget := s.nlget + 1,
               trace := s.trace ++ [Event.lget couple lock pgno mode (some (s.nlget + 1))] })

/-- Modelled from the spec: `memp_fget` is not part of the sources at hand.  A
fetch returns 0, having pinned the page it hands back, or it returns an error.
The result is the return value, the page and the state. -/
def memp_fget (E : Env) (pgno : Nat) (s : State) : Int × PAGE × State :=
  ((E.memp_fget s.nfget pgno).1, (E.memp_fget s.nfget pgno).2,
    { s with nfget := s.nfget + 1,
             trace := s.trace ++ [Event.fget pgno ((E.memp_fget s.nfget pgno).1 == 0)] })

/-- Modelled from the spec: `memp_fput` releases one pin of the page. -/
def memp_fput (h : PAGE) (s : State) : State :=
  { s with trace := s.trace ++ [Event.fput h.pgno] }

/-- Modelled from the spec: `__LPUT`, the hard release of a lock. -/
def __LPUT (lock : Nat) (s : State) : State :=
  { s with trace := s.trace ++ [Event.lput lock] }

/-- Modelled from the spec: `__TLPUT`, the transactional release of a lock. -/
def __TLPUT (lock : Nat) (s : State) : State :=
  { s with trace := s.trace ++ [Event.tlput lock] }

/-! ## The page stack -/

/-- `__bam_stkgrow`: double the stack.  `entries = esp - sp`; the new storage is
zero-filled, the old entries are copied to its front, and `csp` is set to
`entries`. -/
def __bam_stkgrow (E : Env) (s : State) : Int × State :=
  let entries := s.stk.length
  if E.calloc_ret (entries * 2) ≠ 0 then (E.calloc_ret (entries * 2), s)
  else
    (0, { s with stk := s.stk ++ List.replicate entries ⟨none, 0, LOCK_INVALID, db_lockmode_t.DB_LOCK_READ⟩,
                 csp := entries })

/-- Modelled from the spec: the macro `BT_STK_CLR` of `btree.h`; it empties the
stack (`csp = sp`) without touching the entries. -/
def BT_STK_CLR (s : State) : State := { s with csp := 0 }

/-- Modelled from the spec: the macro `BT_STK_ENTER` of `btree.h`; it grows the
stack when `csp == esp` and, unless that failed, stores the entry at `csp`. -/
def BT_STK_ENTER (E : Env) (h : PAGE) (indx lock : Nat) (mode : db_lockmode_t)
    (s : State) : Int × State :=
  let r := if s.csp = s.stk.length then __bam_stkgrow E s else (0, s)
  if r.1 = 0 then
    (0, { r.2 with stk := r.2.stk.set r.2.csp ⟨some h, indx, lock, mode⟩ })
  else r

/-- Modelled from the spec: the macro `BT_STK_PUSH` of `btree.h`; `BT_STK_ENTER`
followed by `++csp`. -/
def BT_STK_PUSH (E : Env) (h : PAGE) (indx lock : Nat) (mode : db_lockmode_t)
    (s : State) : Int × State :=
  let r := BT_STK_ENTER E h indx lock mode s
  (r.1, { r.2 with csp := r.2.csp + 1 })

/-- Modelled from the spec: the macro `BT_STK_POP` of `btree.h`; it discards the
topmost entry. -/
def BT_STK_POP (s : State) : State := { s with csp := s.csp - 1 }

/-- One step of the loop of `__bam_stkrel` on entry `epg`. -/
def stkrel_entry (nolocks : Bool) (s : State) (epg : EPG) : State :=
  let s1 := match epg.page with
    | some p => memp_fput p s
    | none => s
  if epg.lock ≠ LOCK_INVALID then
    (if nolocks then __LPUT epg.lock s1 else __TLPUT epg.lock s1)
  else s1

/-- `__bam_stkrel`: release the entries `sp .. csp` in that order, then clear
the stack. -/
def __bam_stkrel (nolocks : Bool) (s : State) : Int × State :=
  (0, BT_STK_CLR ((s.stk.take (s.csp + 1)).foldl (stkrel_entry nolocks) s))

/-! ## The search -/

/-- Outcome of the binary search of one page. -/
inductive BSearch where
  | found (indx : Nat)
  | miss (base : Nat)
  deriving DecidableEq

/-- The binary search loop of `__bam_search` (lines 154-167), from the state
`base`, `lim`.  `fuel` bounds the number of iterations; `lim` itself is enough.
`indx` and `base` are `db_indx_t`. -/
def bsearch (cmp : Nat → Int) (jump : Nat) : Nat → Nat → Nat → BSearch
  | 0, base, _ => BSearch.miss base
  | fuel + 1, base, lim =>
    if lim = 0 then BSearch.miss base
    else
      let indx := (base + (lim / 2) * jump) % 65536
      if cmp indx = 0 then BSearch.found indx
      else if cmp indx > 0 then bsearch cmp jump fuel ((indx + jump) % 65536) ((lim - 1) / 2)
      else bsearch cmp jump fuel base (lim / 2)

/-- The loop of lines 275-277: move to the last member of the duplicate run. -/
def dup_last (h : PAGE) : Nat → Nat → Nat
  | 0, indx => indx
  | fuel + 1, indx =>
    if indx < (NUM_ENT h + 65536 - P_INDX) % 65536 ∧
        h.inp.getD indx 0 = h.inp.getD (indx + P_INDX) 0 then
      dup_last h fuel ((indx + P_INDX) % 65536)
    else indx

/-- The loop of lines 279-281: move to the first member of the duplicate run. -/
def dup_first (h : PAGE) : Nat → Nat → Nat
  | 0, indx => indx
  | fuel + 1, indx =>
    if indx > 0 ∧ h.inp.getD indx 0 = h.inp.getD (indx - P_INDX) 0 then
      dup_first h fuel ((indx + 65536 - P_INDX) % 65536)
    else indx

/-- The loop of lines 291-294: with `S_DUPLAST`, step back over deleted members
of the run. -/
def del_back (h : PAGE) : Nat → Nat → Nat
  | 0, indx => indx
  | fuel + 1, indx =>
    if deleted h indx = true ∧ indx > 0 ∧
        h.inp.getD indx 0 = h.inp.getD (indx - P_INDX) 0 then
      del_back h fuel ((indx + 65536 - P_INDX) % 65536)
    else indx

/-- The loop of lines 296-299: by default, step forward over deleted members of
the run. -/
def del_fwd (h : PAGE) : Nat → Nat → Nat
  | 0, indx => indx
  | fuel + 1, indx =>
    if deleted h indx = true ∧ indx < (NUM_ENT h + 65536 - P_INDX) % 65536 ∧
        h.inp.getD indx 0 = h.inp.getD (indx + P_INDX) 0 then
      del_fwd h fuel ((indx + P_INDX) % 65536)
    else indx

/-- Lines 274-281: the index after the walk to the first or last duplicate. -/
def dup_walk (f : Flags) (h : PAGE) (indx : Nat) : Nat :=
  if f.S_DUPLAST then dup_last h (NUM_ENT h) indx else dup_first h indx indx

/-- Lines 290-299: the index after skipping deleted entries. -/
def del_walk (f : Flags) (h : PAGE) (indx : Nat) : Nat :=
  if f.S_DUPLAST then del_back h indx indx else del_fwd h (NUM_ENT h) indx

/-- The loop of lines 207-208: add the record counts of the slots before `indx`
to `recno` (a `db_recno_t`). -/
def sum_nrecs (h : PAGE) (indx : Nat) (recno : Nat) : Nat :=
  (List.range indx).foldl (fun r i => (r + (GET_ITEM h i).nrecs) % 4294967296) recno

/-- The exit through `err:` (lines 318-322). -/
def err_exit (s : State) : State :=
  if s.csp > 0 then (__bam_stkrel false (BT_STK_POP s)).2 else s

/-- The exit through `notfound:` (lines 312-322). -/
def notfound_exit (h : PAGE) (lock : Nat) (s : State) : State :=
  err_exit (__TLPUT lock (memp_fput h s))

/-- The code from `match:` on (lines 256-310), reached with an exact match at
`indx` on the leaf page `h`. -/
def bam_match (E : Env) (f : Flags) (want_recno : Bool) (h : PAGE) (indx lock : Nat)
    (lock_mode : db_lockmode_t) (recno : Nat) (s : State) : Result :=
  let recnop := if want_recno then some ((recno + indx / P_INDX + 1) % 4294967296) else none
  let i1 := dup_walk f h indx
  if f.S_DELNO then
    let i2 := del_walk f h i1
    if deleted h i2 then
      ⟨DB_NOTFOUND, some 1, recnop, notfound_exit h lock s⟩
    else
      let r := BT_STK_ENTER E h i2 lock lock_mode s
      ⟨r.1, some 1, recnop, r.2⟩
  else
    let r := BT_STK_ENTER E h i1 lock lock_mode s
    ⟨r.1, some 1, recnop, r.2⟩

/-- The variables of `__bam_search` that live across iterations of its
`for (;;)` loop: the pinned page `h`, the lock held on it and its mode, the
`stack` flag, the running record number and the state. -/
structure Loop where
  h : PAGE
  lock : Nat
  lock_mode : db_lockmode_t
  stack : Bool
  recno : Nat
  st : State

/-- The binary search of the page `h` (lines 153-167): `jump` is `P_INDX` on a
leaf page and `O_INDX` otherwise, and the search starts from `base = 0`,
`lim = NUM_ENT(h) / jump`. -/
def page_search (E : Env) (h : PAGE) : BSearch :=
  let jump := if h.type = PageType.P_LBTREE then P_INDX else O_INDX
  bsearch (E.bam_cmp h) jump (NUM_ENT h / jump) 0 (NUM_ENT h / jump)

/-- What an iteration does on a leaf page (lines 159-160, 176-192 and
256-322): on a match the code from `match:` on; without one, not-found under
`S_EXACT` and else `base` as the index of the terminal entry. -/
def search_leaf (E : Env) (f : Flags) (want_recno : Bool) (x : Loop) : Result :=
  match page_search E x.h with
  | BSearch.found indx => bam_match E f want_recno x.h indx x.lock x.lock_mode x.recno x.st
  | BSearch.miss base =>
    if f.S_EXACT then
      ⟨DB_NOTFOUND, some 0, none, notfound_exit x.h x.lock x.st⟩
    else
      let e := BT_STK_ENTER E x.h base x.lock x.lock_mode x.st
      ⟨e.1, some 0, none, e.2⟩

/-- The slot an internal page is left through (lines 161 and 200): the slot of
an exact match, else the slot before `base` when `base` is not 0, else `base`. -/
def pick_indx (E : Env) (h : PAGE) : Nat :=
  match page_search E h with
  | BSearch.found i => i
  | BSearch.miss base => if base > 0 then base - O_INDX else base

/-- Lines 251-252: fetch the child page `pg`; on failure leave through `err:`,
else go round the loop with the child. -/
def fetch_child (E : Env) (pg lock : Nat) (lock_mode : db_lockmode_t) (stack : Bool)
    (recno : Nat) (s : State) : Result ⊕ Loop :=
  let g := memp_fget E pg s
  if g.1 ≠ 0 then Sum.inl ⟨g.1, none, none, err_exit g.2.2⟩
  else Sum.inr ⟨g.2.1, lock, lock_mode, stack, recno, g.2.2⟩

/-- Lines 211-224 and 251-252: leaving an internal page through slot `indx`
towards page `pg` when the path is being stacked. -/
def next_stacked (E : Env) (f : Flags) (stop : Int) (x : Loop) (indx recno pg : Nat) :
    Result ⊕ Loop :=
  if f.S_PARENT ∧ stop = (x.h.level : Int) then
    let e := BT_STK_ENTER E x.h indx x.lock x.lock_mode x.st
    Sum.inl ⟨e.1, none, none, e.2⟩
  else
    let e := BT_STK_PUSH E x.h indx x.lock x.lock_mode x.st
    if e.1 ≠ 0 then Sum.inl ⟨e.1, none, none, err_exit e.2⟩
    else
      let l := __db_lget E false pg db_lockmode_t.DB_LOCK_WRITE x.lock e.2
      if l.1 ≠ 0 then Sum.inl ⟨l.1, none, none, err_exit l.2.2⟩
      else fetch_child E pg l.2.1 db_lockmode_t.DB_LOCK_WRITE true recno l.2.2

/-- Line 231-234: whether the page below `h` is to be kept in the stack. -/
def keep_next (E : Env) (f : Flags) (stop : Int) (h : PAGE) : Bool :=
  (f.S_PARENT ∧ ((stop + 1) % 256).toNat ≥ (h.level + 255) % 256) ∨
    ((h.level : Int) - 1 = (E.LEAFLEVEL : Int))

/-- Lines 238-239: the lock mode for the page below, given whether it is kept. -/
def next_mode (f : Flags) (stack1 : Bool) : db_lockmode_t :=
  if stack1 ∧ f.S_WRITE then db_lockmode_t.DB_LOCK_WRITE else db_lockmode_t.DB_LOCK_READ

/-- Lines 225-252: leaving an internal page towards page `pg` when the path is
not being stacked: release the page, take the lock of the child coupled with
the lock held, and fetch the child. -/
def next_coupled (E : Env) (f : Flags) (stop : Int) (x : Loop) (recno pg : Nat) :
    Result ⊕ Loop :=
  let stack1 := keep_next E f stop x.h
  let s1 := memp_fput x.h x.st
  let lock_mode1 := next_mode f stack1
  let l := __db_lget E true pg lock_mode1 x.lock s1
  if l.1 ≠ 0 then Sum.inl ⟨l.1, none, none, err_exit (__LPUT l.2.1 l.2.2)⟩
  else fetch_child E pg l.2.1 lock_mode1 stack1 recno l.2.2

/-- One iteration of the `for (;;)` loop of `__bam_search` (lines 145-253),
together with the exits it may take: either the call returns (left) or the
loop goes round again on the child page (right).  `want_recno` says that
`recnop` is not null. -/
def search_page (E : Env) (f : Flags) (stop : Int) (want_recno : Bool) (x : Loop) :
    Result ⊕ Loop :=
  if x.h.type = PageType.P_LBTREE then Sum.inl (search_leaf E f want_recno x)
  else
    let indx := pick_indx E x.h
    let recno1 := if want_recno then sum_nrecs x.h indx x.recno else x.recno
    let pg := (GET_ITEM x.h indx).pgno
    if x.stack then next_stacked E f stop x indx recno1 pg
    else next_coupled E f stop x recno1 pg

/-- The `for (;;)` loop of `__bam_search`: iterate `search_page` until the call
returns; `fuel` bounds the number of pages visited. -/
def search_loop (E : Env) (f : Flags) (stop : Int) (want_recno : Bool) :
    Nat → Loop → Option Result
  | 0, _ => none
  | fuel + 1, x =>
    match search_page E f stop want_recno x with
    | Sum.inl r => some r
    | Sum.inr x1 => search_loop E f stop want_recno fuel x1

/-- Line 112: the mode of the first lock on the root. -/
def root_mode (stack : Bool) : db_lockmode_t :=
  if stack then db_lockmode_t.DB_LOCK_WRITE else db_lockmode_t.DB_LOCK_READ

/-- Lines 129-143 of `__bam_search`: with the root `h` fetched under `lock`,
take the write lock instead when the root has to be kept, then enter the loop. -/
def root_upgrade (E : Env) (f : Flags) (stop : Int) (pg : Nat) (stack : Bool)
    (lock_mode : db_lockmode_t) (lock : Nat) (h : PAGE) (s1 : State) : Result ⊕ Loop :=
  if !stack ∧
      ((f.S_PARENT ∧ ((stop + 1) % 256).toNat ≥ h.level) ∨
        (f.S_WRITE ∧ h.level = E.LEAFLEVEL)) then
    let s2 := __LPUT lock (memp_fput h s1)
    let l2 := __db_lget E false pg db_lockmode_t.DB_LOCK_WRITE lock s2
    if l2.1 ≠ 0 then Sum.inl ⟨l2.1, none, none, l2.2.2⟩
    else
      let g := memp_fget E pg l2.2.2
      if g.1 ≠ 0 then Sum.inl ⟨g.1, none, none, __LPUT l2.2.1 g.2.2⟩
      else Sum.inr ⟨g.2.1, l2.2.1, db_lockmode_t.DB_LOCK_WRITE, true, 0, g.2.2⟩
  else
    Sum.inr ⟨h, lock, lock_mode, stack, 0, s1⟩

/-- Lines 87-143 of `__bam_search`: clear the stack, lock and fetch the root,
and take the write lock instead when the root has to be kept.  Either the call
returns (left) or the loop is entered (right). -/
def search_root (E : Env) (f : Flags) (stop : Int) (s0 : State) : Result ⊕ Loop :=
  let s := BT_STK_CLR s0
  let pg := E.bt_root
  let stack : Bool := E.DB_BT_RECNUM && f.S_STACK
  let lock_mode := root_mode stack
  let l := __db_lget E false pg lock_mode LOCK_INVALID s
  if l.1 ≠ 0 then Sum.inl ⟨l.1, none, none, l.2.2⟩
  else
    let g := memp_fget E pg l.2.2
    if g.1 ≠ 0 then Sum.inl ⟨g.1, none, none, __LPUT l.2.1 g.2.2⟩
    else root_upgrade E f stop pg stack lock_mode l.2.1 g.2.1 g.2.2

/-- `__bam_search` (lines 68-323).  `want_recno` says that `recnop` is not null;
`fuel` bounds the number of pages visited. -/
def __bam_search (E : Env) (f : Flags) (stop : Int) (want_recno : Bool) (fuel : Nat)
    (s0 : State) : Option Result :=
  match search_root E f stop s0 with
  | Sum.inl r => some r
  | Sum.inr x => search_loop E f stop want_recno fuel x

/-! ## The trickle writer -/

/-- A buffer header: page number, offset of the owning file, reference count
and the flags `BH_DIRTY` and `BH_LOCKED`. -/
structure BH where
  pgno : Nat
  mf_offset : Nat
  ref : Nat
  BH_DIRTY : Bool
  BH_LOCKED : Bool
  deriving DecidableEq

/-- A file of the pool; `MP_TEMP` marks a temporary file. -/
structure MPOOLFILE where
  MP_TEMP : Bool
  deriving DecidableEq

/-- A cache region (`c_mp`): its buffer list `bhq` and the statistics the trickle
writer reads and updates.  The counters are page counts.  Modelled from the
spec: their C type, `u_int32_t`, is declared in `db.h`, outside the sources at
hand; a counter is a natural number, and the sum and the product the exit test
of `__memp_trick` forms of them are reduced modulo 2^32. -/
structure MPOOL where
  bhq : List BH
  st_page_clean : Nat
  st_page_dirty : Nat
  st_page_trickle : Nat
  deriving DecidableEq

/-- The pool handle (`dbmp`): the regions `reginfo[i].primary` (`nreg` is their
number), the files addressed by `R_ADDR(dbmp->reginfo, mf_offset)`, the
`extents` flag, and the log of the buffer writes attempted so far, each as
(region, position in `bhq`). -/
structure DB_MPOOL where
  reginfo : List MPOOL
  files : List MPOOLFILE
  extents : Bool
  writes : List (Nat × Nat)
  deriving DecidableEq

/-- The environment handle: the panic state and the pool handle, null when the
pool subsystem was not initialised. -/
structure DB_ENV where
  panic : Bool
  mp_handle : Option DB_MPOOL
  deriving DecidableEq

/-- What the layer below does with a buffer it is asked to write. -/
inductive WriteOutcome where
  | wrote
  | not_written
  | failed (ret : Int)
  deriving DecidableEq

/-- Modelled from the spec: `DB_RUNRECOVERY` of `db.h`, returned by `PANIC_CHECK`. -/
def DB_RUNRECOVERY : Int := -30992

/-- The file owning a buffer: `R_ADDR(dbmp->reginfo, bhp->mf_offset)`. -/
def R_ADDR (dbmp : DB_MPOOL) (bhp : BH) : MPOOLFILE :=
  dbmp.files.getD bhp.mf_offset ⟨false⟩

/-- The test of lines 105-116: the buffer is not skipped by the scan. -/
def eligible (dbmp : DB_MPOOL) (bhp : BH) : Bool :=
  !(bhp.ref != 0 || !bhp.BH_DIRTY || bhp.BH_LOCKED) && !(R_ADDR dbmp bhp).MP_TEMP

/-- The scan of lines 103-117: the first buffer of the list, from position `k`
on, that is not skipped, with its position. -/
def scan (dbmp : DB_MPOOL) : List BH → Nat → Option (Nat × BH)
  | [], _ => none
  | bhp :: rest, k =>
    if bhp.ref ≠ 0 ∨ bhp.BH_DIRTY = false ∨ bhp.BH_LOCKED = true then scan dbmp rest (k + 1)
    else if (R_ADDR dbmp bhp).MP_TEMP = true then scan dbmp rest (k + 1)
    else some (k, bhp)

/-- Modelled from the spec: `__memp_bhwrite` is not part of the sources at hand.
The layer below reports an error, or success without having written, or it
writes the page: the buffer at position `k` is no longer dirty and one page
moves from the dirty count to the clean count. -/
def __memp_bhwrite (io : BH → WriteOutcome) (c_mp : MPOOL) (k : Nat) (bhp : BH) :
    Int × Bool × MPOOL :=
  match io bhp with
  | WriteOutcome.failed e => (e, false, c_mp)
  | WriteOutcome.not_written => (0, false, c_mp)
  | WriteOutcome.wrote =>
    (0, true, { c_mp with bhq := c_mp.bhq.set k { bhp with BH_DIRTY := false },
                          st_page_clean := c_mp.st_page_clean + 1,
                          st_page_dirty := c_mp.st_page_dirty - 1 })

/-- What `__memp_trick` leaves behind: the return value, the count it found
(`nwrote`), the region and the positions of the buffers it tried to write. -/
structure TrickResult where
  ret : Int
  nwrote : Nat
  c_mp : MPOOL
  tried : List Nat
  deriving DecidableEq

/-- Lines 97-137 of `__memp_trick`: the code from `loop:` up to `done:`, with
`nwrote` pages written so far.  `pct` is the value of `(u_long)pct`.  The result
is the state at `done:`.  In the exit test `st_page_clean + st_page_dirty` and
`st_page_clean * 100` are computed in `u_int32_t` before they are converted to
`u_long`. -/
def trick_loop (io : BH → WriteOutcome) (dbmp : DB_MPOOL) (pct : Nat) :
    Nat → MPOOL → Nat → List Nat → Option TrickResult
  | 0, _, _, _ => none
  | fuel + 1, c_mp, nwrote, tried =>
    let total := (c_mp.st_page_clean + c_mp.st_page_dirty) % 4294967296
    if total = 0 ∨ c_mp.st_page_dirty = 0 ∨
        ((c_mp.st_page_clean * 100) % 4294967296) / total ≥ pct then
      some ⟨0, nwrote, c_mp, tried⟩
    else
      match scan dbmp c_mp.bhq 0 with
      | none => some ⟨0, nwrote, c_mp, tried⟩
      | some (k, bhp) =>
        let w := __memp_bhwrite io c_mp k bhp
        if w.1 ≠ 0 then some ⟨w.1, nwrote, w.2.2, tried ++ [k]⟩
        else if w.2.1 = false then some ⟨EPERM, nwrote, w.2.2, tried ++ [k]⟩
        else trick_loop io dbmp pct fuel w.2.2 (nwrote + 1) (tried ++ [k])

/-- What `__memp_trickle` and `__memp_trick` leave behind: the return value,
the value found through `nwrotep` (`none` when the pointer is null or nothing
was stored) and the pool handle. -/
structure TrickleResult where
  ret : Int
  nwrotep : Option Nat
  dbmp : DB_MPOOL
  deriving DecidableEq

/-- Lines 139-147 of `__memp_trick`: the code from `done:` on, reached with the
state `r` of the loop.  `has_nwrotep` says that `nwrotep` is not null, `nwrotep`
is what it points to on entry, and `flush` is what `__memp_close_flush_files`
returns. -/
def trick_done (flush : Int) (dbmp : DB_MPOOL) (ncache : Nat) (has_nwrotep : Bool)
    (nwrotep : Option Nat) (r : TrickResult) : TrickleResult :=
  let c_mp := { r.c_mp with st_page_trickle := r.c_mp.st_page_trickle + r.nwrote }
  let dbmp1 := { dbmp with reginfo := dbmp.reginfo.set ncache c_mp,
                           writes := dbmp.writes ++ r.tried.map (fun k => (ncache, k)) }
  let ret := if r.nwrote ≠ 0 ∧ dbmp.extents = true then
      (if flush ≠ 0 ∧ r.ret = 0 then flush else r.ret)
    else r.ret
  ⟨ret, if has_nwrotep then some r.nwrote else nwrotep, dbmp1⟩

/-- `__memp_trick` (lines 69-148): trickle the cache `ncache`. -/
def __memp_trick (io : BH → WriteOutcome) (flush : Int) (dbmp : DB_MPOOL) (ncache : Nat)
    (pct : Nat) (has_nwrotep : Bool) (nwrotep : Option Nat) (fuel : Nat) : Option TrickleResult :=
  match trick_loop io dbmp pct fuel (dbmp.reginfo.getD ncache ⟨[], 0, 0, 0⟩) 0 [] with
  | none => none
  | some r => some (trick_done flush dbmp ncache has_nwrotep nwrotep r)

/-- The loop of lines 57-59 of `__memp_trickle`, from cache `i` on, with `n`
caches left. -/
def trickle_loop (io : BH → WriteOutcome) (flush : Int) (pct : Nat) (has_nwrotep : Bool)
    (fuel : Nat) : Nat → Nat → DB_MPOOL → Option Nat → Option TrickleResult
  | 0, _, dbmp, nwrotep => some ⟨0, nwrotep, dbmp⟩
  | n + 1, i, dbmp, nwrotep =>
    match __memp_trick io flush dbmp i pct has_nwrotep nwrotep fuel with
    | none => none
    | some r =>
      if r.ret ≠ 0 then some r
      else trickle_loop io flush pct has_nwrotep fuel n (i + 1) r.dbmp r.nwrotep

/-- `__memp_trickle` (lines 31-63).  `has_nwrotep` says that `nwrotep` is not
null; the result is the return value, what is found through `nwrotep` and the
environment as the call leaves it.  The macros `PANIC_CHECK` and
`ENV_REQUIRES_CONFIG` are not part of the sources at hand: the first is taken
to return `DB_RUNRECOVERY` in the panic state, the second `EINVAL` when the
pool handle is null.  `R_LOCK` and `R_UNLOCK` have no effect on a single
thread of control. -/
def __memp_trickle (io : BH → WriteOutcome) (flush : Int) (dbenv : DB_ENV) (pct : Int)
    (has_nwrotep : Bool) (fuel : Nat) : Option (Int × Option Nat × DB_ENV) :=
  if dbenv.panic then some (DB_RUNRECOVERY, none, dbenv)
  else
    match dbenv.mp_handle with
    | none => some (EINVAL, none, dbenv)
    | some dbmp =>
      let nwrotep : Option Nat := if has_nwrotep then some 0 else none
      if pct < 1 ∨ pct > 100 then some (EINVAL, nwrotep, dbenv)
      else
        match trickle_loop io flush pct.toNat has_nwrotep fuel dbmp.reginfo.length 0 dbmp nwrotep with
        | none => none
        | some r => some (r.ret, r.nwrotep, { dbenv with mp_handle := some r.dbmp })

/-! ## Definitions used to state the properties -/

/-! ### Pages, stacks and trees -/

/-- A state whose stack has room for an entry at `csp`, possibly after growing. -/
def stack_ok (s : State) : Prop := 0 < s.stk.length ∧ s.csp ≤ s.stk.length

instance (s : State) : Decidable (stack_ok s) := by
  unfold stack_ok; infer_instance

/-- The terminal entry of the stack: the entry at `csp`. -/
def terminal (s : State) : Option EPG := s.stk[s.csp]?

/-- `lo .. hi` is a duplicate run of the page: key slots (even indices, each with
its data slot on the page) at stride 2 that all hold the same offset, while
neither the key slot before `lo` nor the one after `hi` holds that offset. -/
def is_dup_run (h : PAGE) (lo hi : Nat) : Prop :=
  lo % 2 = 0 ∧ hi % 2 = 0 ∧ lo ≤ hi ∧ hi + 1 < NUM_ENT h ∧
  (∀ j < hi, lo ≤ j → j % 2 = 0 → h.inp.getD j 0 = h.inp.getD (j + 2) 0) ∧
  (lo = 0 ∨ h.inp.getD (lo - 2) 0 ≠ h.inp.getD lo 0) ∧
  (NUM_ENT h ≤ hi + 2 ∨ h.inp.getD (hi + 2) 0 ≠ h.inp.getD hi 0)

instance (h : PAGE) (lo hi : Nat) : Decidable (is_dup_run h lo hi) := by
  unfold is_dup_run; infer_instance

/-- The index the code from `match:` on ends with (lines 274-299), when the
binary search matched at `i`: after the walk to the first or last duplicate
and, under `S_DELNO`, the walk over deleted entries. -/
def landing (f : Flags) (h : PAGE) (i : Nat) : Nat :=
  if f.S_DELNO then del_walk f h (dup_walk f h i) else dup_walk f h i

/-- The slots `0, jump, 2 * jump, ...` below `n * jump` are in key order with
respect to the key searched: before a slot the key is greater than, the key is
greater than every slot; after a slot the key is less than, the key is less
than every slot. -/
def slots_sorted (cmp : Nat → Int) (jump n : Nat) : Prop :=
  ∀ b < n, ∀ a < b, (0 < cmp (b * jump) → 0 < cmp (a * jump)) ∧
    (cmp (a * jump) < 0 → cmp (b * jump) < 0)

instance (cmp : Nat → Int) (jump n : Nat) : Decidable (slots_sorted cmp jump n) := by
  unfold slots_sorted; infer_instance

/-- The property `P` holds of the page numbered `pg` of the page store `T`
(and that page exists). -/
def on_page (T : Nat → Option PAGE) (pg : Nat) (P : PAGE → Prop) : Prop :=
  match T pg with
  | some h => P h
  | none => False

instance (T : Nat → Option PAGE) (pg : Nat) (P : PAGE → Prop) [∀ h, Decidable (P h)] :
    Decidable (on_page T pg P) := by
  unfold on_page; split <;> infer_instance

/-- The page number slot `i` of an internal page points to. -/
def child (h : PAGE) (i : Nat) : Nat := (GET_ITEM h i).pgno

/-- The pages of `T` under page `pg` form a tree of height `n`: at height 0 a
leaf page (`P_LBTREE`) with an even number of slots, above it an internal page
(`P_IBTREE`) with at least one slot, each slot pointing to a tree one
lower; every page carries its own page number and has fewer than 2^16 slots. -/
def wf_tree (T : Nat → Option PAGE) : Nat → Nat → Prop
  | 0, pg => on_page T pg (fun h =>
      h.pgno = pg ∧ h.type = PageType.P_LBTREE ∧ NUM_ENT h < 65536 ∧ NUM_ENT h % 2 = 0)
  | n + 1, pg => on_page T pg (fun h =>
      h.pgno = pg ∧ h.type = PageType.P_IBTREE ∧ 0 < NUM_ENT h ∧ NUM_ENT h < 65536 ∧
      ∀ i < NUM_ENT h, wf_tree T n (child h i))

instance wf_tree_decidable (T : Nat → Option PAGE) : ∀ n pg, Decidable (wf_tree T n pg)
  | 0, pg => by unfold wf_tree; infer_instance
  | n + 1, pg => by
    unfold wf_tree
    have := wf_tree_decidable T n
    infer_instance

/-- Each page of the tree of height `n` under `pg` has the level of its height:
`LEAFLEVEL` for a leaf and one more per step up, so that each child's level is
its parent's minus one; levels fit a `u_int8_t`. -/
def wf_levels (leaflevel : Nat) (T : Nat → Option PAGE) : Nat → Nat → Prop
  | 0, pg => on_page T pg (fun h => h.level = leaflevel)
  | n + 1, pg => on_page T pg (fun h =>
      h.level = leaflevel + (n + 1) ∧ h.level < 256 ∧
      ∀ i < NUM_ENT h, wf_levels leaflevel T n (child h i))

instance wf_levels_decidable (leaflevel : Nat) (T : Nat → Option PAGE) :
    ∀ n pg, Decidable (wf_levels leaflevel T n pg)
  | 0, pg => by unfold wf_levels; infer_instance
  | n + 1, pg => by
    unfold wf_levels
    have := wf_levels_decidable leaflevel T n
    infer_instance

/-- The leaf entries of the tree of height `n` under `pg`, in order: each is a
leaf page with the index of a key slot. -/
def leaf_entries (T : Nat → Option PAGE) : Nat → Nat → List (PAGE × Nat)
  | 0, pg =>
    match T pg with
    | some h => (List.range (NUM_ENT h / 2)).map (fun k => (h, 2 * k))
    | none => []
  | n + 1, pg =>
    match T pg with
    | some h => (List.range (NUM_ENT h)).flatMap (fun i => leaf_entries T n (child h i))
    | none => []

/-- The number of leaf entries of the tree under `pg` whose key compares equal
to the key searched. -/
def matches_in (cmp : PAGE → Nat → Int) (T : Nat → Option PAGE) (n pg : Nat) : Nat :=
  (leaf_entries T n pg).countP (fun e => cmp e.1 e.2 == 0)

/-- Key order of the tree under `pg`, with respect to the key searched.  On a
leaf the key slots are in key order and two slots holding the same offset
compare alike.  On an internal page the separators are consistent with the
subtrees: when the key occurs under slot `i`, it is greater than every
separator before `i`, not less than separator `i` (unless `i` is the first
slot) and less than every separator after `i`. -/
def key_ordered (cmp : PAGE → Nat → Int) (T : Nat → Option PAGE) : Nat → Nat → Prop
  | 0, pg => on_page T pg (fun h =>
      slots_sorted (cmp h) P_INDX (NUM_ENT h / P_INDX) ∧
      ∀ a < NUM_ENT h, ∀ b < NUM_ENT h, h.inp.getD a 0 = h.inp.getD b 0 → cmp h a = cmp h b)
  | n + 1, pg => on_page T pg (fun h =>
      ∀ i < NUM_ENT h,
        (0 < matches_in cmp T n (child h i) →
          (∀ j < i, 0 < cmp h j) ∧ (0 < i → 0 ≤ cmp h i) ∧
          (∀ j < NUM_ENT h, i < j → cmp h j < 0)) ∧
        key_ordered cmp T n (child h i))

instance key_ordered_decidable (cmp : PAGE → Nat → Int) (T : Nat → Option PAGE) :
    ∀ n pg, Decidable (key_ordered cmp T n pg)
  | 0, pg => by unfold key_ordered; infer_instance
  | n + 1, pg => by
    unfold key_ordered
    have := key_ordered_decidable cmp T n
    infer_instance

/-- The subtree record counts of the internal pages under `pg` are correct:
the `nrecs` of a slot is the number of leaf entries under it. -/
def nrecs_ok (T : Nat → Option PAGE) : Nat → Nat → Prop
  | 0, _ => True
  | n + 1, pg => on_page T pg (fun h =>
      ∀ i < NUM_ENT h,
        (GET_ITEM h i).nrecs = (leaf_entries T n (child h i)).length ∧
        nrecs_ok T n (child h i))

instance nrecs_ok_decidable (T : Nat → Option PAGE) : ∀ n pg, Decidable (nrecs_ok T n pg)
  | 0, pg => by unfold nrecs_ok; infer_instance
  | n + 1, pg => by
    unfold nrecs_ok
    have := nrecs_ok_decidable T n
    infer_instance

/-- The page cache serves the pages of `T`: every fetch of a page of `T`
succeeds and returns it. -/
def serves (E : Env) (T : Nat → Option PAGE) : Prop :=
  ∀ n pg h, T pg = some h → E.memp_fget n pg = (0, h)

/-- Neither the lock manager nor the allocator fails. -/
def grants (E : Env) : Prop :=
  (∀ n, E.lget_ret n = 0) ∧ (∀ k, E.calloc_ret k = 0)

/-! ### Traces -/

/-- The pages fetched with success during the events, in order. -/
def fgets (evs : List Event) : List Nat :=
  evs.filterMap (fun e => match e with
    | Event.fget pg true => some pg
    | _ => none)

/-- The pages released with `memp_fput` during the events, in order. -/
def fputs (evs : List Event) : List Nat :=
  evs.filterMap (fun e => match e with
    | Event.fput pg => some pg
    | _ => none)

/-- The locks handed to `__TLPUT` during the events, in order. -/
def tlputs (evs : List Event) : List Nat :=
  evs.filterMap (fun e => match e with
    | Event.tlput l => some l
    | _ => none)

/-- The effect of one event on the locks granted and not released since: a
granted request adds its handle, after dropping the handle held when the
request was coupled; `__LPUT` drops its handle.  `__TLPUT` leaves the handle
in, since a transactional release may keep the lock. -/
def hold_step (held : List Nat) (e : Event) : List Nat :=
  match e with
  | Event.lget couple old _ _ (some l) => (if couple then held.erase old else held) ++ [l]
  | Event.lput l => held.erase l
  | _ => held

/-- The locks granted during the events that were not released by `__LPUT` or
by a coupled request. -/
def still_held (evs : List Event) : List Nat := evs.foldl hold_step []

/-! ### Regions -/

/-- The exit test of lines 97-100 on the counts `c` (clean) and `d` (dirty), as
the source computes it: the sum and `c * 100` in `u_int32_t`. -/
def ratio_met (pct c d : Nat) : Prop :=
  (c + d) % 4294967296 = 0 ∨ d = 0 ∨ ((c * 100) % 4294967296) / ((c + d) % 4294967296) ≥ pct

instance (pct c d : Nat) : Decidable (ratio_met pct c d) := by
  unfold ratio_met; infer_instance

/-- Number of buffers of a list that are marked dirty. -/
def ndirty (l : List BH) : Nat := l.countP (fun b => b.BH_DIRTY)

/-! ### Sample inputs -/

/-- A leaf item holding the key or data value `k`; `del` sets its deleted bit. -/
def sample_item (k : Nat) (del : Bool) : Item := ⟨if del then 128 else 0, 0, 0, k⟩

/-- The leaf page with the keys 1, 2, 2, 3: the two entries for key 2 share the
key item at offset 2 and have the data items at offsets 3 and 4. -/
def sample_leaf : PAGE :=
  ⟨1, 1, PageType.P_LBTREE, [0, 1, 2, 3, 2, 4, 5, 6],
    [sample_item 1 false, sample_item 10 false, sample_item 2 false, sample_item 20 false,
     sample_item 21 false, sample_item 3 false, sample_item 30 false]⟩

/-- The page `sample_leaf` with the first of the two entries for key 2 marked
deleted. -/
def sample_leaf_del : PAGE :=
  ⟨1, 1, PageType.P_LBTREE, [0, 1, 2, 3, 2, 4, 5, 6],
    [sample_item 1 false, sample_item 10 false, sample_item 2 false, sample_item 20 true,
     sample_item 21 false, sample_item 3 false, sample_item 30 false]⟩

/-- A leaf page numbered `pgno` with the given keys, none a duplicate, each
with a data item; `del` lists the keys whose entry is marked deleted. -/
def sample_leaf_of (pgno : Nat) (keys del : List Nat) : PAGE :=
  ⟨pgno, 1, PageType.P_LBTREE, List.range (2 * keys.length),
    keys.flatMap (fun k => [sample_item k false, sample_item (10 * k) (del.contains k)])⟩

/-- An internal item: child page number, subtree record count, separator. -/
def sample_sep (pgno nrecs key : Nat) : Item := ⟨0, pgno, nrecs, key⟩

/-- A tree of height 1: the root, page 1, is an internal page over the leaf
pages 2 (keys 1, 2, 3) and 3 (keys 5, 7), with separator 5. -/
def sample_tree : List PAGE :=
  [⟨1, 2, PageType.P_IBTREE, [0, 1], [sample_sep 2 3 0, sample_sep 3 2 5]⟩,
   sample_leaf_of 2 [1, 2, 3] [],
   sample_leaf_of 3 [5, 7] []]

/-- A comparator: the difference between the key searched and the number stored
in the item the slot addresses. -/
def sample_cmp (key : Nat) (h : PAGE) (indx : Nat) : Int :=
  (key : Int) - ((GET_ITEM h indx).data : Int)

/-- The page store holding the pages of a list, by page number. -/
def store (pages : List PAGE) (pg : Nat) : Option PAGE :=
  pages.find? (fun h => h.pgno == pg)

/-- An environment over the pages `pages` with root `root`, in which every
lock request and every allocation succeeds and a fetch fails (with `EINVAL`)
only for a page number that is not among `pages`. -/
def sample_env (key root : Nat) (recnum : Bool) (pages : List PAGE) : Env :=
  ⟨1, root, recnum, sample_cmp key,
    fun _ pg => match store pages pg with
      | some h => (0, h)
      | none => (EINVAL, ⟨0, 0, PageType.P_INVALID, [], []⟩),
    fun _ => 0, fun _ => 0⟩

/-- A cursor with five unused stack entries and an empty trace. -/
def sample_state : State :=
  ⟨List.replicate 5 ⟨none, 0, LOCK_INVALID, db_lockmode_t.DB_LOCK_READ⟩, 0, [], 0, 0⟩

/-- Flag sets for the examples: all clear but `S_EXACT`. -/
def sample_flags : Flags := ⟨false, false, false, true, false, false⟩

/-- The loop variables on entry to the loop with the root page `h` read-locked. -/
def sample_loop (h : PAGE) : Loop :=
  ⟨h, 1, db_lockmode_t.DB_LOCK_READ, false, 0, sample_state⟩

/-- A buffer of file 0 that is neither pinned nor locked. -/
def sample_bh (pgno : Nat) (dirty : Bool) : BH := ⟨pgno, 0, 0, dirty, false⟩

/-- A region of `d` dirty buffers followed by `c` clean ones, with matching
counts. -/
def sample_region (c d : Nat) : MPOOL :=
  ⟨(List.range d).map (fun n => sample_bh n true) ++
     (List.range c).map (fun n => sample_bh (d + n) false), c, d, 0⟩

/-- A pool over the given regions with one file that is not temporary. -/
def sample_pool (rs : List MPOOL) : DB_MPOOL := ⟨rs, [⟨false⟩], false, []⟩

/-! ### Runs of the write loop -/

/-- The buffer is one the scan of `__memp_trick` does not skip, in the words of
the description: unpinned, marked dirty, not locked for I/O and not owned by
a temporary file. -/
def writable (dbmp : DB_MPOOL) (b : BH) : Prop :=
  b.ref = 0 ∧ b.BH_DIRTY = true ∧ b.BH_LOCKED = false ∧ (R_ADDR dbmp b).MP_TEMP = false

instance (dbmp : DB_MPOOL) (b : BH) : Decidable (writable dbmp b) := by
  unfold writable; infer_instance

/-- The buffer `b` stands at position `k` of the list `l` and is the first
writable buffer of the list. -/
def first_writable (dbmp : DB_MPOOL) (l : List BH) (k : Nat) (b : BH) : Prop :=
  l[k]? = some b ∧ writable dbmp b ∧ ∀ b' ∈ l.take k, ¬ writable dbmp b'

instance (dbmp : DB_MPOOL) (l : List BH) (k : Nat) (b : BH) :
    Decidable (first_writable dbmp l k b) := by
  unfold first_writable; infer_instance

/-- Every write of the run was attempted on the first writable buffer: the
attempts were made, in this order, at the positions `ks`, starting from the
region `c`, and each was made on the buffer that was the first writable one of
the region as `__memp_bhwrite` had left it after the attempts before. -/
def each_first_writable (io : BH → WriteOutcome) (dbmp : DB_MPOOL) : MPOOL → List Nat → Prop
  | _, [] => True
  | c, k :: ks =>
    match c.bhq[k]? with
    | none => False
    | some b =>
      first_writable dbmp c.bhq k b ∧
        each_first_writable io dbmp (__memp_bhwrite io c k b).2.2 ks

/-- From the region `c` the loop of `__memp_trick` goes round once for each
position of `ks`: each time the exit test of lines 97-100 fails, the first
writable buffer stands at that position and the layer below writes it.  `c1` is the region
after these rounds. -/
def wrote_run (io : BH → WriteOutcome) (dbmp : DB_MPOOL) (pct : Nat) :
    MPOOL → List Nat → MPOOL → Prop
  | c, [], c1 => c1 = c
  | c, k :: ks, c1 =>
    match c.bhq[k]? with
    | none => False
    | some b =>
      ¬ ratio_met pct c.st_page_clean c.st_page_dirty ∧ first_writable dbmp c.bhq k b ∧
        io b = WriteOutcome.wrote ∧ wrote_run io dbmp pct (__memp_bhwrite io c k b).2.2 ks c1

def wrote_run_dec (io : BH → WriteOutcome) (dbmp : DB_MPOOL) (pct : Nat) :
    ∀ (ks : List Nat) (c c1 : MPOOL), Decidable (wrote_run io dbmp pct c ks c1)
  | [], c, c1 => by unfold wrote_run; infer_instance
  | k :: ks, c, c1 => by
    unfold wrote_run
    have := wrote_run_dec io dbmp pct ks
    split <;> infer_instance

instance (io : BH → WriteOutcome) (dbmp : DB_MPOOL) (pct : Nat) (c : MPOOL) (ks : List Nat)
    (c1 : MPOOL) : Decidable (wrote_run io dbmp pct c ks c1) :=
  wrote_run_dec io dbmp pct ks c c1

/-! ### Releasing the stack -/

/-- The locks handed to `__LPUT` during the events, in order. -/
def lputs (evs : List Event) : List Nat :=
  evs.filterMap (fun e => match e with
    | Event.lput l => some l
    | _ => none)

/-- The calls `__bam_stkrel` makes for one stack entry: `memp_fput` of its page
when the page reference is not null, then the release of its lock when the
handle is valid, by `__LPUT` when `nolocks` is set and by `__TLPUT` otherwise. -/
def release_events (nolocks : Bool) (epg : EPG) : List Event :=
  (match epg.page with
    | some p => [Event.fput p.pgno]
    | none => []) ++
  (if epg.lock ≠ LOCK_INVALID then
    [if nolocks then Event.lput epg.lock else Event.tlput epg.lock]
  else [])

/-! ### Paths -/

/-- The entries of a path hold, in order, the pages of a descent that starts
at the page numbered `pg` with fetch number `n`: the first entry holds the page
the cache returned for `pg`, and each further entry the page it returned for
the child of the slot recorded in the entry before. -/
def descent (E : Env) : Nat → Nat → List EPG → Prop
  | _, _, [] => True
  | n, pg, e :: rest =>
    match e.page with
    | some h => E.memp_fget n pg = (0, h) ∧ descent E (n + 1) (child h e.indx) rest
    | none => False

/-- The page number a descent along the path goes to next: the child of the
slot recorded in the last entry, and `pg` when the path has no entry. -/
def next_pg (pg : Nat) : List EPG → Nat
  | [] => pg
  | e :: rest =>
    match e.page with
    | some h => next_pg (child h e.indx) rest
    | none => next_pg 0 rest

/-! ### Further sample inputs -/

/-- A layer below that writes the page numbered 0 and reports every other page
as not written. -/
def sample_io (b : BH) : WriteOutcome :=
  if b.pgno = 0 then WriteOutcome.wrote else WriteOutcome.not_written

/-- A cursor whose stack holds three entries up to `csp`, the second without a
page and the third without a lock, and an unused entry after them. -/
def sample_stack : State :=
  ⟨[⟨some (sample_leaf_of 2 [1] []), 0, 4, db_lockmode_t.DB_LOCK_WRITE⟩,
    ⟨none, 0, 5, db_lockmode_t.DB_LOCK_WRITE⟩,
    ⟨some (sample_leaf_of 3 [5] []), 2, LOCK_INVALID, db_lockmode_t.DB_LOCK_READ⟩,
    ⟨some (sample_leaf_of 9 [5] []), 2, 6, db_lockmode_t.DB_LOCK_READ⟩], 2, [], 0, 0⟩

/-- The environment `sample_env` with a page cache whose fetch number `k`
(counting from 0) fails with `EINVAL`. -/
def failing_env (key root : Nat) (recnum : Bool) (pages : List PAGE) (k : Nat) : Env :=
  { sample_env key root recnum pages with
    memp_fget := fun n pg =>
      if n = k then (EINVAL, ⟨0, 0, PageType.P_INVALID, [], []⟩)
      else (sample_env key root recnum pages).memp_fget n pg }

/-- A tree of the greatest height a `u_int8_t` level allows above leaf level 1:
the pages 1 to 254 are internal pages, page `pg` at level `256 - pg` with a
single slot for page `pg + 1`, and page 255 is a leaf with the key 5. -/
def sample_chain (pg : Nat) : Option PAGE :=
  if pg = 255 then some (sample_leaf_of 255 [5] [])
  else if 1 ≤ pg ∧ pg < 255 then
    some ⟨pg, 256 - pg, PageType.P_IBTREE, [0], [sample_sep (pg + 1) 1 0]⟩
  else none

/-- An environment over the pages of `sample_chain` with root 1 and leaf level
1, searched for the key 5, in which no lock request and no allocation fails. -/
def sample_chain_env : Env :=
  ⟨1, 1, false, sample_cmp 5,
    fun _ pg => match sample_chain pg with
      | some h => (0, h)
      | none => (EINVAL, ⟨0, 0, PageType.P_INVALID, [], []⟩),
    fun _ => 0, fun _ => 0⟩

/-- A tree of height 2: the root, page 1, is an internal page over page 2, an
internal page over the leaf pages 3 (keys 1, 2, 3) and 4 (keys 5, 7). -/
def sample_tree3 : List PAGE :=
  [⟨1, 3, PageType.P_IBTREE, [0], [sample_sep 2 5 0]⟩,
   ⟨2, 2, PageType.P_IBTREE, [0, 1], [sample_sep 3 3 0, sample_sep 4 2 5]⟩,
   sample_leaf_of 3 [1, 2, 3] [],
   sample_leaf_of 4 [5, 7] []]

/-- The result of a search from `sample_state` that returns within `fuel`
pages (and a result with return value 1 if it does not). -/
def sample_search (E : Env) (f : Flags) (stop : Int) (want_recno : Bool) (fuel : Nat) : Result :=
  (__bam_search E f stop want_recno fuel sample_state).getD ⟨1, none, none, sample_state⟩

/-- The root of `sample_tree`: an internal page at level 2 over the leaf pages
2 (separator 0) and 3 (separator 5). -/
def sample_root : PAGE :=
  ⟨1, 2, PageType.P_IBTREE, [0, 1], [sample_sep 2 3 0, sample_sep 3 2 5]⟩

/-! # Properties -/

/-! ## Lemmas -/

/-! ### The scan and the write loop of the trickle writer -/

theorem scan_some (dbmp : DB_MPOOL) : ∀ (l : List BH) (k0 k : Nat) (b : BH),
    scan dbmp l k0 = some (k, b) →
    k0 ≤ k ∧ l[k - k0]? = some b ∧ eligible dbmp b = true ∧
      ∀ j, j < k - k0 → ∀ b', l[j]? = some b' → eligible dbmp b' = false := by
  intro l
  induction l with
  | nil => intro k0 k b h; simp [scan] at h
  | cons a rest ih =>
    intro k0 k b h
    unfold scan at h
    by_cases h1 : a.ref ≠ 0 ∨ a.BH_DIRTY = false ∨ a.BH_LOCKED = true
    · rw [if_pos h1] at h
      obtain ⟨hk, hget, hel, hbefore⟩ := ih (k0 + 1) k b h
      have hk' : k - k0 = (k - (k0 + 1)) + 1 := by omega
      refine ⟨by omega, ?_, hel, ?_⟩
      · rw [hk']; simpa using hget
      · intro j hj b' hb'
        cases j with
        | zero =>
          simp at hb'
          subst hb'
          rcases h1 with h1 | h1 | h1 <;> simp [eligible, h1]
        | succ j =>
          simp at hb'
          exact hbefore j (by omega) b' hb'
    · rw [if_neg h1] at h
      by_cases h2 : (R_ADDR dbmp a).MP_TEMP = true
      · rw [if_pos h2] at h
        obtain ⟨hk, hget, hel, hbefore⟩ := ih (k0 + 1) k b h
        have hk' : k - k0 = (k - (k0 + 1)) + 1 := by omega
        refine ⟨by omega, ?_, hel, ?_⟩
        · rw [hk']; simpa using hget
        · intro j hj b' hb'
          cases j with
          | zero =>
            simp at hb'
            subst hb'
            simp [eligible, h2]
          | succ j =>
            simp at hb'
            exact hbefore j (by omega) b' hb'
      · rw [if_neg h2] at h
        simp at h
        obtain ⟨rfl, rfl⟩ := h
        refine ⟨le_refl _, by simp, ?_, by intro j hj; omega⟩
        simp only [not_or] at h1
        simp only [Bool.not_eq_true] at h2
        simp [eligible, h2]
        refine ⟨⟨?_, ?_⟩, ?_⟩
        · simpa using h1.1
        · simpa using h1.2.1
        · simpa using h1.2.2

theorem scan_none (dbmp : DB_MPOOL) : ∀ (l : List BH) (k0 : Nat),
    scan dbmp l k0 = none → ∀ b ∈ l, eligible dbmp b = false := by
  intro l
  induction l with
  | nil => intro k0 _ b hb; simp at hb
  | cons a rest ih =>
    intro k0 h b hb
    unfold scan at h
    by_cases h1 : a.ref ≠ 0 ∨ a.BH_DIRTY = false ∨ a.BH_LOCKED = true
    · rw [if_pos h1] at h
      rcases List.mem_cons.1 hb with rfl | hb
      · rcases h1 with h1 | h1 | h1 <;> simp [eligible, h1]
      · exact ih _ h b hb
    · rw [if_neg h1] at h
      by_cases h2 : (R_ADDR dbmp a).MP_TEMP = true
      · rw [if_pos h2] at h
        rcases List.mem_cons.1 hb with rfl | hb
        · simp [eligible, h2]
        · exact ih _ h b hb
      · rw [if_neg h2] at h
        simp at h

theorem countP_set_clear (p : BH → Bool) : ∀ (l : List BH) (k : Nat) (b b' : BH),
    l[k]? = some b → p b = true → p b' = false →
    (l.set k b').countP p + 1 = l.countP p := by
  intro l
  induction l with
  | nil => intro k b b' h; simp at h
  | cons a rest ih =>
    intro k b b' h hb hb'
    cases k with
    | zero =>
      simp at h
      subst h
      simp [List.countP_cons, hb, hb']
    | succ k =>
      simp at h
      have := ih k b b' h hb hb'
      simp only [List.set_cons_succ, List.countP_cons]
      omega

theorem trick_loop_exit (io : BH → WriteOutcome) (dbmp : DB_MPOOL) (pct : Nat) :
    ∀ (fuel : Nat) (c : MPOOL) (nw : Nat) (tried : List Nat), c.st_page_dirty < fuel →
    ∃ r, trick_loop io dbmp pct fuel c nw tried = some r ∧
      (r.ret = 0 → ratio_met pct r.c_mp.st_page_clean r.c_mp.st_page_dirty ∨
        ∀ b ∈ r.c_mp.bhq, eligible dbmp b = false) := by
  intro fuel
  induction fuel with
  | zero => intro c nw tried h; omega
  | succ fuel ih =>
    intro c nw tried hfuel
    unfold trick_loop
    by_cases hdone : (c.st_page_clean + c.st_page_dirty) % 4294967296 = 0 ∨
        c.st_page_dirty = 0 ∨
        ((c.st_page_clean * 100) % 4294967296) /
          ((c.st_page_clean + c.st_page_dirty) % 4294967296) ≥ pct
    · simp only [hdone, if_true]
      exact ⟨_, rfl, fun _ => Or.inl hdone⟩
    · simp only [hdone, if_false]
      cases hs : scan dbmp c.bhq 0 with
      | none =>
        exact ⟨_, rfl, fun _ => Or.inr (scan_none dbmp c.bhq 0 hs)⟩
      | some kb =>
        obtain ⟨k, b⟩ := kb
        simp only
        cases hio : io b with
        | failed e =>
          simp only [__memp_bhwrite, hio]
          by_cases he : e = 0
          · subst he
            simp [EPERM]
          · simp [he]
        | not_written =>
          simp [__memp_bhwrite, hio, EPERM]
        | wrote =>
          simp only [__memp_bhwrite, hio]
          simp only [ne_eq, not_true_eq_false, if_false, Bool.true_eq_false]
          have hd : c.st_page_dirty ≠ 0 := fun h => hdone (Or.inr (Or.inl h))
          apply ih
          simp only
          omega

/-- Writing leaves every buffer that is still dirty eligible, when all dirty
buffers were. -/
theorem trick_loop_dirty_eligible (io : BH → WriteOutcome) (dbmp : DB_MPOOL) (pct : Nat) :
    ∀ (fuel : Nat) (c : MPOOL) (nw : Nat) (tried : List Nat) (r : TrickResult),
    (∀ b ∈ c.bhq, b.BH_DIRTY = true → eligible dbmp b = true) →
    trick_loop io dbmp pct fuel c nw tried = some r →
    ∀ b ∈ r.c_mp.bhq, b.BH_DIRTY = true → eligible dbmp b = true := by
  intro fuel
  induction fuel with
  | zero => intro c nw tried r _ h; simp [trick_loop] at h
  | succ fuel ih =>
    intro c nw tried r hall h
    unfold trick_loop at h
    by_cases hdone : (c.st_page_clean + c.st_page_dirty) % 4294967296 = 0 ∨
        c.st_page_dirty = 0 ∨
        ((c.st_page_clean * 100) % 4294967296) /
          ((c.st_page_clean + c.st_page_dirty) % 4294967296) ≥ pct
    · simp only [hdone, if_true, Option.some.injEq] at h
      subst h; exact hall
    · simp only [hdone, if_false] at h
      cases hs : scan dbmp c.bhq 0 with
      | none =>
        simp only [hs, Option.some.injEq] at h
        subst h; exact hall
      | some kb =>
        obtain ⟨k, b⟩ := kb
        simp only [hs] at h
        cases hio : io b with
        | failed e =>
          simp only [__memp_bhwrite, hio] at h
          by_cases he : e = 0
          · subst he
            simp at h
            subst h; exact hall
          · simp [he] at h
            subst h; exact hall
        | not_written =>
          simp [__memp_bhwrite, hio] at h
          subst h; exact hall
        | wrote =>
          simp only [__memp_bhwrite, hio] at h
          simp only [ne_eq, not_true_eq_false, if_false, Bool.true_eq_false] at h
          refine ih _ _ _ r ?_ h
          intro b' hb' hdirty
          rcases List.mem_or_eq_of_mem_set hb' with hm | heq
          · exact hall b' hm hdirty
          · subst heq
            simp at hdirty

/-- When the sum of the counts fits 32 bits, the exit test implies the test in
unbounded arithmetic: the product reduced modulo 2^32 is at most the product. -/
theorem ratio_met_nat (pct c d : Nat) (hb : c + d < 4294967296) (h : ratio_met pct c d) :
    c + d = 0 ∨ d = 0 ∨ pct ≤ (c * 100) / (c + d) := by
  unfold ratio_met at h
  rw [Nat.mod_eq_of_lt hb] at h
  rcases h with h | h | h
  · exact Or.inl h
  · exact Or.inr (Or.inl h)
  · right; right
    exact Nat.le_trans h (Nat.div_le_div_right (Nat.mod_le _ _))

/-- When a hundred times the sum of the counts fits 32 bits, the exit test is
the test in unbounded arithmetic. -/
theorem ratio_met_small (pct c d : Nat) (hb : (c + d) * 100 < 4294967296) :
    ratio_met pct c d ↔ (c + d = 0 ∨ d = 0 ∨ pct ≤ (c * 100) / (c + d)) := by
  unfold ratio_met
  rw [Nat.mod_eq_of_lt (by omega : c + d < 4294967296),
    Nat.mod_eq_of_lt (by omega : c * 100 < 4294967296)]

theorem ratio_met_exact (pct c d : Nat) (hb : c + d < 4294967296) (h : ratio_met pct c d) :
    c + d = 0 ∨ d = 0 ∨ (pct : ℚ) / 100 ≤ (c : ℚ) / ((c : ℚ) + (d : ℚ)) := by
  rcases ratio_met_nat pct c d hb h with h | h | h
  · exact Or.inl h
  · exact Or.inr (Or.inl h)
  · by_cases ht : c + d = 0
    · exact Or.inl ht
    · right; right
      have hpos : 0 < c + d := Nat.pos_of_ne_zero ht
      have h1 : pct * (c + d) ≤ c * 100 := (Nat.le_div_iff_mul_le hpos).1 h
      have hq : (0 : ℚ) < (c : ℚ) + (d : ℚ) := by exact_mod_cast hpos
      rw [div_le_div_iff₀ (by norm_num) hq]
      have : ((pct * (c + d) : Nat) : ℚ) ≤ ((c * 100 : Nat) : ℚ) := by exact_mod_cast h1
      push_cast at this
      linarith

theorem trick_loop_count (io : BH → WriteOutcome) (dbmp : DB_MPOOL) (pct : Nat)
    (hio : ∀ b, io b = WriteOutcome.wrote) :
    ∀ (fuel : Nat) (c : MPOOL) (nw : Nat) (tried : List Nat), c.st_page_dirty < fuel →
    ndirty c.bhq = c.st_page_dirty →
    (∀ b ∈ c.bhq, b.BH_DIRTY = true → eligible dbmp b = true) →
    ∃ r n, trick_loop io dbmp pct fuel c nw tried = some r ∧ r.ret = 0 ∧
      r.nwrote = nw + n ∧ n ≤ c.st_page_dirty ∧
      ratio_met pct (c.st_page_clean + n) (c.st_page_dirty - n) ∧
      (∀ m, m < n → ¬ ratio_met pct (c.st_page_clean + m) (c.st_page_dirty - m)) ∧
      r.tried.length = tried.length + n ∧
      (n = 0 → r.c_mp = c ∧ r.tried = tried) := by
  intro fuel
  induction fuel with
  | zero => intro c nw tried h; omega
  | succ fuel ih =>
    intro c nw tried hfuel hcnt hall
    unfold trick_loop
    by_cases hdone : (c.st_page_clean + c.st_page_dirty) % 4294967296 = 0 ∨
        c.st_page_dirty = 0 ∨
        ((c.st_page_clean * 100) % 4294967296) /
          ((c.st_page_clean + c.st_page_dirty) % 4294967296) ≥ pct
    · simp only [hdone, if_true]
      refine ⟨_, 0, rfl, rfl, rfl, Nat.zero_le _, ?_, ?_, rfl, fun _ => ⟨rfl, rfl⟩⟩
      · simpa [ratio_met] using hdone
      · intro m hm; omega
    · simp only [hdone, if_false]
      have hd : c.st_page_dirty ≠ 0 := fun h => hdone (Or.inr (Or.inl h))
      cases hs : scan dbmp c.bhq 0 with
      | none =>
        exfalso
        have hnone := scan_none dbmp c.bhq 0 hs
        have hz : ndirty c.bhq = 0 := by
          unfold ndirty
          rw [List.countP_eq_zero]
          intro b hb hdirty
          have := hall b hb hdirty
          rw [hnone b hb] at this
          exact Bool.false_ne_true this
        omega
      | some kb =>
        obtain ⟨k, b⟩ := kb
        obtain ⟨_, hget, hel, _⟩ := scan_some dbmp c.bhq 0 k b hs
        simp only [Nat.sub_zero] at hget
        have hbd : b.BH_DIRTY = true := by
          simp only [eligible, Bool.and_eq_true, Bool.not_eq_true', Bool.or_eq_false_iff] at hel
          simpa using hel.1.1.2
        simp only [__memp_bhwrite, hio b]
        simp only [ne_eq, not_true_eq_false, if_false, Bool.true_eq_false]
        have hcnt' : ndirty (c.bhq.set k { b with BH_DIRTY := false }) + 1 = ndirty c.bhq :=
          countP_set_clear (fun b => b.BH_DIRTY) c.bhq k b _ hget hbd rfl
        obtain ⟨r, n, hr, hret, hnw, hle, hmet, hleast, htried, _⟩ :=
          ih { c with bhq := c.bhq.set k { b with BH_DIRTY := false },
                      st_page_clean := c.st_page_clean + 1,
                      st_page_dirty := c.st_page_dirty - 1 } (nw + 1) (tried ++ [k])
            (by simp only; omega) (by simp only; omega)
            (by
              intro b' hb' hdirty
              rcases List.mem_or_eq_of_mem_set hb' with hm | heq
              · exact hall b' hm hdirty
              · subst heq; simp at hdirty)
        simp only at hle hmet hleast
        simp only [List.length_append, List.length_singleton] at htried
        refine ⟨r, n + 1, hr, hret, by omega, by omega, ?_, ?_, by omega, by omega⟩
        · have e1 : c.st_page_clean + (n + 1) = c.st_page_clean + 1 + n := by omega
          have e2 : c.st_page_dirty - (n + 1) = c.st_page_dirty - 1 - n := by omega
          rw [e1, e2]; exact hmet
        · intro m hm
          cases m with
          | zero => simpa [ratio_met] using hdone
          | succ m =>
            have e1 : c.st_page_clean + (m + 1) = c.st_page_clean + 1 + m := by omega
            have e2 : c.st_page_dirty - (m + 1) = c.st_page_dirty - 1 - m := by omega
            rw [e1, e2]; exact hleast m (by omega)

theorem set_same {α : Type} : ∀ (l : List α) (k : Nat) (a : α), l[k]? = some a → l.set k a = l := by
  intro l
  induction l with
  | nil => intro k a h; simp at h
  | cons x rest ih =>
    intro k a h
    cases k with
    | zero => simp at h; simp [h]
    | succ k => simp at h; simp [ih k a h]

/-- Writing keeps the dirty count equal to the number of dirty buffers. -/
theorem trick_loop_consistent (io : BH → WriteOutcome) (dbmp : DB_MPOOL) (pct : Nat) :
    ∀ (fuel : Nat) (c : MPOOL) (nw : Nat) (tried : List Nat) (r : TrickResult),
    ndirty c.bhq = c.st_page_dirty →
    trick_loop io dbmp pct fuel c nw tried = some r →
    ndirty r.c_mp.bhq = r.c_mp.st_page_dirty := by
  intro fuel
  induction fuel with
  | zero => intro c nw tried r _ h; simp [trick_loop] at h
  | succ fuel ih =>
    intro c nw tried r hcnt h
    unfold trick_loop at h
    by_cases hdone : (c.st_page_clean + c.st_page_dirty) % 4294967296 = 0 ∨
        c.st_page_dirty = 0 ∨
        ((c.st_page_clean * 100) % 4294967296) /
          ((c.st_page_clean + c.st_page_dirty) % 4294967296) ≥ pct
    · simp only [hdone, if_true, Option.some.injEq] at h
      subst h; exact hcnt
    · simp only [hdone, if_false] at h
      have hd : c.st_page_dirty ≠ 0 := fun h => hdone (Or.inr (Or.inl h))
      cases hs : scan dbmp c.bhq 0 with
      | none =>
        simp only [hs, Option.some.injEq] at h
        subst h; exact hcnt
      | some kb =>
        obtain ⟨k, b⟩ := kb
        obtain ⟨_, hget, hel, _⟩ := scan_some dbmp c.bhq 0 k b hs
        simp only [Nat.sub_zero] at hget
        have hbd : b.BH_DIRTY = true := by
          simp only [eligible, Bool.and_eq_true, Bool.not_eq_true', Bool.or_eq_false_iff] at hel
          simpa using hel.1.1.2
        simp only [hs] at h
        cases hio : io b with
        | failed e =>
          simp only [__memp_bhwrite, hio] at h
          by_cases he : e = 0
          · subst he
            simp at h
            subst h; exact hcnt
          · simp [he] at h
            subst h; exact hcnt
        | not_written =>
          simp [__memp_bhwrite, hio] at h
          subst h; exact hcnt
        | wrote =>
          simp only [__memp_bhwrite, hio] at h
          simp only [ne_eq, not_true_eq_false, if_false, Bool.true_eq_false] at h
          have hcnt' : ndirty (c.bhq.set k { b with BH_DIRTY := false }) + 1 = ndirty c.bhq :=
            countP_set_clear (fun b => b.BH_DIRTY) c.bhq k b _ hget hbd rfl
          refine ih _ _ _ r ?_ h
          simp only
          omega

/-- Writing keeps the sum of the clean and the dirty count. -/
theorem trick_loop_sum (io : BH → WriteOutcome) (dbmp : DB_MPOOL) (pct : Nat) :
    ∀ (fuel : Nat) (c : MPOOL) (nw : Nat) (tried : List Nat) (r : TrickResult),
    trick_loop io dbmp pct fuel c nw tried = some r →
    r.c_mp.st_page_clean + r.c_mp.st_page_dirty = c.st_page_clean + c.st_page_dirty := by
  intro fuel
  induction fuel with
  | zero => intro c nw tried r h; simp [trick_loop] at h
  | succ fuel ih =>
    intro c nw tried r h
    unfold trick_loop at h
    by_cases hdone : (c.st_page_clean + c.st_page_dirty) % 4294967296 = 0 ∨
        c.st_page_dirty = 0 ∨
        ((c.st_page_clean * 100) % 4294967296) /
          ((c.st_page_clean + c.st_page_dirty) % 4294967296) ≥ pct
    · simp only [hdone, if_true, Option.some.injEq] at h
      subst h; rfl
    · simp only [hdone, if_false] at h
      have hd : c.st_page_dirty ≠ 0 := fun h => hdone (Or.inr (Or.inl h))
      cases hs : scan dbmp c.bhq 0 with
      | none =>
        simp only [hs, Option.some.injEq] at h
        subst h; rfl
      | some kb =>
        obtain ⟨k, b⟩ := kb
        simp only [hs] at h
        cases hio : io b with
        | failed e =>
          simp only [__memp_bhwrite, hio] at h
          by_cases he : e = 0
          · subst he
            simp at h
            subst h; rfl
          · simp [he] at h
            subst h; rfl
        | not_written =>
          simp [__memp_bhwrite, hio] at h
          subst h; rfl
        | wrote =>
          simp only [__memp_bhwrite, hio] at h
          simp only [ne_eq, not_true_eq_false, if_false, Bool.true_eq_false] at h
          have := ih _ _ _ r h
          simp only at this
          omega

/-! ### The walks over a duplicate run -/

theorem dup_last_run (h : PAGE) (lo hi : Nat) (hn : NUM_ENT h < 65536)
    (hrun : is_dup_run h lo hi) :
    ∀ (fuel i : Nat), lo ≤ i → i ≤ hi → i % 2 = 0 → hi ≤ i + 2 * fuel →
      dup_last h fuel i = hi := by
  obtain ⟨hlo, hhi, hle, hend, hsame, _, hmax⟩ := hrun
  intro fuel
  induction fuel with
  | zero => intro i _ h2 _ h4; simp only [dup_last]; omega
  | succ fuel ih =>
    intro i h1 h2 h3 h4
    rw [dup_last]
    have hmod : (NUM_ENT h + 65536 - P_INDX) % 65536 = NUM_ENT h - 2 := by
      simp only [P_INDX]; omega
    rw [hmod]
    by_cases hi' : i = hi
    · subst hi'
      have : ¬ (i < NUM_ENT h - 2 ∧ h.inp.getD i 0 = h.inp.getD (i + P_INDX) 0) := by
        rintro ⟨ha, hb⟩
        rcases hmax with hm | hm
        · omega
        · exact hm hb.symm
      rw [if_neg this]
    · have hlt : i < hi := lt_of_le_of_ne h2 hi'
      have hcond : i < NUM_ENT h - 2 ∧ h.inp.getD i 0 = h.inp.getD (i + P_INDX) 0 :=
        ⟨by omega, hsame i hlt h1 h3⟩
      rw [if_pos hcond]
      have hm2 : (i + P_INDX) % 65536 = i + 2 := by simp only [P_INDX]; omega
      rw [hm2]
      exact ih (i + 2) (by omega) (by omega) (by omega) (by omega)

theorem dup_first_run (h : PAGE) (lo hi : Nat) (hn : NUM_ENT h < 65536)
    (hrun : is_dup_run h lo hi) :
    ∀ (fuel i : Nat), lo ≤ i → i ≤ hi → i % 2 = 0 → i ≤ lo + 2 * fuel →
      dup_first h fuel i = lo := by
  obtain ⟨hlo, hhi, hle, hend, hsame, hmin, _⟩ := hrun
  intro fuel
  induction fuel with
  | zero => intro i h1 _ _ h4; simp only [dup_first]; omega
  | succ fuel ih =>
    intro i h1 h2 h3 h4
    rw [dup_first]
    by_cases hi' : i = lo
    · subst hi'
      have : ¬ (i > 0 ∧ h.inp.getD i 0 = h.inp.getD (i - P_INDX) 0) := by
        rintro ⟨ha, hb⟩
        rcases hmin with hm | hm
        · omega
        · exact hm hb.symm
      rw [if_neg this]
    · have hlt : lo < i := lt_of_le_of_ne h1 (Ne.symm hi')
      have h2' : i - 2 + 2 = i := by omega
      have hcond : i > 0 ∧ h.inp.getD i 0 = h.inp.getD (i - P_INDX) 0 := by
        refine ⟨by omega, ?_⟩
        have := hsame (i - 2) (by omega) (by omega) (by omega)
        rw [h2'] at this
        simpa only [P_INDX] using this.symm
      rw [if_pos hcond]
      have hm2 : (i + 65536 - P_INDX) % 65536 = i - 2 := by simp only [P_INDX]; omega
      rw [hm2]
      exact ih (i - 2) (by omega) (by omega) (by omega) (by omega)

theorem del_fwd_run (h : PAGE) (lo hi : Nat) (hn : NUM_ENT h < 65536)
    (hrun : is_dup_run h lo hi) :
    ∀ (fuel a : Nat), lo ≤ a → a ≤ hi → a % 2 = 0 → hi ≤ a + 2 * fuel →
      a ≤ del_fwd h fuel a ∧ del_fwd h fuel a ≤ hi ∧ del_fwd h fuel a % 2 = 0 ∧
      (∀ k, a ≤ k → k < del_fwd h fuel a → k % 2 = 0 → deleted h k = true) ∧
      (deleted h (del_fwd h fuel a) = true → del_fwd h fuel a = hi) := by
  obtain ⟨hlo, hhi, hle, hend, hsame, _, hmax⟩ := hrun
  intro fuel
  induction fuel with
  | zero =>
    intro a h1 h2 h3 h4
    simp only [dup_last, del_fwd]
    exact ⟨le_refl _, h2, h3, fun k hk1 hk2 => by omega, fun _ => by omega⟩
  | succ fuel ih =>
    intro a h1 h2 h3 h4
    rw [del_fwd]
    have hmod : (NUM_ENT h + 65536 - P_INDX) % 65536 = NUM_ENT h - 2 := by
      simp only [P_INDX]; omega
    rw [hmod]
    by_cases hcond : deleted h a = true ∧ a < NUM_ENT h - 2 ∧
        h.inp.getD a 0 = h.inp.getD (a + P_INDX) 0
    · rw [if_pos hcond]
      have hlt : a < hi := by
        rcases Nat.lt_or_ge a hi with hl | hl
        · exact hl
        · exfalso
          have hah : a = hi := by omega
          subst hah
          rcases hmax with hm | hm
          · omega
          · exact hm hcond.2.2.symm
      have hm2 : (a + P_INDX) % 65536 = a + 2 := by simp only [P_INDX]; omega
      rw [hm2]
      obtain ⟨i1, i2, i3, i4, i5⟩ := ih (a + 2) (by omega) (by omega) (by omega) (by omega)
      refine ⟨by omega, i2, i3, ?_, i5⟩
      intro k hk1 hk2 hk3
      by_cases hka : k = a
      · subst hka; exact hcond.1
      · exact i4 k (by omega) hk2 hk3
    · rw [if_neg hcond]
      refine ⟨le_refl _, h2, h3, fun k hk1 hk2 => by omega, ?_⟩
      intro hdel
      by_contra hne
      have hlt : a < hi := lt_of_le_of_ne h2 hne
      exact hcond ⟨hdel, by omega, hsame a hlt h1 h3⟩

theorem del_back_run (h : PAGE) (lo hi : Nat) (hn : NUM_ENT h < 65536)
    (hrun : is_dup_run h lo hi) :
    ∀ (fuel a : Nat), lo ≤ a → a ≤ hi → a % 2 = 0 → a ≤ lo + 2 * fuel →
      lo ≤ del_back h fuel a ∧ del_back h fuel a ≤ a ∧ del_back h fuel a % 2 = 0 ∧
      (∀ k, del_back h fuel a < k → k ≤ a → k % 2 = 0 → deleted h k = true) ∧
      (deleted h (del_back h fuel a) = true → del_back h fuel a = lo) := by
  obtain ⟨hlo, hhi, hle, hend, hsame, hmin, _⟩ := hrun
  intro fuel
  induction fuel with
  | zero =>
    intro a h1 h2 h3 h4
    simp only [del_back]
    exact ⟨h1, le_refl _, h3, fun k hk1 hk2 => by omega, fun _ => by omega⟩
  | succ fuel ih =>
    intro a h1 h2 h3 h4
    rw [del_back]
    by_cases hcond : deleted h a = true ∧ a > 0 ∧
        h.inp.getD a 0 = h.inp.getD (a - P_INDX) 0
    · rw [if_pos hcond]
      have hlt : lo < a := by
        rcases Nat.lt_or_ge lo a with hl | hl
        · exact hl
        · exfalso
          have hah : a = lo := by omega
          subst hah
          rcases hmin with hm | hm
          · omega
          · exact hm (by simpa only [P_INDX] using hcond.2.2.symm)
      have hm2 : (a + 65536 - P_INDX) % 65536 = a - 2 := by simp only [P_INDX]; omega
      rw [hm2]
      obtain ⟨i1, i2, i3, i4, i5⟩ := ih (a - 2) (by omega) (by omega) (by omega) (by omega)
      refine ⟨i1, by omega, i3, ?_, i5⟩
      intro k hk1 hk2 hk3
      by_cases hka : k = a
      · subst hka; exact hcond.1
      · exact i4 k hk1 (by omega) hk3
    · rw [if_neg hcond]
      refine ⟨h1, le_refl _, h3, fun k hk1 hk2 => by omega, ?_⟩
      intro hdel
      by_contra hne
      have hlt : lo < a := lt_of_le_of_ne h1 (Ne.symm hne)
      have h2' : a - 2 + 2 = a := by omega
      have := hsame (a - 2) (by omega) (by omega) (by omega)
      rw [h2'] at this
      exact hcond ⟨hdel, by omega, by simpa only [P_INDX] using this.symm⟩

/-! ### The stack macros -/

theorem BT_STK_ENTER_ok (E : Env) (h : PAGE) (indx lock : Nat) (mode : db_lockmode_t)
    (s : State) (hcal : ∀ k, E.calloc_ret k = 0) (hs : stack_ok s) :
    (BT_STK_ENTER E h indx lock mode s).1 = 0 ∧
    terminal (BT_STK_ENTER E h indx lock mode s).2 = some ⟨some h, indx, lock, mode⟩ ∧
    (BT_STK_ENTER E h indx lock mode s).2.csp = s.csp ∧
    (BT_STK_ENTER E h indx lock mode s).2.csp < (BT_STK_ENTER E h indx lock mode s).2.stk.length ∧
    (BT_STK_ENTER E h indx lock mode s).2.trace = s.trace ∧
    (BT_STK_ENTER E h indx lock mode s).2.nlget = s.nlget ∧
    (BT_STK_ENTER E h indx lock mode s).2.nfget = s.nfget ∧
    (BT_STK_ENTER E h indx lock mode s).2.stk.take s.csp = s.stk.take s.csp := by
  obtain ⟨hpos, hle⟩ := hs
  by_cases hfull : s.csp = s.stk.length
  · simp only [BT_STK_ENTER, hfull, if_true, __bam_stkgrow, hcal, terminal, ne_eq, not_true_eq_false,
      if_false]
    simp only [List.length_set, List.length_append, List.length_replicate]
    refine ⟨trivial, ?_, trivial, by omega, trivial, trivial, trivial, ?_⟩
    · rw [List.getElem?_set_self (by simp; omega)]
    · rw [List.set_take, List.set_eq_of_length_le (by simp),
        List.take_append_of_le_length (le_refl _)]
  · have hlt : s.csp < s.stk.length := lt_of_le_of_ne hle hfull
    simp only [BT_STK_ENTER, hfull, if_false, if_true, terminal]
    simp only [List.length_set]
    refine ⟨trivial, ?_, trivial, hlt, trivial, trivial, trivial, ?_⟩
    · rw [List.getElem?_set_self hlt]
    · rw [List.set_take, List.set_eq_of_length_le (by simp)]

theorem BT_STK_ENTER_spec (E : Env) (h : PAGE) (indx lock : Nat) (mode : db_lockmode_t)
    (s : State) (hs : stack_ok s) :
    ((BT_STK_ENTER E h indx lock mode s).1 = 0 →
      terminal (BT_STK_ENTER E h indx lock mode s).2 = some ⟨some h, indx, lock, mode⟩ ∧
      (BT_STK_ENTER E h indx lock mode s).2.csp < (BT_STK_ENTER E h indx lock mode s).2.stk.length) ∧
    (BT_STK_ENTER E h indx lock mode s).2.trace = s.trace ∧
    (BT_STK_ENTER E h indx lock mode s).2.nlget = s.nlget ∧
    (BT_STK_ENTER E h indx lock mode s).2.nfget = s.nfget ∧
    stack_ok (BT_STK_ENTER E h indx lock mode s).2 := by
  obtain ⟨hpos, hle⟩ := hs
  by_cases hfull : s.csp = s.stk.length
  · by_cases hc : E.calloc_ret (s.stk.length * 2) = 0
    · simp only [BT_STK_ENTER, hfull, if_true, __bam_stkgrow, hc, terminal, ne_eq,
        not_true_eq_false, if_false, stack_ok]
      simp only [List.length_set, List.length_append, List.length_replicate]
      refine ⟨fun _ => ⟨?_, by omega⟩, trivial, trivial, trivial, by omega, by omega⟩
      rw [List.getElem?_set_self (by simp; omega)]
    · simp only [BT_STK_ENTER, hfull, if_true, __bam_stkgrow, hc, ne_eq, not_false_eq_true,
        if_false, stack_ok]
      exact ⟨fun h0 => h0.elim, trivial, trivial, trivial, hpos, le_refl _⟩
  · have hlt : s.csp < s.stk.length := lt_of_le_of_ne hle hfull
    simp only [BT_STK_ENTER, hfull, if_false, if_true, terminal, stack_ok]
    simp only [List.length_set]
    refine ⟨fun _ => ⟨?_, hlt⟩, trivial, trivial, trivial, hpos, hle⟩
    rw [List.getElem?_set_self hlt]

/-! ### The binary search -/

theorem bsearch_spec (cmp : Nat → Int) (jump n : Nat) (hn : n * jump < 65536) :
    ∀ (fuel B lim : Nat), lim ≤ fuel → B + lim ≤ n →
      (∀ i, bsearch cmp jump fuel (B * jump) lim = BSearch.found i →
        ∃ k, B ≤ k ∧ k < B + lim ∧ i = k * jump ∧ cmp i = 0) ∧
      (∀ b, bsearch cmp jump fuel (B * jump) lim = BSearch.miss b →
        ∃ k, B ≤ k ∧ k ≤ B + lim ∧ b = k * jump ∧
          (slots_sorted cmp jump n →
            (∀ a, B ≤ a → a < k → 0 < cmp (a * jump)) ∧
            (∀ a, k ≤ a → a < B + lim → cmp (a * jump) < 0))) := by
  intro fuel
  induction fuel with
  | zero =>
    intro B lim h1 _
    have hl : lim = 0 := by omega
    subst hl
    rw [bsearch]
    refine ⟨fun i h => (by cases h), fun b h => ?_⟩
    injection h with h
    exact ⟨B, le_refl _, by omega, h.symm, fun _ => ⟨fun a h1 h2 => by omega, fun a h1 h2 => by omega⟩⟩
  | succ fuel ih =>
    intro B lim h1 h2
    rw [bsearch]
    by_cases hl : lim = 0
    · subst hl
      rw [if_pos rfl]
      refine ⟨fun i h => (by cases h), fun b h => ?_⟩
      injection h with h
      exact ⟨B, le_refl _, by omega, h.symm, fun _ => ⟨fun a h1 h2 => by omega, fun a h1 h2 => by omega⟩⟩
    · rw [if_neg hl]
      have hm : B + lim / 2 < n := by omega
      have hle : (B + lim / 2) * jump ≤ n * jump := Nat.mul_le_mul_right _ (le_of_lt hm)
      have hidx : (B * jump + lim / 2 * jump) % 65536 = (B + lim / 2) * jump := by
        rw [← Nat.add_mul]; exact Nat.mod_eq_of_lt (lt_of_le_of_lt hle hn)
      rw [hidx]
      by_cases hz : cmp ((B + lim / 2) * jump) = 0
      · simp only []
        rw [if_pos hz]
        refine ⟨fun i h => ?_, fun b h => by cases h⟩
        injection h with h
        exact ⟨B + lim / 2, by omega, by omega, h.symm, by rw [← h]; exact hz⟩
      · simp only []
        rw [if_neg hz]
        by_cases hpos : cmp ((B + lim / 2) * jump) > 0
        · rw [if_pos hpos]
          have hle2 : (B + lim / 2 + 1) * jump ≤ n * jump := Nat.mul_le_mul_right _ hm
          have hbase : ((B + lim / 2) * jump + jump) % 65536 = (B + lim / 2 + 1) * jump := by
            rw [← Nat.succ_mul]; exact Nat.mod_eq_of_lt (lt_of_le_of_lt hle2 hn)
          rw [hbase]
          obtain ⟨ihf, ihn⟩ := ih (B + lim / 2 + 1) ((lim - 1) / 2) (by omega) (by omega)
          refine ⟨fun i h => ?_, fun b h => ?_⟩
          · obtain ⟨k, k1, k2, k3, k4⟩ := ihf i h
            exact ⟨k, by omega, by omega, k3, k4⟩
          · obtain ⟨k, k1, k2, k3, k4⟩ := ihn b h
            refine ⟨k, by omega, by omega, k3, fun hs => ?_⟩
            obtain ⟨p1, p2⟩ := k4 hs
            refine ⟨fun a ha1 ha2 => ?_, fun a ha1 ha2 => p2 a ha1 (by omega)⟩
            by_cases hc : a < B + lim / 2
            · exact (hs (B + lim / 2) hm a hc).1 hpos
            · by_cases hc2 : a = B + lim / 2
              · subst hc2; exact hpos
              · exact p1 a (by omega) ha2
        · rw [if_neg hpos]
          have hneg : cmp ((B + lim / 2) * jump) < 0 := by omega
          obtain ⟨ihf, ihn⟩ := ih B (lim / 2) (by omega) (by omega)
          refine ⟨fun i h => ?_, fun b h => ?_⟩
          · obtain ⟨k, k1, k2, k3, k4⟩ := ihf i h
            exact ⟨k, k1, by omega, k3, k4⟩
          · obtain ⟨k, k1, k2, k3, k4⟩ := ihn b h
            refine ⟨k, k1, by omega, k3, fun hs => ?_⟩
            obtain ⟨p1, p2⟩ := k4 hs
            refine ⟨p1, fun a ha1 ha2 => ?_⟩
            by_cases hc : a < B + lim / 2
            · exact p2 a ha1 hc
            · by_cases hc2 : a = B + lim / 2
              · subst hc2; exact hneg
              · exact (hs a (by omega) (B + lim / 2) (by omega)).2 hneg

theorem leaf_bsearch_found (cmp : Nat → Int) (n i : Nat) (hn : n < 65536)
    (hb : bsearch cmp P_INDX (n / P_INDX) 0 (n / P_INDX) = BSearch.found i) :
    i % 2 = 0 ∧ i + 1 < n ∧ cmp i = 0 := by
  have h := (bsearch_spec cmp P_INDX (n / P_INDX) (by simp only [P_INDX]; omega)
    (n / P_INDX) 0 (n / P_INDX) (le_refl _) (by omega)).1 i (by simpa using hb)
  obtain ⟨k, _, k2, k3, k4⟩ := h
  simp only [P_INDX] at k2 k3
  refine ⟨by omega, by omega, k4⟩

theorem leaf_page_search_found (E : Env) (h : PAGE) (i : Nat)
    (hleaf : h.type = PageType.P_LBTREE) (hn : NUM_ENT h < 65536)
    (hb : page_search E h = BSearch.found i) :
    i % 2 = 0 ∧ i + 1 < NUM_ENT h ∧ E.bam_cmp h i = 0 := by
  simp only [page_search, hleaf, if_true] at hb
  exact leaf_bsearch_found (E.bam_cmp h) (NUM_ENT h) i hn hb

/-! ### The loop as a transition system -/

theorem search_loop_inv (E : Env) (f : Flags) (stop : Int) (want_recno : Bool)
    (Inv : Loop → Prop) (Post : Result → Prop)
    (hstep : ∀ x, Inv x →
      (∀ r, search_page E f stop want_recno x = Sum.inl r → Post r) ∧
      (∀ x1, search_page E f stop want_recno x = Sum.inr x1 → Inv x1)) :
    ∀ (fuel : Nat) (x : Loop) (r : Result), Inv x →
      search_loop E f stop want_recno fuel x = some r → Post r := by
  intro fuel
  induction fuel with
  | zero => intro x r _ h; simp [search_loop] at h
  | succ fuel ih =>
    intro x r hx h
    rw [search_loop] at h
    cases hp : search_page E f stop want_recno x with
    | inl r1 =>
      rw [hp] at h
      simp only [Option.some.injEq] at h
      subst h
      exact (hstep x hx).1 r1 hp
    | inr x1 =>
      rw [hp] at h
      exact ih x1 r ((hstep x hx).2 x1 hp) h

theorem search_loop_total (E : Env) (f : Flags) (stop : Int) (want_recno : Bool)
    (Inv : Nat → Loop → Prop) (Post : Result → Prop)
    (hstep : ∀ n x, Inv n x →
      (∀ r, search_page E f stop want_recno x = Sum.inl r → Post r) ∧
      (∀ x1, search_page E f stop want_recno x = Sum.inr x1 → ∃ m, n = m + 1 ∧ Inv m x1)) :
    ∀ (fuel n : Nat) (x : Loop), Inv n x → n < fuel →
      ∃ r, search_loop E f stop want_recno fuel x = some r ∧ Post r := by
  intro fuel
  induction fuel with
  | zero => intro n x _ h; omega
  | succ fuel ih =>
    intro n x hx hn
    rw [search_loop]
    cases hp : search_page E f stop want_recno x with
    | inl r1 => exact ⟨r1, rfl, (hstep n x hx).1 r1 hp⟩
    | inr x1 =>
      obtain ⟨m, hm, hinv⟩ := (hstep n x hx).2 x1 hp
      exact ih m x1 hinv (by omega)

/-! ### One iteration: what leaves the loop and what goes round -/

theorem fetch_child_inl (E : Env) (pg lock : Nat) (lock_mode : db_lockmode_t) (stack : Bool)
    (recno : Nat) (s : State) (r : Result)
    (h : fetch_child E pg lock lock_mode stack recno s = Sum.inl r) :
    r.ret ≠ 0 ∧ r.exactp = none ∧ r.recnop = none := by
  unfold fetch_child at h
  by_cases hg : (memp_fget E pg s).1 ≠ 0
  · simp only [] at h
    rw [if_pos hg] at h
    injection h with h
    subst h
    exact ⟨hg, rfl, rfl⟩
  · simp only [] at h
    rw [if_neg hg] at h
    cases h

theorem fetch_child_inr (E : Env) (pg lock : Nat) (lock_mode : db_lockmode_t) (stack : Bool)
    (recno : Nat) (s : State) (x1 : Loop)
    (h : fetch_child E pg lock lock_mode stack recno s = Sum.inr x1) :
    E.memp_fget s.nfget pg = (0, x1.h) ∧ x1.lock = lock ∧ x1.lock_mode = lock_mode ∧
    x1.stack = stack ∧ x1.recno = recno ∧
    x1.st = { s with nfget := s.nfget + 1, trace := s.trace ++ [Event.fget pg true] } := by
  unfold fetch_child at h
  by_cases hg : (memp_fget E pg s).1 ≠ 0
  · simp only [] at h
    rw [if_pos hg] at h
    cases h
  · simp only [] at h
    rw [if_neg hg] at h
    injection h with h
    subst h
    have hg0 : (E.memp_fget s.nfget pg).1 = 0 := by simpa [memp_fget] using hg
    refine ⟨Prod.ext hg0 rfl, rfl, rfl, rfl, rfl, ?_⟩
    simp [memp_fget, hg0]

theorem next_stacked_inl (E : Env) (f : Flags) (stop : Int) (x : Loop) (indx recno pg : Nat)
    (r : Result) (h : next_stacked E f stop x indx recno pg = Sum.inl r) :
    r.exactp = none ∧ r.recnop = none := by
  unfold next_stacked at h
  split at h
  · injection h with h; subst h; exact ⟨rfl, rfl⟩
  · simp only at h
    split at h
    · injection h with h; subst h; exact ⟨rfl, rfl⟩
    · split at h
      · injection h with h; subst h; exact ⟨rfl, rfl⟩
      · exact (fetch_child_inl _ _ _ _ _ _ _ _ h).2

theorem next_coupled_inl (E : Env) (f : Flags) (stop : Int) (x : Loop) (recno pg : Nat)
    (r : Result) (h : next_coupled E f stop x recno pg = Sum.inl r) :
    r.exactp = none ∧ r.recnop = none := by
  unfold next_coupled at h
  simp only [] at h
  split at h
  · injection h with h; subst h; exact ⟨rfl, rfl⟩
  · exact (fetch_child_inl _ _ _ _ _ _ _ _ h).2

theorem search_page_internal_inl (E : Env) (f : Flags) (stop : Int) (want_recno : Bool)
    (x : Loop) (r : Result) (hleaf : x.h.type ≠ PageType.P_LBTREE)
    (h : search_page E f stop want_recno x = Sum.inl r) :
    r.exactp = none ∧ r.recnop = none := by
  unfold search_page at h
  simp only [hleaf, if_false] at h
  split at h
  · exact next_stacked_inl _ _ _ _ _ _ _ _ h
  · exact next_coupled_inl _ _ _ _ _ _ _ h

theorem db_lget_state (E : Env) (couple : Bool) (pg : Nat) (mode : db_lockmode_t)
    (lock : Nat) (s : State) :
    (__db_lget E couple pg mode lock s).2.2.stk = s.stk ∧
    (__db_lget E couple pg mode lock s).2.2.csp = s.csp ∧
    (__db_lget E couple pg mode lock s).2.2.nfget = s.nfget ∧
    (__db_lget E couple pg mode lock s).2.2.nlget = s.nlget + 1 := by
  unfold __db_lget
  split <;> exact ⟨rfl, rfl, rfl, rfl⟩

/-- Going round the loop: the child is the page the cache returned for the slot
picked, the record number has grown by the counts of the slots before it, and
a stack with room stays one. -/
theorem search_page_inr (E : Env) (f : Flags) (stop : Int) (want_recno : Bool) (x x1 : Loop)
    (hx : search_page E f stop want_recno x = Sum.inr x1) :
    x.h.type ≠ PageType.P_LBTREE ∧
    (∃ n, E.memp_fget n (child x.h (pick_indx E x.h)) = (0, x1.h)) ∧
    x1.recno = (if want_recno then sum_nrecs x.h (pick_indx E x.h) x.recno else x.recno) ∧
    (stack_ok x.st → stack_ok x1.st) := by
  unfold search_page at hx
  by_cases hleaf : x.h.type = PageType.P_LBTREE
  · simp only [hleaf, if_true] at hx
    cases hx
  · refine ⟨hleaf, ?_⟩
    simp only [hleaf, if_false] at hx
    split at hx
    · unfold next_stacked at hx
      split at hx
      · cases hx
      · simp only at hx
        split at hx
        · cases hx
        · rename_i hpush
          split at hx
          · cases hx
          · obtain ⟨g1, _, _, _, g5, g6⟩ := fetch_child_inr _ _ _ _ _ _ _ _ hx
            refine ⟨⟨_, g1⟩, g5, fun hs => ?_⟩
            rw [g6]
            obtain ⟨l1, l2, _, _⟩ := db_lget_state E false
              (GET_ITEM x.h (pick_indx E x.h)).pgno db_lockmode_t.DB_LOCK_WRITE x.lock
              (BT_STK_PUSH E x.h (pick_indx E x.h) x.lock x.lock_mode x.st).2
            simp only [stack_ok, l1, l2]
            have hp0 : (BT_STK_ENTER E x.h (pick_indx E x.h) x.lock x.lock_mode x.st).1 = 0 := by
              simpa [BT_STK_PUSH] using hpush
            obtain ⟨e1, _, _, _, e5⟩ :=
              BT_STK_ENTER_spec E x.h (pick_indx E x.h) x.lock x.lock_mode x.st hs
            have := (e1 hp0).2
            simp only [BT_STK_PUSH]
            exact ⟨e5.1, by omega⟩
    · unfold next_coupled at hx
      simp only at hx
      split at hx
      · cases hx
      · obtain ⟨g1, _, _, _, g5, g6⟩ := fetch_child_inr _ _ _ _ _ _ _ _ hx
        refine ⟨⟨_, g1⟩, g5, fun hs => ?_⟩
        rw [g6]
        obtain ⟨l1, l2, _, _⟩ := db_lget_state E true
          (GET_ITEM x.h (pick_indx E x.h)).pgno
          (next_mode f (keep_next E f stop x.h)) x.lock (memp_fput x.h x.st)
        simp only [stack_ok, l1, l2]
        exact hs

/-! ### The root -/

theorem memp_fget_state (E : Env) (pg : Nat) (s : State) :
    (memp_fget E pg s).2.2.stk = s.stk ∧ (memp_fget E pg s).2.2.csp = s.csp ∧
    (memp_fget E pg s).2.2.nlget = s.nlget ∧ (memp_fget E pg s).2.2.nfget = s.nfget + 1 ∧
    (memp_fget E pg s).1 = (E.memp_fget s.nfget pg).1 ∧
    (memp_fget E pg s).2.1 = (E.memp_fget s.nfget pg).2 :=
  ⟨rfl, rfl, rfl, rfl, rfl, rfl⟩

theorem root_upgrade_inl (E : Env) (f : Flags) (stop : Int) (pg : Nat) (stack : Bool)
    (lock_mode : db_lockmode_t) (lock : Nat) (h : PAGE) (s1 : State) (r : Result)
    (hr : root_upgrade E f stop pg stack lock_mode lock h s1 = Sum.inl r) :
    r.ret ≠ 0 ∧ r.exactp = none ∧ r.recnop = none := by
  unfold root_upgrade at hr
  split at hr
  · simp only [] at hr
    split at hr
    · rename_i hl
      injection hr with hr; subst hr; exact ⟨hl, rfl, rfl⟩
    · split at hr
      · rename_i hg
        injection hr with hr; subst hr; exact ⟨hg, rfl, rfl⟩
      · cases hr
  · cases hr

theorem root_upgrade_inr (E : Env) (f : Flags) (stop : Int) (pg : Nat) (stack : Bool)
    (lock_mode : db_lockmode_t) (lock : Nat) (h : PAGE) (s1 : State) (x : Loop)
    (hr : root_upgrade E f stop pg stack lock_mode lock h s1 = Sum.inr x) :
    x.st.stk = s1.stk ∧ x.st.csp = s1.csp ∧ x.recno = 0 ∧
    (x.h = h ∨ ∃ n, E.memp_fget n pg = (0, x.h)) := by
  unfold root_upgrade at hr
  split at hr
  · simp only [] at hr
    split at hr
    · cases hr
    · split at hr
      · cases hr
      · rename_i hg
        injection hr with hr; subst hr
        simp only [ne_eq, not_not] at hg
        obtain ⟨l1, l2, _, _⟩ := db_lget_state E false pg db_lockmode_t.DB_LOCK_WRITE lock
          (__LPUT lock (memp_fput h s1))
        obtain ⟨g1, g2, _, _, g5, g6⟩ := memp_fget_state E pg
          (__db_lget E false pg db_lockmode_t.DB_LOCK_WRITE lock (__LPUT lock (memp_fput h s1))).2.2
        refine ⟨by simp only [g1, l1]; rfl, by simp only [g2, l2]; rfl, rfl,
          Or.inr ⟨(__db_lget E false pg db_lockmode_t.DB_LOCK_WRITE lock
            (__LPUT lock (memp_fput h s1))).2.2.nfget, ?_⟩⟩
        exact Prod.ext (g5 ▸ hg) g6.symm
  · injection hr with hr; subst hr
    exact ⟨rfl, rfl, rfl, Or.inl rfl⟩

theorem search_root_inl (E : Env) (f : Flags) (stop : Int) (s0 : State) (r : Result)
    (hr : search_root E f stop s0 = Sum.inl r) :
    r.ret ≠ 0 ∧ r.exactp = none ∧ r.recnop = none := by
  unfold search_root at hr
  simp only [] at hr
  split at hr
  · rename_i hl
    injection hr with hr; subst hr; exact ⟨hl, rfl, rfl⟩
  · split at hr
    · rename_i hg
      injection hr with hr; subst hr; exact ⟨hg, rfl, rfl⟩
    · exact root_upgrade_inl _ _ _ _ _ _ _ _ _ _ hr

theorem search_root_inr (E : Env) (f : Flags) (stop : Int) (s0 : State) (x : Loop)
    (hr : search_root E f stop s0 = Sum.inr x) :
    x.st.stk = s0.stk ∧ x.st.csp = 0 ∧ x.recno = 0 ∧
    ∃ n, E.memp_fget n E.bt_root = (0, x.h) := by
  unfold search_root at hr
  simp only [] at hr
  split at hr
  · cases hr
  · split at hr
    · cases hr
    · rename_i hl hg
      simp only [ne_eq, not_not] at hg
      obtain ⟨r1, r2, r3, r4⟩ := root_upgrade_inr _ _ _ _ _ _ _ _ _ _ hr
      obtain ⟨l1, l2, _, _⟩ := db_lget_state E false E.bt_root
        (root_mode (E.DB_BT_RECNUM && f.S_STACK)) LOCK_INVALID (BT_STK_CLR s0)
      obtain ⟨g1, g2, _, _, g5, g6⟩ := memp_fget_state E E.bt_root
        (__db_lget E false E.bt_root
          (root_mode (E.DB_BT_RECNUM && f.S_STACK)) LOCK_INVALID (BT_STK_CLR s0)).2.2
      refine ⟨by rw [r1, g1, l1]; rfl, by rw [r2, g2, l2]; rfl, r3, ?_⟩
      rcases r4 with r4 | r4
      · exact ⟨(__db_lget E false E.bt_root
          (root_mode (E.DB_BT_RECNUM && f.S_STACK)) LOCK_INVALID (BT_STK_CLR s0)).2.2.nfget,
          Prod.ext (g5 ▸ hg) (by rw [r4]; exact g6.symm)⟩
      · exact r4

/-! ### Results on a leaf -/

theorem search_leaf_delno (E : Env) (f : Flags) (want_recno : Bool) (x : Loop)
    (hdel : f.S_DELNO = true) (hs : stack_ok x.st)
    (hret : (search_leaf E f want_recno x).ret = 0)
    (hex : (search_leaf E f want_recno x).exactp = some 1) :
    ∃ indx, terminal (search_leaf E f want_recno x).st =
        some ⟨some x.h, indx, x.lock, x.lock_mode⟩ ∧
      deleted x.h indx = false := by
  unfold search_leaf at hret hex ⊢
  cases hp : page_search E x.h with
  | found i =>
    simp only [hp, bam_match, hdel, if_true] at hret hex ⊢
    by_cases hd : deleted x.h (del_walk f x.h (dup_walk f x.h i)) = true
    · simp only [hd, if_true, DB_NOTFOUND] at hret
      omega
    · simp only [hd, Bool.false_eq_true, if_false] at hret ⊢
      obtain ⟨e1, _⟩ := BT_STK_ENTER_spec E x.h (del_walk f x.h (dup_walk f x.h i))
        x.lock x.lock_mode x.st hs
      exact ⟨_, (e1 hret).1, by simpa using hd⟩
  | miss b =>
    simp only [hp] at hex
    split at hex <;> simp at hex

/-! ### Trees -/

theorem on_page_iff (T : Nat → Option PAGE) (pg : Nat) (P : PAGE → Prop) :
    on_page T pg P ↔ ∃ h, T pg = some h ∧ P h := by
  unfold on_page
  cases hT : T pg with
  | none => simp
  | some h => simp

theorem wf_tree_leaf (T : Nat → Option PAGE) (pg : Nat) (h : PAGE) (hT : T pg = some h)
    (hw : wf_tree T 0 pg) :
    h.pgno = pg ∧ h.type = PageType.P_LBTREE ∧ NUM_ENT h < 65536 ∧ NUM_ENT h % 2 = 0 := by
  rw [wf_tree, on_page_iff] at hw
  obtain ⟨h', hT', hw⟩ := hw
  rw [hT] at hT'
  injection hT' with hT'
  subst hT'
  exact hw

theorem wf_tree_node (T : Nat → Option PAGE) (n pg : Nat) (h : PAGE) (hT : T pg = some h)
    (hw : wf_tree T (n + 1) pg) :
    h.pgno = pg ∧ h.type = PageType.P_IBTREE ∧ 0 < NUM_ENT h ∧ NUM_ENT h < 65536 ∧
    ∀ i < NUM_ENT h, wf_tree T n (child h i) := by
  rw [wf_tree, on_page_iff] at hw
  obtain ⟨h', hT', hw⟩ := hw
  rw [hT] at hT'
  injection hT' with hT'
  subst hT'
  exact hw

theorem wf_tree_page (T : Nat → Option PAGE) (n pg : Nat) (hw : wf_tree T n pg) :
    ∃ h, T pg = some h ∧ h.pgno = pg := by
  cases n with
  | zero =>
    rw [wf_tree, on_page_iff] at hw
    obtain ⟨h, hT, hw⟩ := hw
    exact ⟨h, hT, hw.1⟩
  | succ n =>
    rw [wf_tree, on_page_iff] at hw
    obtain ⟨h, hT, hw⟩ := hw
    exact ⟨h, hT, hw.1⟩

theorem wf_tree_height (T : Nat → Option PAGE) (n pg : Nat) (h : PAGE) (hT : T pg = some h)
    (hw : wf_tree T n pg) : (h.type = PageType.P_LBTREE ↔ n = 0) := by
  cases n with
  | zero => exact ⟨fun _ => rfl, fun _ => (wf_tree_leaf T pg h hT hw).2.1⟩
  | succ n =>
    have := (wf_tree_node T n pg h hT hw).2.1
    constructor
    · intro hl; rw [this] at hl; cases hl
    · intro hc; cases hc

theorem pick_indx_lt (E : Env) (h : PAGE) (hleaf : h.type ≠ PageType.P_LBTREE)
    (hpos : 0 < NUM_ENT h) (hn : NUM_ENT h < 65536) : pick_indx E h < NUM_ENT h := by
  have hs := bsearch_spec (E.bam_cmp h) O_INDX (NUM_ENT h) (by simp only [O_INDX]; omega)
    (NUM_ENT h) 0 (NUM_ENT h) (le_refl _) (by omega)
  unfold pick_indx page_search
  simp only [hleaf, if_false, O_INDX, Nat.div_one]
  simp only [O_INDX, Nat.zero_mul] at hs
  cases hb : bsearch (E.bam_cmp h) 1 (NUM_ENT h) 0 (NUM_ENT h) with
  | found i =>
    obtain ⟨k, _, k2, k3, _⟩ := hs.1 i hb
    simp only
    omega
  | miss b =>
    obtain ⟨k, _, k2, k3, _⟩ := hs.2 b hb
    simp only
    split <;> omega

theorem flatMap_range_split {α : Type} (g : Nat → List α) :
    ∀ (N idx : Nat), idx < N →
      ∃ rest, (List.range N).flatMap g = (List.range idx).flatMap g ++ g idx ++ rest := by
  intro N
  induction N with
  | zero => intro idx h; omega
  | succ N ih =>
    intro idx h
    rw [List.range_succ, List.flatMap_append]
    by_cases hi : idx = N
    · subst hi
      exact ⟨[], by simp⟩
    · obtain ⟨rest, hr⟩ := ih idx (by omega)
      exact ⟨rest ++ g N, by rw [hr]; simp⟩

theorem sum_nrecs_eq (h : PAGE) (g : Nat → List (PAGE × Nat)) :
    ∀ (idx recno : Nat), (∀ i < idx, (GET_ITEM h i).nrecs = (g i).length) →
      recno + ((List.range idx).flatMap g).length < 4294967296 →
      sum_nrecs h idx recno = recno + ((List.range idx).flatMap g).length := by
  intro idx
  induction idx with
  | zero => intro recno _ _; simp [sum_nrecs]
  | succ idx ih =>
    intro recno hg hlt
    rw [List.range_succ, List.flatMap_append, List.length_append] at hlt
    have hgi := hg idx (by omega)
    have ih' := ih recno (fun i hi => hg i (by omega)) (by omega)
    unfold sum_nrecs at ih' ⊢
    rw [List.range_succ, List.foldl_append, ih', List.flatMap_append, List.length_append]
    simp only [List.foldl_cons, List.foldl_nil, List.flatMap_cons, List.flatMap_nil,
      List.append_nil] at hlt ⊢
    rw [hgi]
    omega

theorem leaf_entries_leaf (T : Nat → Option PAGE) (pg : Nat) (h : PAGE) (hT : T pg = some h) :
    leaf_entries T 0 pg = (List.range (NUM_ENT h / 2)).map (fun k => (h, 2 * k)) := by
  simp only [leaf_entries, hT]

theorem leaf_entries_node (T : Nat → Option PAGE) (n pg : Nat) (h : PAGE) (hT : T pg = some h) :
    leaf_entries T (n + 1) pg =
      (List.range (NUM_ENT h)).flatMap (fun i => leaf_entries T n (child h i)) := by
  simp only [leaf_entries, hT]

/-! ### The record number -/

theorem getElem?_mid {α : Type} (pre mid post : List α) (j : Nat) (hj : j < mid.length) :
    (pre ++ mid ++ post)[pre.length + j]? = mid[j]? := by
  rw [List.append_assoc, List.getElem?_append_right (by omega)]
  simp only [Nat.add_sub_cancel_left]
  rw [List.getElem?_append_left hj]

theorem landing_single (f : Flags) (h : PAGE) (i : Nat) (hn : NUM_ENT h < 65536)
    (hrun : is_dup_run h i i) : landing f h i = i := by
  have hpar : i % 2 = 0 := hrun.1
  have hend : i + 1 < NUM_ENT h := hrun.2.2.2.1
  have hw : dup_walk f h i = i := by
    unfold dup_walk
    split
    · exact dup_last_run h i i hn hrun _ i (le_refl _) (le_refl _) hpar (by omega)
    · exact dup_first_run h i i hn hrun _ i (le_refl _) (le_refl _) hpar (by omega)
  unfold landing
  rw [hw]
  split
  · unfold del_walk
    split
    · obtain ⟨b1, b2, _⟩ := del_back_run h i i hn hrun i i (le_refl _) (le_refl _) hpar (by omega)
      omega
    · obtain ⟨b1, b2, _⟩ := del_fwd_run h i i hn hrun (NUM_ENT h) i (le_refl _) (le_refl _) hpar
        (by omega)
      omega
  · rfl

theorem search_leaf_recno (E : Env) (f : Flags) (x : Loop)
    (hleaf : x.h.type = PageType.P_LBTREE) (hn : NUM_ENT x.h < 65536)
    (hs : stack_ok x.st) (hlt : x.recno + NUM_ENT x.h / 2 < 4294967296)
    (hex : (search_leaf E f true x).exactp = some 1) :
    ∃ i, page_search E x.h = BSearch.found i ∧ i % 2 = 0 ∧ i + 1 < NUM_ENT x.h ∧
      E.bam_cmp x.h i = 0 ∧
      (search_leaf E f true x).recnop = some (x.recno + i / 2 + 1) ∧
      ((search_leaf E f true x).ret = 0 →
        terminal (search_leaf E f true x).st =
          some ⟨some x.h, landing f x.h i, x.lock, x.lock_mode⟩) := by
  unfold search_leaf at hex ⊢
  cases hp : page_search E x.h with
  | miss b =>
    simp only [hp] at hex
    split at hex <;> simp at hex
  | found i =>
    obtain ⟨p1, p2, p3⟩ := leaf_page_search_found E x.h i hleaf hn hp
    refine ⟨i, rfl, p1, p2, p3, ?_, ?_⟩
    · have hmod : (x.recno + i / P_INDX + 1) % 4294967296 = x.recno + i / 2 + 1 := by
        simp only [P_INDX]; omega
      simp only [bam_match, if_true, hmod]
      split
      · split <;> rfl
      · rfl
    · simp only [bam_match, landing]
      by_cases hd : f.S_DELNO = true
      · simp only [hd, if_true]
        by_cases hdel : deleted x.h (del_walk f x.h (dup_walk f x.h i)) = true
        · simp only [hdel, if_true, DB_NOTFOUND]
          intro hc; omega
        · simp only [hdel, Bool.false_eq_true, if_false]
          intro hret
          exact ((BT_STK_ENTER_spec E x.h _ x.lock x.lock_mode x.st hs).1 hret).1
      · simp only [hd, Bool.false_eq_true, if_false]
        intro hret
        exact ((BT_STK_ENTER_spec E x.h _ x.lock x.lock_mode x.st hs).1 hret).1

/-! ### The sample environment -/

theorem sample_env_serves (key root : Nat) (recnum : Bool) (pages : List PAGE) :
    serves (sample_env key root recnum pages) (store pages) := by
  intro n pg h hT
  simp only [sample_env, hT]

theorem sample_env_grants (key root : Nat) (recnum : Bool) (pages : List PAGE) :
    grants (sample_env key root recnum pages) :=
  ⟨fun _ => rfl, fun _ => rfl⟩

/-! ### Occurrences of the key -/

theorem countP_range_two (q : Nat → Bool) :
    ∀ (N a b : Nat), a < b → b < N → q a = true → q b = true →
      2 ≤ (List.range N).countP q := by
  intro N
  induction N with
  | zero => intro a b _ h; omega
  | succ N ih =>
    intro a b hab hb qa qb
    rw [List.range_succ, List.countP_append]
    by_cases hbN : b = N
    · subst hbN
      have h1 : 0 < (List.range b).countP q :=
        List.countP_pos_iff.2 ⟨a, List.mem_range.2 hab, qa⟩
      simp only [List.countP_cons, List.countP_nil, qb, if_true]
      omega
    · have := ih a b hab (by omega) qa qb
      omega

theorem matches_leaf_exists (cmp : PAGE → Nat → Int) (T : Nat → Option PAGE) (pg : Nat)
    (h : PAGE) (hT : T pg = some h) (hm : 0 < matches_in cmp T 0 pg) :
    ∃ k, k < NUM_ENT h / 2 ∧ cmp h (2 * k) = 0 := by
  unfold matches_in at hm
  rw [leaf_entries_leaf T pg h hT] at hm
  obtain ⟨e, he, hp⟩ := List.countP_pos_iff.1 hm
  obtain ⟨k, hk, rfl⟩ := List.mem_map.1 he
  exact ⟨k, List.mem_range.1 hk, by simpa using hp⟩

theorem matches_leaf_of (cmp : PAGE → Nat → Int) (T : Nat → Option PAGE) (pg : Nat)
    (h : PAGE) (hT : T pg = some h) (k : Nat) (hk : k < NUM_ENT h / 2)
    (hz : cmp h (2 * k) = 0) : 0 < matches_in cmp T 0 pg := by
  unfold matches_in
  rw [leaf_entries_leaf T pg h hT]
  exact List.countP_pos_iff.2 ⟨(h, 2 * k), List.mem_map.2 ⟨k, List.mem_range.2 hk, rfl⟩,
    by simpa using hz⟩

theorem matches_leaf_two (cmp : PAGE → Nat → Int) (T : Nat → Option PAGE) (pg : Nat)
    (h : PAGE) (hT : T pg = some h) (a b : Nat) (hab : a < b) (hb : b < NUM_ENT h / 2)
    (ha0 : cmp h (2 * a) = 0) (hb0 : cmp h (2 * b) = 0) : 2 ≤ matches_in cmp T 0 pg := by
  unfold matches_in
  rw [leaf_entries_leaf T pg h hT, List.countP_map]
  exact countP_range_two _ _ a b hab hb (by simpa using ha0) (by simpa using hb0)

theorem matches_child_le (cmp : PAGE → Nat → Int) (T : Nat → Option PAGE) (m pg : Nat)
    (h : PAGE) (hT : T pg = some h) (i : Nat) (hi : i < NUM_ENT h) :
    matches_in cmp T m (child h i) ≤ matches_in cmp T (m + 1) pg := by
  unfold matches_in
  rw [leaf_entries_node T m pg h hT]
  obtain ⟨rest, hs⟩ := flatMap_range_split (fun i => leaf_entries T m (child h i))
    (NUM_ENT h) i hi
  rw [hs]
  simp only [List.countP_append]
  omega

theorem matches_node_exists (cmp : PAGE → Nat → Int) (T : Nat → Option PAGE) (m pg : Nat)
    (h : PAGE) (hT : T pg = some h) (hm : 0 < matches_in cmp T (m + 1) pg) :
    ∃ i, i < NUM_ENT h ∧ 0 < matches_in cmp T m (child h i) := by
  unfold matches_in at hm ⊢
  rw [leaf_entries_node T m pg h hT] at hm
  obtain ⟨e, he, hp⟩ := List.countP_pos_iff.1 hm
  obtain ⟨i, hi, hei⟩ := List.mem_flatMap.1 he
  exact ⟨i, List.mem_range.1 hi, List.countP_pos_iff.2 ⟨e, hei, hp⟩⟩

theorem leaf_entries_child_mem (T : Nat → Option PAGE) (m pg : Nat) (h : PAGE)
    (hT : T pg = some h) (i : Nat) (hi : i < NUM_ENT h) (e : PAGE × Nat)
    (he : e ∈ leaf_entries T m (child h i)) : e ∈ leaf_entries T (m + 1) pg := by
  rw [leaf_entries_node T m pg h hT]
  exact List.mem_flatMap.2 ⟨i, List.mem_range.2 hi, he⟩

/-- The slot picked on an internal page is the one the key occurs under, when
the separators are consistent with that. -/
theorem pick_indx_eq (E : Env) (h : PAGE) (i : Nat) (hleaf : h.type ≠ PageType.P_LBTREE)
    (hn : NUM_ENT h < 65536) (hi : i < NUM_ENT h)
    (hbefore : ∀ j < i, 0 < E.bam_cmp h j)
    (hat : 0 < i → 0 ≤ E.bam_cmp h i)
    (hafter : ∀ j < NUM_ENT h, i < j → E.bam_cmp h j < 0) :
    pick_indx E h = i := by
  have hsorted : slots_sorted (E.bam_cmp h) O_INDX (NUM_ENT h) := by
    intro b hb a hab
    simp only [O_INDX, Nat.mul_one]
    constructor
    · intro hpos
      have hbi : b ≤ i := by
        by_contra hc
        have := hafter b hb (by omega)
        omega
      exact hbefore a (by omega)
    · intro hneg
      have hai : i ≤ a := by
        by_contra hc
        have := hbefore a (by omega)
        omega
      exact hafter b hb (by omega)
  have hs := bsearch_spec (E.bam_cmp h) O_INDX (NUM_ENT h) (by simp only [O_INDX]; omega)
    (NUM_ENT h) 0 (NUM_ENT h) (le_refl _) (by omega)
  unfold pick_indx page_search
  simp only [hleaf, if_false, O_INDX, Nat.div_one]
  simp only [O_INDX, Nat.zero_mul, Nat.mul_one] at hs
  cases hb : bsearch (E.bam_cmp h) 1 (NUM_ENT h) 0 (NUM_ENT h) with
  | found j =>
    obtain ⟨k, _, k2, k3, k4⟩ := hs.1 j hb
    simp only
    rw [k3] at k4 ⊢
    by_contra hne
    rcases Nat.lt_or_gt_of_ne hne with hlt | hgt
    · have := hbefore k hlt; omega
    · have := hafter k (by omega) hgt; omega
  | miss b =>
    obtain ⟨k, _, k2, k3, k4⟩ := hs.2 b hb
    obtain ⟨p1, p2⟩ := k4 (by simpa only [O_INDX] using hsorted)
    simp only
    rw [k3]
    have hk1 : k ≤ i + 1 := by
      by_contra hc
      have h1 := p1 (i + 1) (by omega) (by omega)
      have h2 := hafter (i + 1) (by omega) (by omega)
      omega
    by_cases hi0 : 0 < i
    · have hik : i < k := by
        by_contra hc
        have h1 := p2 i (by omega) (by omega)
        have h2 := hat hi0
        omega
      have : k = i + 1 := by omega
      subst this
      simp
    · have hi00 : i = 0 := by omega
      subst hi00
      split <;> omega

/-! ### Iterations that cannot fail -/

theorem db_lget_ok (E : Env) (couple : Bool) (pg : Nat) (mode : db_lockmode_t) (lock : Nat)
    (s : State) (hg : E.lget_ret s.nlget = 0) :
    __db_lget E couple pg mode lock s =
      (0, s.nlget + 1,
        { s with nlget := s.nlget + 1,
                 trace := s.trace ++ [Event.lget couple lock pg mode (some (s.nlget + 1))] }) := by
  unfold __db_lget
  rw [if_neg (by simp [hg])]

theorem fetch_child_ok (E : Env) (pg lock : Nat) (lock_mode : db_lockmode_t) (stack : Bool)
    (recno : Nat) (s : State) (h : PAGE) (hf : E.memp_fget s.nfget pg = (0, h)) :
    fetch_child E pg lock lock_mode stack recno s =
      Sum.inr ⟨h, lock, lock_mode, stack, recno,
        { s with nfget := s.nfget + 1, trace := s.trace ++ [Event.fget pg true] }⟩ := by
  unfold fetch_child
  have h1 : (memp_fget E pg s).1 = 0 := by simp [memp_fget, hf]
  simp only []
  rw [if_neg (by simp [h1])]
  simp [memp_fget, hf]

theorem next_coupled_ok (E : Env) (f : Flags) (stop : Int) (x : Loop) (recno pg : Nat)
    (h : PAGE) (hg : grants E) (hf : E.memp_fget x.st.nfget pg = (0, h)) :
    next_coupled E f stop x recno pg =
      Sum.inr ⟨h, x.st.nlget + 1, next_mode f (keep_next E f stop x.h), keep_next E f stop x.h,
        recno,
        { x.st with
          nlget := x.st.nlget + 1, nfget := x.st.nfget + 1,
          trace := x.st.trace ++ [Event.fput x.h.pgno] ++
            [Event.lget true x.lock pg (next_mode f (keep_next E f stop x.h))
              (some (x.st.nlget + 1))] ++ [Event.fget pg true] }⟩ := by
  unfold next_coupled
  simp only []
  rw [db_lget_ok E true pg _ x.lock (memp_fput x.h x.st) (hg.1 _)]
  simp only [ne_eq, not_true_eq_false, if_false]
  rw [fetch_child_ok E pg _ _ _ _ _ h (by simpa [memp_fput] using hf)]
  simp [memp_fput]

theorem next_stacked_ok (E : Env) (f : Flags) (stop : Int) (x : Loop) (indx recno pg : Nat)
    (h : PAGE) (hg : grants E) (hpar : f.S_PARENT = false) (hs : stack_ok x.st)
    (hf : E.memp_fget x.st.nfget pg = (0, h)) :
    ∃ x1, next_stacked E f stop x indx recno pg = Sum.inr x1 := by
  unfold next_stacked
  rw [if_neg (by simp [hpar])]
  obtain ⟨e1, _, _, _, e5, e6, e7, _⟩ :=
    BT_STK_ENTER_ok E x.h indx x.lock x.lock_mode x.st hg.2 hs
  have hp1 : (BT_STK_PUSH E x.h indx x.lock x.lock_mode x.st).1 = 0 := by
    simp only [BT_STK_PUSH]; exact e1
  simp only []
  rw [if_neg (by simp [hp1])]
  rw [db_lget_ok E false pg _ x.lock _ (hg.1 _)]
  simp only [ne_eq, not_true_eq_false, if_false]
  have hnf : (BT_STK_PUSH E x.h indx x.lock x.lock_mode x.st).2.nfget = x.st.nfget := by
    simp only [BT_STK_PUSH]; exact e7
  rw [fetch_child_ok E pg _ _ _ _ _ h (by simp only [hnf]; exact hf)]
  exact ⟨_, rfl⟩

theorem search_page_progress (E : Env) (f : Flags) (stop : Int) (want_recno : Bool) (x : Loop)
    (h : PAGE) (hleaf : x.h.type ≠ PageType.P_LBTREE) (hg : grants E)
    (hpar : f.S_PARENT = false) (hs : stack_ok x.st)
    (hf : E.memp_fget x.st.nfget (child x.h (pick_indx E x.h)) = (0, h)) :
    ∃ x1, search_page E f stop want_recno x = Sum.inr x1 := by
  unfold search_page
  rw [if_neg hleaf]
  simp only []
  split
  · exact next_stacked_ok E f stop x _ _ _ h hg hpar hs hf
  · exact ⟨_, next_coupled_ok E f stop x _ _ h hg hf⟩

theorem bam_match_ok (E : Env) (f : Flags) (want_recno : Bool) (h : PAGE) (i lock : Nat)
    (mode : db_lockmode_t) (recno : Nat) (s : State) (hg : grants E) (hs : stack_ok s)
    (hlive : f.S_DELNO = true → deleted h (landing f h i) = false) :
    (bam_match E f want_recno h i lock mode recno s).ret = 0 ∧
    (bam_match E f want_recno h i lock mode recno s).exactp = some 1 ∧
    terminal (bam_match E f want_recno h i lock mode recno s).st =
      some ⟨some h, landing f h i, lock, mode⟩ := by
  unfold bam_match landing at *
  by_cases hd : f.S_DELNO = true
  · have hl := hlive hd
    simp only [hd, if_true] at hl ⊢
    simp only [hl, Bool.false_eq_true, if_false]
    obtain ⟨e1, e2, _⟩ := BT_STK_ENTER_ok E h (del_walk f h (dup_walk f h i)) lock mode s hg.2 hs
    exact ⟨e1, trivial, e2⟩
  · simp only [hd, Bool.false_eq_true, if_false]
    obtain ⟨e1, e2, _⟩ := BT_STK_ENTER_ok E h (dup_walk f h i) lock mode s hg.2 hs
    exact ⟨e1, trivial, e2⟩

theorem search_root_ok (E : Env) (f : Flags) (stop : Int) (s0 : State) (h : PAGE)
    (hg : grants E) (hf : ∀ n, E.memp_fget n E.bt_root = (0, h)) :
    ∃ x0, search_root E f stop s0 = Sum.inr x0 := by
  unfold search_root
  simp only []
  rw [db_lget_ok E false E.bt_root _ LOCK_INVALID _ (hg.1 _)]
  simp only [ne_eq, not_true_eq_false, if_false, memp_fget, hf]
  unfold root_upgrade
  split
  · simp only []
    rw [db_lget_ok E false E.bt_root _ _ _ (hg.1 _)]
    simp only [ne_eq, not_true_eq_false, if_false, memp_fget, hf]
    exact ⟨_, rfl⟩
  · exact ⟨_, rfl⟩

/-- On a leaf in key order on which the key occurs exactly once, the binary
search finds it, and its duplicate run has no other member. -/
theorem leaf_found_single (E : Env) (T : Nat → Option PAGE) (pg : Nat) (h : PAGE)
    (hT : T pg = some h) (hw : wf_tree T 0 pg) (hko : key_ordered E.bam_cmp T 0 pg)
    (hone : matches_in E.bam_cmp T 0 pg = 1) :
    ∃ i, page_search E h = BSearch.found i ∧ i % 2 = 0 ∧ i + 1 < NUM_ENT h ∧
      E.bam_cmp h i = 0 ∧ is_dup_run h i i := by
  obtain ⟨_, hleaf, hn, heven⟩ := wf_tree_leaf T pg h hT hw
  rw [key_ordered, on_page_iff] at hko
  obtain ⟨h', hT', hsorted, hresp⟩ := hko
  rw [hT] at hT'
  injection hT' with hT'
  subst hT'
  obtain ⟨k, hk, hkz⟩ := matches_leaf_exists E.bam_cmp T pg h hT (by omega)
  have hs := bsearch_spec (E.bam_cmp h) P_INDX (NUM_ENT h / P_INDX)
    (by simp only [P_INDX]; omega) (NUM_ENT h / P_INDX) 0 (NUM_ENT h / P_INDX) (le_refl _)
    (by omega)
  simp only [Nat.zero_mul] at hs
  have hps : page_search E h =
      bsearch (E.bam_cmp h) P_INDX (NUM_ENT h / P_INDX) 0 (NUM_ENT h / P_INDX) := by
    simp only [page_search, hleaf, if_true]
  cases hb : bsearch (E.bam_cmp h) P_INDX (NUM_ENT h / P_INDX) 0 (NUM_ENT h / P_INDX) with
  | miss b =>
    exfalso
    obtain ⟨k', _, _, _, k4⟩ := hs.2 b hb
    obtain ⟨p1, p2⟩ := k4 hsorted
    simp only [P_INDX] at p1 p2 hk
    have hkz' : E.bam_cmp h (k * 2) = 0 := by rw [Nat.mul_comm]; exact hkz
    by_cases hc : k < k'
    · have := p1 k (by omega) hc; omega
    · have := p2 k (by omega) (by simpa using hk); omega
  | found i =>
    obtain ⟨k', _, k2, k3, k4⟩ := hs.1 i hb
    simp only [P_INDX] at k2 k3
    have hi2 : i = 2 * k' := by omega
    refine ⟨i, by rw [hps]; exact hb, by omega, by omega, k4, ?_⟩
    refine ⟨by omega, by omega, le_refl _, by omega, fun j hj hij => by omega, ?_, ?_⟩
    · by_contra hc
      simp only [not_or, not_not] at hc
      obtain ⟨hi0, heq⟩ := hc
      have hz : E.bam_cmp h (i - 2) = 0 := by
        rw [hresp (i - 2) (by omega) i (by omega) heq]; exact k4
      have h2 := matches_leaf_two E.bam_cmp T pg h hT (k' - 1) k' (by omega) (by omega)
        (by rw [show 2 * (k' - 1) = i - 2 by omega]; exact hz)
        (by rw [← hi2]; exact k4)
      omega
    · by_contra hc
      simp only [not_or, not_le, not_not] at hc
      obtain ⟨hi0, heq⟩ := hc
      have hz : E.bam_cmp h (i + 2) = 0 := by
        rw [hresp (i + 2) (by omega) i (by omega) heq]; exact k4
      have h2 := matches_leaf_two E.bam_cmp T pg h hT k' (k' + 1) (by omega) (by omega)
        (by rw [← hi2]; exact k4)
        (by rw [show 2 * (k' + 1) = i + 2 by omega]; exact hz)
      omega

/-! ### The trace of a search that does not stack -/

theorem fgets_append (a b : List Event) : fgets (a ++ b) = fgets a ++ fgets b := by
  simp [fgets, List.filterMap_append]

theorem fputs_append (a b : List Event) : fputs (a ++ b) = fputs a ++ fputs b := by
  simp [fputs, List.filterMap_append]

theorem tlputs_append (a b : List Event) : tlputs (a ++ b) = tlputs a ++ tlputs b := by
  simp [tlputs, List.filterMap_append]

theorem still_held_append (a b : List Event) :
    still_held (a ++ b) = b.foldl hold_step (still_held a) := by
  simp [still_held, List.foldl_append]

theorem search_root_trace (E : Env) (f : Flags) (stop : Int) (s0 : State) (h0 : PAGE)
    (hg : grants E) (hf : ∀ n, E.memp_fget n E.bt_root = (0, h0)) (hpg : h0.pgno = E.bt_root)
    (hpar : f.S_PARENT = false) (hstk : (E.DB_BT_RECNUM && f.S_STACK) = false) :
    ∃ x0 evs, search_root E f stop s0 = Sum.inr x0 ∧ x0.h = h0 ∧ x0.st.csp = 0 ∧
      x0.st.trace = s0.trace ++ evs ∧ fgets evs = fputs evs ++ [h0.pgno] ∧
      tlputs evs = [] ∧ still_held evs = [x0.lock] ∧
      (∃ c o md, Event.lget c o h0.pgno md (some x0.lock) ∈ evs) ∧
      (x0.stack = true → h0.level = E.LEAFLEVEL) := by
  unfold search_root
  simp only []
  rw [db_lget_ok E false E.bt_root _ LOCK_INVALID _ (hg.1 _)]
  simp only [ne_eq, not_true_eq_false, if_false, memp_fget, hf]
  unfold root_upgrade
  split
  · rename_i hup
    simp only []
    rw [db_lget_ok E false E.bt_root _ _ _ (hg.1 _)]
    simp only [ne_eq, not_true_eq_false, if_false, memp_fget, hf]
    refine ⟨_, [Event.lget false LOCK_INVALID E.bt_root (root_mode (E.DB_BT_RECNUM && f.S_STACK))
        (some (s0.nlget + 1)), Event.fget E.bt_root true, Event.fput h0.pgno,
        Event.lput (s0.nlget + 1),
        Event.lget false (s0.nlget + 1) E.bt_root db_lockmode_t.DB_LOCK_WRITE
          (some (s0.nlget + 1 + 1)), Event.fget E.bt_root true], rfl, rfl, rfl, ?_, ?_, ?_, ?_, ?_, ?_⟩
    · simp [BT_STK_CLR, __LPUT, memp_fput]
    · simp [fgets, fputs, hpg]
    · simp [tlputs]
    · simp [still_held, hold_step, BT_STK_CLR, __LPUT, memp_fput]
    · exact ⟨false, s0.nlget + 1, db_lockmode_t.DB_LOCK_WRITE, by
        simp [hpg, BT_STK_CLR, __LPUT, memp_fput]⟩
    · intro _
      simp only [hpar, Bool.false_eq_true, false_and, false_or] at hup
      exact hup.2.2
  · refine ⟨_, [Event.lget false LOCK_INVALID E.bt_root (root_mode (E.DB_BT_RECNUM && f.S_STACK))
        (some (s0.nlget + 1)), Event.fget E.bt_root true], rfl, rfl, rfl, ?_, ?_, ?_, ?_, ?_, ?_⟩
    · simp [BT_STK_CLR]
    · simp [fgets, fputs, hpg]
    · simp [tlputs]
    · simp [still_held, hold_step, BT_STK_CLR]
    · exact ⟨false, LOCK_INVALID, root_mode (E.DB_BT_RECNUM && f.S_STACK), by
        simp [hpg, BT_STK_CLR]⟩
    · intro hc
      simp only [hstk] at hc
      cases hc

theorem wf_levels_leaf (L : Nat) (T : Nat → Option PAGE) (pg : Nat) (h : PAGE)
    (hT : T pg = some h) (hl : wf_levels L T 0 pg) : h.level = L := by
  rw [wf_levels, on_page_iff] at hl
  obtain ⟨h', hT', hl⟩ := hl
  rw [hT] at hT'
  injection hT' with hT'
  subst hT'
  exact hl

theorem wf_levels_node (L : Nat) (T : Nat → Option PAGE) (n pg : Nat) (h : PAGE)
    (hT : T pg = some h) (hl : wf_levels L T (n + 1) pg) :
    h.level = L + (n + 1) ∧ h.level < 256 ∧ ∀ i < NUM_ENT h, wf_levels L T n (child h i) := by
  rw [wf_levels, on_page_iff] at hl
  obtain ⟨h', hT', hl⟩ := hl
  rw [hT] at hT'
  injection hT' with hT'
  subst hT'
  exact hl

theorem wf_levels_height (L : Nat) (T : Nat → Option PAGE) (n pg : Nat) (h : PAGE)
    (hT : T pg = some h) (hl : wf_levels L T n pg) : h.level = L + n := by
  cases n with
  | zero => exact wf_levels_leaf L T pg h hT hl
  | succ n => exact (wf_levels_node L T n pg h hT hl).1



/-! ### Runs of the write loop -/

theorem eligible_iff_writable (dbmp : DB_MPOOL) (b : BH) :
    eligible dbmp b = true ↔ writable dbmp b := by
  unfold eligible writable
  cases hd : b.BH_DIRTY <;> cases hl : b.BH_LOCKED <;> cases ht : (R_ADDR dbmp b).MP_TEMP <;>
    by_cases hr : b.ref = 0 <;> simp [hr]

theorem scan_first_writable (dbmp : DB_MPOOL) (l : List BH) (k : Nat) (b : BH)
    (h : scan dbmp l 0 = some (k, b)) : first_writable dbmp l k b := by
  obtain ⟨_, h1, h2, h3⟩ := scan_some dbmp l 0 k b h
  refine ⟨by simpa using h1, (eligible_iff_writable dbmp b).1 h2, ?_⟩
  intro b' hb' hw
  obtain ⟨j, hj, hjb⟩ := List.getElem_of_mem hb'
  have hjk : j < k := by
    have := hj
    simp only [List.length_take] at this
    omega
  have hl : l[j]? = some b' := by
    rw [List.getElem_take] at hjb
    rw [← hjb]
    exact List.getElem?_eq_getElem _
  have := h3 j (by simpa using hjk) b' hl
  rw [(eligible_iff_writable dbmp b').2 hw] at this
  cases this

theorem bhwrite_offset (io : BH → WriteOutcome) (c : MPOOL) (k : Nat) (b : BH)
    (hk : c.bhq[k]? = some b) (j : Nat) (b0 : BH) (hj : c.bhq[j]? = some b0) :
    ∃ b1, (__memp_bhwrite io c k b).2.2.bhq[j]? = some b1 ∧ b1.mf_offset = b0.mf_offset := by
  unfold __memp_bhwrite
  cases io b with
  | wrote =>
    by_cases hjk : k = j
    · subst hjk
      rw [hk] at hj
      cases hj
      have hlt : k < c.bhq.length := (List.getElem?_eq_some_iff.1 hk).1
      exact ⟨{ b with BH_DIRTY := false }, by simp [List.getElem?_set, hlt], rfl⟩
    · exact ⟨b0, by simp [List.getElem?_set, hjk, hj], rfl⟩
  | not_written => exact ⟨b0, hj, rfl⟩
  | failed e => exact ⟨b0, hj, rfl⟩

theorem trick_loop_attempts (io : BH → WriteOutcome) (dbmp : DB_MPOOL) (pct : Nat) :
    ∀ (fuel : Nat) (c : MPOOL) (nw : Nat) (tried : List Nat) (r : TrickResult),
    trick_loop io dbmp pct fuel c nw tried = some r →
    ∃ ks, r.tried = tried ++ ks ∧ each_first_writable io dbmp c ks ∧
      (∀ k ∈ ks, ∀ b, c.bhq[k]? = some b → (R_ADDR dbmp b).MP_TEMP = false) ∧
      (ks = [] → r.ret = 0 ∧ r.nwrote = nw ∧ r.c_mp = c) := by
  intro fuel
  induction fuel with
  | zero => intro c nw tried r h; simp [trick_loop] at h
  | succ fuel ih =>
    intro c nw tried r h
    rw [trick_loop] at h
    simp only at h
    split at h
    · cases h
      exact ⟨[], by simp, trivial, by simp, fun _ => ⟨rfl, rfl, rfl⟩⟩
    · split at h
      · cases h
        exact ⟨[], by simp, trivial, by simp, fun _ => ⟨rfl, rfl, rfl⟩⟩
      · rename_i k b hscan
        have hfw := scan_first_writable dbmp c.bhq k b hscan
        have hone : ∀ k' ∈ [k], ∀ b', c.bhq[k']? = some b' → (R_ADDR dbmp b').MP_TEMP = false := by
          intro k' hk' b' hb'
          simp only [List.mem_singleton] at hk'
          subst hk'
          rw [hfw.1] at hb'
          cases hb'
          exact hfw.2.1.2.2.2
        have hefw1 : each_first_writable io dbmp c [k] := by
          simp only [each_first_writable, hfw.1]
          exact ⟨hfw, trivial⟩
        split at h
        · cases h
          exact ⟨[k], rfl, hefw1, hone, by simp⟩
        · split at h
          · cases h
            exact ⟨[k], rfl, hefw1, hone, by simp⟩
          · obtain ⟨ks, h1, h2, h3, _⟩ := ih _ _ _ _ h
            refine ⟨k :: ks, by simp [h1], ?_, ?_, by simp⟩
            · simp only [each_first_writable, hfw.1]
              exact ⟨hfw, h2⟩
            · intro k' hk' b' hb'
              rcases List.mem_cons.1 hk' with hk' | hk'
              · exact hone k' (by simp [hk']) b' hb'
              · obtain ⟨b1, hb1, hoff⟩ := bhwrite_offset io c k b hfw.1 k' b' hb'
                have := h3 k' hk' b1 hb1
                unfold R_ADDR at this ⊢
                rw [← hoff]
                exact this

theorem scan_of_first (dbmp : DB_MPOOL) : ∀ (l : List BH) (k0 k : Nat) (b : BH),
    l[k]? = some b → writable dbmp b → (∀ b' ∈ l.take k, ¬ writable dbmp b') →
    scan dbmp l k0 = some (k0 + k, b) := by
  intro l
  induction l with
  | nil => intro k0 k b h; simp at h
  | cons a l ih =>
    intro k0 k b h hw hnot
    cases k with
    | zero =>
      simp only [List.getElem?_cons_zero, Option.some.injEq] at h
      subst h
      obtain ⟨h1, h2, h3, h4⟩ := hw
      simp [scan, h1, h2, h3, h4]
    | succ k =>
      simp only [List.getElem?_cons_succ] at h
      have ha : ¬ writable dbmp a := hnot a (by simp)
      have hrest : ∀ b' ∈ l.take k, ¬ writable dbmp b' := by
        intro b' hb'
        exact hnot b' (by simp [hb'])
      have := ih (k0 + 1) k b h hw hrest
      rw [scan]
      split
      · rw [this]; congr 2; omega
      · rename_i hc
        split
        · rw [this]; congr 2; omega
        · rename_i ht
          exfalso
          apply ha
          simp only [not_or] at hc
          refine ⟨by simpa using hc.1, by simpa using hc.2.1, by simpa using hc.2.2, by simpa using ht⟩

theorem trick_loop_not_written (io : BH → WriteOutcome) (dbmp : DB_MPOOL) (pct : Nat)
    (c : MPOOL) (k : Nat) (b : BH)
    (hunmet : ¬ ratio_met pct c.st_page_clean c.st_page_dirty)
    (hfirst : first_writable dbmp c.bhq k b) (hio : io b = WriteOutcome.not_written) :
    ∀ (ks : List Nat) (fuel : Nat) (c0 : MPOOL) (nw : Nat) (tried : List Nat),
    wrote_run io dbmp pct c0 ks c → ks.length < fuel →
    trick_loop io dbmp pct fuel c0 nw tried =
      some ⟨EPERM, nw + ks.length, c, tried ++ ks ++ [k]⟩ := by
  intro ks
  induction ks with
  | nil =>
    intro fuel c0 nw tried hrun hfuel
    simp only [wrote_run] at hrun
    subst hrun
    obtain ⟨fuel, rfl⟩ : ∃ m, fuel = m + 1 := ⟨fuel - 1, by simp at hfuel; omega⟩
    rw [trick_loop]
    have hs := scan_of_first dbmp c.bhq 0 k b hfirst.1 hfirst.2.1 hfirst.2.2
    simp only [Nat.zero_add] at hs
    unfold ratio_met at hunmet
    simp only [if_neg hunmet, hs, __memp_bhwrite, hio]
    simp
  | cons k1 ks ih =>
    intro fuel c0 nw tried hrun hfuel
    obtain ⟨fuel, rfl⟩ : ∃ m, fuel = m + 1 := ⟨fuel - 1, by simp at hfuel; omega⟩
    simp only [wrote_run] at hrun
    split at hrun
    · exact hrun.elim
    · rename_i b1 hb1
      obtain ⟨hun1, hf1, hio1, hrest⟩ := hrun
      have hs := scan_of_first dbmp c0.bhq 0 k1 b1 hf1.1 hf1.2.1 hf1.2.2
      simp only [Nat.zero_add] at hs
      have hstep := ih fuel (__memp_bhwrite io c0 k1 b1).2.2 (nw + 1) (tried ++ [k1]) hrest
        (by simp at hfuel; omega)
      rw [trick_loop]
      unfold ratio_met at hun1
      simp only [if_neg hun1, hs]
      have hw1 : (__memp_bhwrite io c0 k1 b1).1 = 0 := by simp [__memp_bhwrite, hio1]
      have hw2 : (__memp_bhwrite io c0 k1 b1).2.1 = true := by simp [__memp_bhwrite, hio1]
      simp only [hw1, hw2, ne_eq, not_true_eq_false, if_false, Bool.true_eq_false]
      rw [hstep]
      simp [Nat.add_assoc, Nat.add_comm 1]

/-! ### Releasing the stack -/

theorem stkrel_entry_state (nolocks : Bool) (s : State) (epg : EPG) :
    (stkrel_entry nolocks s epg).trace = s.trace ++ release_events nolocks epg ∧
    (stkrel_entry nolocks s epg).stk = s.stk ∧ (stkrel_entry nolocks s epg).csp = s.csp ∧
    (stkrel_entry nolocks s epg).nlget = s.nlget ∧ (stkrel_entry nolocks s epg).nfget = s.nfget := by
  unfold stkrel_entry release_events
  cases hp : epg.page <;> by_cases hl : epg.lock ≠ LOCK_INVALID <;> cases nolocks <;>
    simp [hl, memp_fput, __LPUT, __TLPUT]

theorem stkrel_fold_state (nolocks : Bool) : ∀ (l : List EPG) (s : State),
    (l.foldl (stkrel_entry nolocks) s).trace = s.trace ++ l.flatMap (release_events nolocks) ∧
    (l.foldl (stkrel_entry nolocks) s).stk = s.stk ∧
    (l.foldl (stkrel_entry nolocks) s).csp = s.csp ∧
    (l.foldl (stkrel_entry nolocks) s).nlget = s.nlget ∧
    (l.foldl (stkrel_entry nolocks) s).nfget = s.nfget := by
  intro l
  induction l with
  | nil => intro s; simp
  | cons e l ih =>
    intro s
    obtain ⟨h1, h2, h3, h4, h5⟩ := ih (stkrel_entry nolocks s e)
    obtain ⟨g1, g2, g3, g4, g5⟩ := stkrel_entry_state nolocks s e
    simp only [List.foldl_cons, List.flatMap_cons]
    refine ⟨by rw [h1, g1, List.append_assoc], by rw [h2, g2], by rw [h3, g3], by rw [h4, g4],
      by rw [h5, g5]⟩

theorem stkrel_state (nolocks : Bool) (s : State) :
    (__bam_stkrel nolocks s).1 = 0 ∧
    (__bam_stkrel nolocks s).2.trace =
      s.trace ++ (s.stk.take (s.csp + 1)).flatMap (release_events nolocks) ∧
    (__bam_stkrel nolocks s).2.stk = s.stk ∧ (__bam_stkrel nolocks s).2.csp = 0 ∧
    (__bam_stkrel nolocks s).2.nlget = s.nlget ∧ (__bam_stkrel nolocks s).2.nfget = s.nfget := by
  obtain ⟨h1, h2, _, h4, h5⟩ := stkrel_fold_state nolocks (s.stk.take (s.csp + 1)) s
  exact ⟨rfl, h1, h2, rfl, h4, h5⟩

theorem fputs_release (nolocks : Bool) : ∀ (l : List EPG),
    fputs (l.flatMap (release_events nolocks)) =
      l.filterMap (fun e => e.page.map (fun p => p.pgno)) := by
  intro l
  induction l with
  | nil => rfl
  | cons e l ih =>
    rw [List.flatMap_cons, fputs_append, ih]
    unfold release_events
    cases hp : e.page <;> by_cases hl : e.lock ≠ LOCK_INVALID <;> cases nolocks <;>
      simp [hl, hp, fputs, List.filterMap_cons]

theorem lputs_release : ∀ (l : List EPG),
    lputs (l.flatMap (release_events true)) =
        (l.filter (fun e => e.lock ≠ LOCK_INVALID)).map (fun e => e.lock) ∧
    tlputs (l.flatMap (release_events true)) = [] ∧
    tlputs (l.flatMap (release_events false)) =
        (l.filter (fun e => e.lock ≠ LOCK_INVALID)).map (fun e => e.lock) ∧
    lputs (l.flatMap (release_events false)) = [] := by
  intro l
  induction l with
  | nil => exact ⟨rfl, rfl, rfl, rfl⟩
  | cons e l ih =>
    obtain ⟨i1, i2, i3, i4⟩ := ih
    have hl (a b : List Event) : lputs (a ++ b) = lputs a ++ lputs b := by
      simp [lputs, List.filterMap_append]
    simp only [List.flatMap_cons, hl, tlputs_append, i1, i2, i3, i4]
    unfold release_events
    cases hp : e.page <;> by_cases hv : e.lock ≠ LOCK_INVALID <;>
      simp [hv, lputs, tlputs, List.filterMap_cons, List.filter_cons]

/-! ### Steps of the descent -/

theorem take_succ_set {α : Type} (l : List α) (n : Nat) (a : α) (hn : n < l.length) :
    (l.set n a).take (n + 1) = l.take n ++ [a] := by
  rw [List.take_succ, List.getElem?_set_self hn, List.set_take,
    List.set_eq_of_length_le (by simp)]
  rfl

theorem db_lget_ret0 (E : Env) (couple : Bool) (pg : Nat) (mode : db_lockmode_t) (lock : Nat)
    (s : State) (h0 : (__db_lget E couple pg mode lock s).1 = 0) :
    __db_lget E couple pg mode lock s =
      (0, s.nlget + 1,
        { s with nlget := s.nlget + 1,
                 trace := s.trace ++ [Event.lget couple lock pg mode (some (s.nlget + 1))] }) := by
  by_cases hg : E.lget_ret s.nlget = 0
  · exact db_lget_ok E couple pg mode lock s hg
  · exfalso
    simp [__db_lget, hg] at h0

theorem BT_STK_ENTER_ret0 (E : Env) (h : PAGE) (indx lock : Nat) (mode : db_lockmode_t)
    (s : State) (hs : stack_ok s) (h0 : (BT_STK_ENTER E h indx lock mode s).1 = 0) :
    (BT_STK_ENTER E h indx lock mode s).2.csp = s.csp ∧
    s.csp < (BT_STK_ENTER E h indx lock mode s).2.stk.length ∧
    (BT_STK_ENTER E h indx lock mode s).2.stk.take (s.csp + 1) =
      s.stk.take s.csp ++ [⟨some h, indx, lock, mode⟩] ∧
    (BT_STK_ENTER E h indx lock mode s).2.trace = s.trace ∧
    (BT_STK_ENTER E h indx lock mode s).2.nlget = s.nlget ∧
    (BT_STK_ENTER E h indx lock mode s).2.nfget = s.nfget := by
  obtain ⟨hpos, hle⟩ := hs
  by_cases hfull : s.csp = s.stk.length
  · by_cases hc : E.calloc_ret (s.stk.length * 2) = 0
    · simp only [BT_STK_ENTER, hfull, if_true, __bam_stkgrow, hc, ne_eq,
        not_true_eq_false, if_false]
      refine ⟨trivial, by simp; omega, ?_, trivial, trivial, trivial⟩
      rw [take_succ_set _ _ _ (by simp; omega), List.take_append_of_le_length (le_refl _)]
    · exfalso
      simp [BT_STK_ENTER, hfull, __bam_stkgrow, hc] at h0
  · have hlt : s.csp < s.stk.length := lt_of_le_of_ne hle hfull
    simp only [BT_STK_ENTER, hfull, if_false, if_true]
    refine ⟨trivial, by simpa using hlt, take_succ_set _ _ _ hlt, trivial, trivial, trivial⟩

/-- What an iteration that goes round leaves: in a stacked descent the page is
pushed and the child write-locked; in a coupled descent the page is released
and the child's lock is taken coupled with the lock held. -/
theorem search_page_step (E : Env) (f : Flags) (stop : Int) (want_recno : Bool) (x x1 : Loop)
    (hs : stack_ok x.st) (hx : search_page E f stop want_recno x = Sum.inr x1) :
    x.h.type ≠ PageType.P_LBTREE ∧
    E.memp_fget x.st.nfget (child x.h (pick_indx E x.h)) = (0, x1.h) ∧
    x1.lock = x.st.nlget + 1 ∧ x1.st.nlget = x.st.nlget + 1 ∧ x1.st.nfget = x.st.nfget + 1 ∧
    stack_ok x1.st ∧
    ((x.stack = true ∧ ¬ (f.S_PARENT = true ∧ stop = (x.h.level : Int)) ∧
        x1.stack = true ∧ x1.lock_mode = db_lockmode_t.DB_LOCK_WRITE ∧
        x1.st.csp = x.st.csp + 1 ∧
        x1.st.stk.take (x.st.csp + 1) =
          x.st.stk.take x.st.csp ++ [⟨some x.h, pick_indx E x.h, x.lock, x.lock_mode⟩] ∧
        x1.st.trace = x.st.trace ++
          [Event.lget false x.lock (child x.h (pick_indx E x.h)) db_lockmode_t.DB_LOCK_WRITE
            (some x1.lock), Event.fget (child x.h (pick_indx E x.h)) true]) ∨
      (x.stack = false ∧ x1.stack = keep_next E f stop x.h ∧
        x1.lock_mode = next_mode f (keep_next E f stop x.h) ∧
        x1.st.csp = x.st.csp ∧ x1.st.stk = x.st.stk ∧
        x1.st.trace = x.st.trace ++
          [Event.fput x.h.pgno,
            Event.lget true x.lock (child x.h (pick_indx E x.h))
              (next_mode f (keep_next E f stop x.h)) (some x1.lock),
            Event.fget (child x.h (pick_indx E x.h)) true])) := by
  unfold search_page at hx
  by_cases hleaf : x.h.type = PageType.P_LBTREE
  · simp only [hleaf, if_true] at hx
    cases hx
  · refine ⟨hleaf, ?_⟩
    simp only [hleaf, if_false] at hx
    by_cases hst : x.stack = true
    · simp only [hst, if_true] at hx
      unfold next_stacked at hx
      split at hx
      · cases hx
      · rename_i hpar
        simp only at hx
        split at hx
        · cases hx
        · rename_i hpush
          split at hx
          · cases hx
          · rename_i hlget
            have hp0 : (BT_STK_ENTER E x.h (pick_indx E x.h) x.lock x.lock_mode x.st).1 = 0 := by
              simpa [BT_STK_PUSH] using hpush
            obtain ⟨e1, e2, e3, e4, e5, e6⟩ :=
              BT_STK_ENTER_ret0 E x.h (pick_indx E x.h) x.lock x.lock_mode x.st hs hp0
            have hl := db_lget_ret0 E false (GET_ITEM x.h (pick_indx E x.h)).pgno
              db_lockmode_t.DB_LOCK_WRITE x.lock
              (BT_STK_PUSH E x.h (pick_indx E x.h) x.lock x.lock_mode x.st).2
              (by simpa using hlget)
            rw [hl] at hx
            obtain ⟨g1, g2, g3, g4, _, g6⟩ := fetch_child_inr _ _ _ _ _ _ _ _ hx
            simp only [BT_STK_PUSH, e5, e6] at g1 g2
            refine ⟨g1, g2, ?_, ?_, ?_, Or.inl ⟨hst, ?_, g4, g3, ?_, ?_, ?_⟩⟩
            · rw [g6]; simp only [BT_STK_PUSH, e5]
            · rw [g6]; simp only [BT_STK_PUSH, e6]
            · rw [g6]; simp only [BT_STK_PUSH, stack_ok, e1]
              exact ⟨by omega, by omega⟩
            · simpa using hpar
            · rw [g6]; simp only [BT_STK_PUSH, e1]
            · rw [g6]; simp only [BT_STK_PUSH]; exact e3
            · rw [g6, g2]; simp only [BT_STK_PUSH, e4, e5, child, List.append_assoc,
                List.singleton_append]
    · have hst' : x.stack = false := by simpa using hst
      simp only [hst', Bool.false_eq_true, if_false] at hx
      unfold next_coupled at hx
      simp only at hx
      split at hx
      · cases hx
      · rename_i hlget
        have hl := db_lget_ret0 E true (GET_ITEM x.h (pick_indx E x.h)).pgno
          (next_mode f (keep_next E f stop x.h)) x.lock (memp_fput x.h x.st)
          (by simpa using hlget)
        rw [hl] at hx
        obtain ⟨g1, g2, g3, g4, _, g6⟩ := fetch_child_inr _ _ _ _ _ _ _ _ hx
        simp only [memp_fput] at g1 g2
        refine ⟨g1, g2, ?_, ?_, ?_, Or.inr ⟨hst', g4, g3, ?_, ?_, ?_⟩⟩
        · rw [g6]; simp only [memp_fput]
        · rw [g6]; simp only [memp_fput]
        · rw [g6]; simp only [memp_fput, stack_ok]; exact hs
        · rw [g6]; simp only [memp_fput]
        · rw [g6]; simp only [memp_fput]
        · rw [g6, g2]; simp only [memp_fput, child, List.append_assoc, List.singleton_append,
            List.cons_append, List.nil_append]

/-- What an iteration that returns 0 leaves: the page on which the loop stood is
entered at `csp`, under the lock held, and nothing else is called.  The page
is a leaf, or the descent is stacked and stops at this level by `S_PARENT`. -/
theorem search_page_success (E : Env) (f : Flags) (stop : Int) (want_recno : Bool) (x : Loop)
    (r : Result) (hs : stack_ok x.st)
    (hx : search_page E f stop want_recno x = Sum.inl r) (hret : r.ret = 0) :
    ∃ indx, r.st.csp = x.st.csp ∧ x.st.csp < r.st.stk.length ∧
      r.st.stk.take (x.st.csp + 1) =
        x.st.stk.take x.st.csp ++ [⟨some x.h, indx, x.lock, x.lock_mode⟩] ∧
      r.st.trace = x.st.trace ∧
      (x.h.type = PageType.P_LBTREE ∨
        (x.h.type ≠ PageType.P_LBTREE ∧ x.stack = true ∧ f.S_PARENT = true ∧
          stop = (x.h.level : Int) ∧ indx = pick_indx E x.h)) := by
  have hnf : DB_NOTFOUND ≠ 0 := by decide
  have key : ∀ indx, r = ⟨(BT_STK_ENTER E x.h indx x.lock x.lock_mode x.st).1, r.exactp, r.recnop,
      (BT_STK_ENTER E x.h indx x.lock x.lock_mode x.st).2⟩ →
      r.st.csp = x.st.csp ∧ x.st.csp < r.st.stk.length ∧
      r.st.stk.take (x.st.csp + 1) =
        x.st.stk.take x.st.csp ++ [⟨some x.h, indx, x.lock, x.lock_mode⟩] ∧
      r.st.trace = x.st.trace := by
    intro indx hr
    have h0 : (BT_STK_ENTER E x.h indx x.lock x.lock_mode x.st).1 = 0 := by
      rw [hr] at hret; exact hret
    obtain ⟨e1, e2, e3, e4, _, _⟩ := BT_STK_ENTER_ret0 E x.h indx x.lock x.lock_mode x.st hs h0
    rw [hr]
    exact ⟨e1, e2, e3, e4⟩
  unfold search_page at hx
  by_cases hleaf : x.h.type = PageType.P_LBTREE
  · simp only [hleaf, if_true] at hx
    injection hx with hx
    unfold search_leaf at hx
    split at hx
    · rename_i indx hps
      unfold bam_match at hx
      simp only at hx
      split at hx
      · split at hx
        · subst hx; exact absurd hret hnf
        · subst hx
          obtain ⟨k1, k2, k3, k4⟩ := key _ rfl
          exact ⟨_, k1, k2, k3, k4, Or.inl hleaf⟩
      · subst hx
        obtain ⟨k1, k2, k3, k4⟩ := key _ rfl
        exact ⟨_, k1, k2, k3, k4, Or.inl hleaf⟩
    · split at hx
      · subst hx; exact absurd hret hnf
      · subst hx
        obtain ⟨k1, k2, k3, k4⟩ := key _ rfl
        exact ⟨_, k1, k2, k3, k4, Or.inl hleaf⟩
  · simp only [hleaf, if_false] at hx
    by_cases hst : x.stack = true
    · simp only [hst, if_true] at hx
      unfold next_stacked at hx
      split at hx
      · rename_i hpar
        injection hx with hx
        subst hx
        obtain ⟨k1, k2, k3, k4⟩ := key _ rfl
        exact ⟨_, k1, k2, k3, k4, Or.inr ⟨hleaf, hst, hpar.1, hpar.2, rfl⟩⟩
      · simp only at hx
        split at hx
        · rename_i hpush
          injection hx with hx; subst hx; exact absurd hret hpush
        · split at hx
          · rename_i hlget
            injection hx with hx; subst hx; exact absurd hret hlget
          · exact absurd hret (fetch_child_inl _ _ _ _ _ _ _ _ hx).1
    · have hst' : x.stack = false := by simpa using hst
      simp only [hst', Bool.false_eq_true, if_false] at hx
      unfold next_coupled at hx
      simp only at hx
      split at hx
      · rename_i hlget
        injection hx with hx; subst hx; exact absurd hret hlget
      · exact absurd hret (fetch_child_inl _ _ _ _ _ _ _ _ hx).1

/-- The condition of lines 130-131 under which the root is locked again for
writing. -/
theorem root_upgrade_step (E : Env) (f : Flags) (stop : Int) (pg : Nat) (stack : Bool)
    (lock_mode : db_lockmode_t) (lock : Nat) (h : PAGE) (s1 : State) (x : Loop)
    (hr : root_upgrade E f stop pg stack lock_mode lock h s1 = Sum.inr x) :
    x.st.stk = s1.stk ∧ x.st.csp = s1.csp ∧ x.recno = 0 ∧
    ((¬ (stack = false ∧ ((f.S_PARENT = true ∧ ((stop + 1) % 256).toNat ≥ h.level) ∨
          (f.S_WRITE = true ∧ h.level = E.LEAFLEVEL))) ∧
        x = ⟨h, lock, lock_mode, stack, 0, s1⟩) ∨
      (stack = false ∧ ((f.S_PARENT = true ∧ ((stop + 1) % 256).toNat ≥ h.level) ∨
          (f.S_WRITE = true ∧ h.level = E.LEAFLEVEL)) ∧
        x.stack = true ∧ x.lock_mode = db_lockmode_t.DB_LOCK_WRITE ∧ x.lock = s1.nlget + 1 ∧
        E.memp_fget s1.nfget pg = (0, x.h) ∧
        x.st.nlget = s1.nlget + 1 ∧ x.st.nfget = s1.nfget + 1 ∧
        x.st.trace = s1.trace ++
          [Event.fput h.pgno, Event.lput lock,
            Event.lget false lock pg db_lockmode_t.DB_LOCK_WRITE (some x.lock),
            Event.fget pg true])) := by
  unfold root_upgrade at hr
  split at hr
  · rename_i hc
    simp only [] at hr
    split at hr
    · cases hr
    · rename_i hlget
      have hl := db_lget_ret0 E false pg db_lockmode_t.DB_LOCK_WRITE lock
        (__LPUT lock (memp_fput h s1)) (by simpa using hlget)
      rw [hl] at hr
      split at hr
      · cases hr
      · rename_i hg
        injection hr with hr; subst hr
        simp only [ne_eq, not_not] at hg
        have hg0 : (E.memp_fget s1.nfget pg).1 = 0 := by
          simpa [memp_fget, __LPUT, memp_fput] using hg
        refine ⟨rfl, rfl, rfl, Or.inr ⟨by simpa using hc.1, ?_, rfl, rfl, rfl, ?_, rfl, rfl, ?_⟩⟩
        · rcases hc.2 with h1 | h1
          · exact Or.inl ⟨h1.1, h1.2⟩
          · exact Or.inr ⟨h1.1, h1.2⟩
        · exact Prod.ext hg0 rfl
        · simp [memp_fget, __LPUT, memp_fput, hg0]
  · rename_i hc
    injection hr with hr; subst hr
    refine ⟨rfl, rfl, rfl, Or.inl ⟨?_, rfl⟩⟩
    intro hcc
    apply hc
    refine ⟨by simp [hcc.1], ?_⟩
    rcases hcc.2 with h1 | h1
    · exact Or.inl ⟨h1.1, h1.2⟩
    · exact Or.inr ⟨h1.1, h1.2⟩

/-- What the code before the loop leaves when the loop is entered: the root
locked and fetched once, or, when it has to be kept, locked for reading,
fetched, released, and locked for writing and fetched again. -/
theorem search_root_step (E : Env) (f : Flags) (stop : Int) (s0 : State) (x : Loop)
    (hr : search_root E f stop s0 = Sum.inr x) :
    x.st.stk = s0.stk ∧ x.st.csp = 0 ∧ x.recno = 0 ∧
    ((x.stack = (E.DB_BT_RECNUM && f.S_STACK) ∧
        x.lock_mode = root_mode (E.DB_BT_RECNUM && f.S_STACK) ∧
        ¬ ((E.DB_BT_RECNUM && f.S_STACK) = false ∧
          ((f.S_PARENT = true ∧ ((stop + 1) % 256).toNat ≥ x.h.level) ∨
            (f.S_WRITE = true ∧ x.h.level = E.LEAFLEVEL))) ∧
        E.memp_fget s0.nfget E.bt_root = (0, x.h) ∧
        x.lock = s0.nlget + 1 ∧ x.st.nlget = s0.nlget + 1 ∧ x.st.nfget = s0.nfget + 1 ∧
        x.st.trace = s0.trace ++
          [Event.lget false LOCK_INVALID E.bt_root (root_mode (E.DB_BT_RECNUM && f.S_STACK))
            (some x.lock), Event.fget E.bt_root true]) ∨
      ((E.DB_BT_RECNUM && f.S_STACK) = false ∧ x.stack = true ∧
        x.lock_mode = db_lockmode_t.DB_LOCK_WRITE ∧
        ∃ h1 l1, E.memp_fget s0.nfget E.bt_root = (0, h1) ∧
          ((f.S_PARENT = true ∧ ((stop + 1) % 256).toNat ≥ h1.level) ∨
            (f.S_WRITE = true ∧ h1.level = E.LEAFLEVEL)) ∧
          E.memp_fget (s0.nfget + 1) E.bt_root = (0, x.h) ∧
          l1 = s0.nlget + 1 ∧ x.lock = s0.nlget + 2 ∧ x.st.nlget = s0.nlget + 2 ∧
          x.st.nfget = s0.nfget + 2 ∧
          x.st.trace = s0.trace ++
            [Event.lget false LOCK_INVALID E.bt_root db_lockmode_t.DB_LOCK_READ (some l1),
              Event.fget E.bt_root true, Event.fput h1.pgno, Event.lput l1,
              Event.lget false l1 E.bt_root db_lockmode_t.DB_LOCK_WRITE (some x.lock),
              Event.fget E.bt_root true])) := by
  unfold search_root at hr
  simp only [] at hr
  split at hr
  · cases hr
  · rename_i hlget
    have hl := db_lget_ret0 E false E.bt_root (root_mode (E.DB_BT_RECNUM && f.S_STACK))
      LOCK_INVALID (BT_STK_CLR s0) (by simpa using hlget)
    rw [hl] at hr
    split at hr
    · cases hr
    · rename_i hg
      simp only [ne_eq, not_not] at hg
      have hg0 : (E.memp_fget s0.nfget E.bt_root).1 = 0 := by
        simpa [memp_fget, BT_STK_CLR] using hg
      obtain ⟨r1, r2, r3, r4⟩ := root_upgrade_step _ _ _ _ _ _ _ _ _ _ hr
      refine ⟨by rw [r1]; rfl, by rw [r2]; rfl, r3, ?_⟩
      rcases r4 with ⟨hc, hx⟩ | ⟨hstk, hc, q1, q2, q3, q4, q5, q6, q7⟩
      · left
        subst hx
        refine ⟨rfl, rfl, ?_, ?_, rfl, rfl, rfl, ?_⟩
        · simpa [memp_fget, BT_STK_CLR] using hc
        · exact Prod.ext hg0 rfl
        · simp [memp_fget, BT_STK_CLR, hg0]
      · right
        refine ⟨hstk, q1, q2, (E.memp_fget s0.nfget E.bt_root).2, s0.nlget + 1,
          Prod.ext hg0 rfl, ?_, ?_, rfl, ?_, ?_, ?_, ?_⟩
        · simpa [memp_fget, BT_STK_CLR] using hc
        · simpa [memp_fget, BT_STK_CLR] using q4
        · rw [q3]; simp [memp_fget, BT_STK_CLR]
        · rw [q5]; simp [memp_fget, BT_STK_CLR]
        · rw [q6]; simp [memp_fget, BT_STK_CLR]
        · rw [q7, q3]
          simp [memp_fget, BT_STK_CLR, hg0, hstk, root_mode]

theorem getElem?_of_take_succ {α : Type} (l p : List α) (n : Nat) (e : α)
    (h : l.take (n + 1) = p ++ [e]) (hp : p.length = n) : l[n]? = some e := by
  have h1 : (l.take (n + 1))[n]? = l[n]? := by
    rw [List.getElem?_take]
    simp
  rw [← h1, h, List.getElem?_append_right (by omega), hp]
  simp

theorem keep_next_leaf (E : Env) (f : Flags) (stop : Int) (h : PAGE) (m : Nat)
    (hpar : f.S_PARENT = false) (hl : h.level = E.LEAFLEVEL + (m + 1)) :
    (keep_next E f stop h = true ↔ m = 0) := by
  unfold keep_next
  simp only [hpar, Bool.false_eq_true, false_and, false_or, decide_eq_true_eq, hl]
  constructor
  · intro h1; omega
  · intro h1; subst h1; push_cast; omega

/-- The child an iteration goes to in a tree served by the cache. -/
theorem search_page_child (E : Env) (T : Nat → Option PAGE) (m : Nat) (x : Loop) (h1 : PAGE)
    (hsv : serves E T) (hT : T x.h.pgno = some x.h) (hw : wf_tree T (m + 1) x.h.pgno)
    (k : Nat) (hf : E.memp_fget k (child x.h (pick_indx E x.h)) = (0, h1)) :
    T h1.pgno = some h1 ∧ h1.pgno = child x.h (pick_indx E x.h) ∧
    wf_tree T m h1.pgno ∧ pick_indx E x.h < NUM_ENT x.h := by
  obtain ⟨_, w2, w3, w4, w5⟩ := wf_tree_node T m x.h.pgno x.h hT hw
  have hlt : pick_indx E x.h < NUM_ENT x.h :=
    pick_indx_lt E x.h (by rw [w2]; decide) w3 w4
  have hwc := w5 _ hlt
  obtain ⟨hc, hTc, hpg⟩ := wf_tree_page T m _ hwc
  have := hsv k _ hc hTc
  rw [this] at hf
  injection hf with _ hf
  subst hf
  exact ⟨by rw [hpg]; exact hTc, hpg, by rw [hpg]; exact hwc, hlt⟩

/-- The page the cache returns for the root of a tree it serves. -/
theorem served_page (E : Env) (T : Nat → Option PAGE) (n pg : Nat) (h : PAGE)
    (hsv : serves E T) (hw : wf_tree T n pg) (k : Nat) (hf : E.memp_fget k pg = (0, h)) :
    T h.pgno = some h ∧ h.pgno = pg := by
  obtain ⟨hc, hTc, hpg⟩ := wf_tree_page T n pg hw
  have := hsv k _ hc hTc
  rw [this] at hf
  injection hf with _ hf
  subst hf
  exact ⟨by rw [hpg]; exact hTc, hpg⟩

theorem getElem?_of_take_succ_lt {α : Type} (l l0 : List α) (n j : Nat) (e : α)
    (h : l.take (n + 1) = l0.take n ++ [e]) (hn : n ≤ l0.length) (hj : j < n) :
    l[j]? = l0[j]? := by
  have h1 : (l.take (n + 1))[j]? = l[j]? := by
    rw [List.getElem?_take]
    simp; omega
  have h2 : (l0.take n)[j]? = l0[j]? := by
    rw [List.getElem?_take]
    simp [hj]
  rw [← h1, h, List.getElem?_append_left (by rw [List.length_take]; omega), h2]

theorem keep_next_parent (E : Env) (f : Flags) (stop : Int) (h : PAGE) (m : Nat)
    (hpar : f.S_PARENT = true) (hl : h.level = E.LEAFLEVEL + (m + 1)) (h256 : h.level < 256)
    (hlo : (E.LEAFLEVEL : Int) ≤ stop) (h8 : stop + 1 < 256) :
    (keep_next E f stop h = true ↔ (E.LEAFLEVEL : Int) + m ≤ stop + 1) := by
  unfold keep_next
  simp only [hpar, true_and, decide_eq_true_eq, hl]
  have h1 : (E.LEAFLEVEL + (m + 1) + 255) % 256 = E.LEAFLEVEL + m := by omega
  rw [h1]
  constructor
  · intro hk
    rcases hk with hk | hk
    · omega
    · push_cast at hk; omega
  · intro hk
    left
    omega

theorem next_stacked_goes (E : Env) (f : Flags) (stop : Int) (x : Loop) (indx recno pg : Nat)
    (h : PAGE) (hg : grants E)
    (hnot : ¬ (f.S_PARENT = true ∧ stop = (x.h.level : Int))) (hs : stack_ok x.st)
    (hf : E.memp_fget x.st.nfget pg = (0, h)) :
    ∃ x1, next_stacked E f stop x indx recno pg = Sum.inr x1 := by
  unfold next_stacked
  rw [if_neg hnot]
  obtain ⟨e1, _, _, _, e5, e6, e7, _⟩ :=
    BT_STK_ENTER_ok E x.h indx x.lock x.lock_mode x.st hg.2 hs
  have hp1 : (BT_STK_PUSH E x.h indx x.lock x.lock_mode x.st).1 = 0 := by
    simp only [BT_STK_PUSH]; exact e1
  simp only []
  rw [if_neg (by simp [hp1])]
  rw [db_lget_ok E false pg _ x.lock _ (hg.1 _)]
  simp only [ne_eq, not_true_eq_false, if_false]
  have hnf : (BT_STK_PUSH E x.h indx x.lock x.lock_mode x.st).2.nfget = x.st.nfget := by
    simp only [BT_STK_PUSH]; exact e7
  rw [fetch_child_ok E pg _ _ _ _ _ h (by simp only [hnf]; exact hf)]
  exact ⟨_, rfl⟩

/-- An iteration on a page that is not a leaf goes round when nothing fails and
the descent does not stop at the page: it takes the lock of the child of the
slot picked, after releasing the page when the descent is not stacked, and it
fetches that child. -/
theorem search_page_descends (E : Env) (f : Flags) (stop : Int) (want_recno : Bool) (x : Loop)
    (h1 : PAGE) (hleaf : x.h.type ≠ PageType.P_LBTREE) (hg : grants E) (hs : stack_ok x.st)
    (hstop : ¬ (x.stack = true ∧ f.S_PARENT = true ∧ stop = (x.h.level : Int)))
    (hf : E.memp_fget x.st.nfget (child x.h (pick_indx E x.h)) = (0, h1)) :
    ∃ x1, search_page E f stop want_recno x = Sum.inr x1 ∧ x1.h = h1 ∧
      x1.lock = x.st.nlget + 1 ∧
      ∃ c md, x1.st.trace = x.st.trace ++
        (if x.stack = true then [] else [Event.fput x.h.pgno]) ++
        [Event.lget c x.lock (child x.h (pick_indx E x.h)) md (some x1.lock),
          Event.fget (child x.h (pick_indx E x.h)) true] := by
  have hex : ∃ x1, search_page E f stop want_recno x = Sum.inr x1 := by
    unfold search_page
    simp only [hleaf, if_false]
    by_cases hst : x.stack = true
    · simp only [hst, if_true]
      exact next_stacked_goes E f stop x _ _ _ h1 hg (fun hc => hstop ⟨hst, hc.1, hc.2⟩) hs hf
    · have hst' : x.stack = false := by simpa using hst
      simp only [hst', Bool.false_eq_true, if_false]
      exact ⟨_, next_coupled_ok E f stop x _ _ h1 hg hf⟩
  obtain ⟨x1, hx1⟩ := hex
  obtain ⟨_, g1, g2, _, _, _, hcase⟩ := search_page_step E f stop want_recno x x1 hs hx1
  rw [hf] at g1
  injection g1 with _ g1
  refine ⟨x1, hx1, g1.symm, g2, ?_⟩
  rcases hcase with ⟨c0, _, _, _, _, _, c3⟩ | ⟨c0, _, _, _, _, c3⟩
  · exact ⟨false, db_lockmode_t.DB_LOCK_WRITE, by rw [c3, c0]; simp⟩
  · exact ⟨true, next_mode f (keep_next E f stop x.h), by rw [c3, c0]; simp⟩

/-! ### Paths -/

theorem descent_snoc (E : Env) (h : PAGE) (i l : Nat) (m : db_lockmode_t) :
    ∀ (p : List EPG) (n pg : Nat), descent E n pg p →
      E.memp_fget (n + p.length) (next_pg pg p) = (0, h) →
      descent E n pg (p ++ [⟨some h, i, l, m⟩]) := by
  intro p
  induction p with
  | nil =>
    intro n pg _ hf
    simp only [List.nil_append, descent]
    exact ⟨by simpa [next_pg] using hf, trivial⟩
  | cons e p ih =>
    intro n pg hd hf
    simp only [List.cons_append, descent] at hd ⊢
    cases hp : e.page with
    | none => simp only [hp] at hd
    | some h0 =>
      simp only [hp] at hd ⊢
      refine ⟨hd.1, ih (n + 1) _ hd.2 ?_⟩
      simp only [next_pg, hp, List.length_cons] at hf
      rw [show n + 1 + p.length = n + (p.length + 1) by omega]
      exact hf

theorem next_pg_snoc (h : PAGE) (i l : Nat) (m : db_lockmode_t) :
    ∀ (p : List EPG) (pg : Nat), next_pg pg (p ++ [⟨some h, i, l, m⟩]) = child h i := by
  intro p
  induction p with
  | nil => intro pg; rfl
  | cons e p ih =>
    intro pg
    simp only [List.cons_append, next_pg]
    cases e.page <;> exact ih _

theorem still_held_stacked (evs : List Event) (l pg l1 : Nat) (m : db_lockmode_t) :
    still_held (evs ++ [Event.lget false l pg m (some l1), Event.fget pg true]) =
      still_held evs ++ [l1] := by
  rw [still_held_append]
  simp [hold_step]

theorem lputs_append (a b : List Event) : lputs (a ++ b) = lputs a ++ lputs b := by
  simp [lputs, List.filterMap_append]

/-! ### A stop level of 255 -/

theorem keep_next_255 (E : Env) (f : Flags) (h : PAGE) (m : Nat)
    (hl : h.level = E.LEAFLEVEL + (m + 1)) (h256 : h.level < 256) (hL : 1 ≤ E.LEAFLEVEL)
    (hk : keep_next E f 255 h = true) : m = 0 := by
  unfold keep_next at hk
  simp only [decide_eq_true_eq, hl] at hk
  have h1 : (E.LEAFLEVEL + (m + 1) + 255) % 256 = E.LEAFLEVEL + m := by omega
  have h2 : (((255 : Int) + 1) % 256).toNat = 0 := by decide
  rw [h1, h2] at hk
  rcases hk with hk | hk
  · omega
  · push_cast at hk; omega

theorem search_leaf_inexact_ok (E : Env) (f : Flags) (want_recno : Bool) (x : Loop)
    (hg : grants E) (hs : stack_ok x.st) (hex : f.S_EXACT = false) (hdel : f.S_DELNO = false) :
    (search_leaf E f want_recno x).ret = 0 ∧
    ∃ indx, terminal (search_leaf E f want_recno x).st =
      some ⟨some x.h, indx, x.lock, x.lock_mode⟩ := by
  unfold search_leaf
  split
  · rename_i indx _
    obtain ⟨m1, _, m3⟩ := bam_match_ok E f want_recno x.h indx x.lock x.lock_mode x.recno x.st
      hg hs (fun h => by rw [hdel] at h; cases h)
    exact ⟨m1, _, m3⟩
  · rename_i base _
    simp only [hex, Bool.false_eq_true, if_false]
    obtain ⟨e1, e2, _⟩ := BT_STK_ENTER_ok E x.h base x.lock x.lock_mode x.st hg.2 hs
    exact ⟨e1, _, e2⟩

/-- With a stop level of 255 and `S_PARENT`, `(u_int8_t)(stop + 1)` is 0: on a
tree of height at least 1 whose leaves are at level 1 or more, the descent is
never stacked above the leaf, and an inexact search ends on a leaf. -/
theorem search_stop_255 (E : Env) (f : Flags) (want_recno : Bool) (fuel : Nat) (s0 : State)
    (T : Nat → Option PAGE) (n : Nat)
    (hw : wf_tree T n E.bt_root) (hlv : wf_levels E.LEAFLEVEL T n E.bt_root)
    (hsv : serves E T) (hg : grants E) (hL : 1 ≤ E.LEAFLEVEL) (hn : 1 ≤ n)
    (hforce : (E.DB_BT_RECNUM && f.S_STACK) = false)
    (hex : f.S_EXACT = false) (hdel : f.S_DELNO = false)
    (hs : 0 < s0.stk.length) (hfuel : n < fuel) :
    ∃ r, __bam_search E f 255 want_recno fuel s0 = some r ∧ r.ret = 0 ∧
      ∃ h indx lock mode, terminal r.st = some ⟨some h, indx, lock, mode⟩ ∧
        h.level = E.LEAFLEVEL := by
  have htot := search_loop_total E f 255 want_recno
    (fun m x => stack_ok x.st ∧ wf_tree T m x.h.pgno ∧ wf_levels E.LEAFLEVEL T m x.h.pgno ∧
      T x.h.pgno = some x.h ∧ (x.stack = true → m = 0))
    (fun r => r.ret = 0 ∧ ∃ h indx lock mode, terminal r.st = some ⟨some h, indx, lock, mode⟩ ∧
      h.level = E.LEAFLEVEL)
    (by
      intro m x ⟨hsx, hwx, hlx, hTx, hstk⟩
      constructor
      · intro r hx
        by_cases hleaf : x.h.type = PageType.P_LBTREE
        · have hm0 : m = 0 := (wf_tree_height T m x.h.pgno x.h hTx hwx).1 hleaf
          unfold search_page at hx
          rw [if_pos hleaf] at hx
          injection hx with hx
          subst hx
          obtain ⟨a1, indx, a2⟩ := search_leaf_inexact_ok E f want_recno x hg hsx hex hdel
          refine ⟨a1, x.h, indx, x.lock, x.lock_mode, a2, ?_⟩
          have := wf_levels_height E.LEAFLEVEL T m x.h.pgno x.h hTx hlx
          omega
        · exfalso
          have hm : m ≠ 0 := fun h0 =>
            hleaf ((wf_tree_height T m x.h.pgno x.h hTx hwx).2 h0)
          obtain ⟨m', rfl⟩ : ∃ m', m = m' + 1 := ⟨m - 1, by omega⟩
          have hst : x.stack = false := by
            cases hh : x.stack
            · rfl
            · exact absurd (hstk hh) hm
          obtain ⟨_, w2, w3, w4, w5⟩ := wf_tree_node T m' x.h.pgno x.h hTx hwx
          have hlt : pick_indx E x.h < NUM_ENT x.h := pick_indx_lt E x.h hleaf w3 w4
          obtain ⟨hc, hTc, _⟩ := wf_tree_page T m' _ (w5 _ hlt)
          unfold search_page at hx
          simp only [hleaf, if_false, hst, Bool.false_eq_true] at hx
          have hnc := next_coupled_ok E f 255 x
            (if want_recno = true then sum_nrecs x.h (pick_indx E x.h) x.recno else x.recno)
            (child x.h (pick_indx E x.h)) hc hg (hsv _ _ hc hTc)
          unfold child at hnc
          rw [hnc] at hx
          cases hx
      · intro x1 hx
        obtain ⟨hint, g1, _, _, _, g5, hcase⟩ := search_page_step E f 255 want_recno x x1 hsx hx
        have hm : m ≠ 0 := fun h0 =>
          hint ((wf_tree_height T m x.h.pgno x.h hTx hwx).2 h0)
        obtain ⟨m', rfl⟩ : ∃ m', m = m' + 1 := ⟨m - 1, by omega⟩
        obtain ⟨d1, d2, d3, d4⟩ := search_page_child E T m' x x1.h hsv hTx hwx _ g1
        obtain ⟨v1, v2, v3⟩ := wf_levels_node E.LEAFLEVEL T m' x.h.pgno x.h hTx hlx
        refine ⟨m', rfl, g5, d3, by rw [d2]; exact v3 _ d4, d1, ?_⟩
        rcases hcase with ⟨c0, _⟩ | ⟨_, c1, _⟩
        · exact absurd (hstk c0) hm
        · intro h1
          rw [c1] at h1
          exact keep_next_255 E f x.h m' v1 v2 hL h1)
  obtain ⟨h0, hT0, hp0⟩ := wf_tree_page T n E.bt_root hw
  obtain ⟨x0, hx0⟩ := search_root_ok E f 255 s0 h0 hg (fun k => hsv k _ h0 hT0)
  obtain ⟨q1, q2, _, q4⟩ := search_root_step E f 255 s0 x0 hx0
  have hlevn : ∀ h, T h.pgno = some h → h.pgno = E.bt_root → h.level = E.LEAFLEVEL + n :=
    fun h hT hp => wf_levels_height E.LEAFLEVEL T n h.pgno h hT (by rw [hp]; exact hlv)
  have h2 : (((255 : Int) + 1) % 256).toNat = 0 := by decide
  have hinv0 : stack_ok x0.st ∧ wf_tree T n x0.h.pgno ∧ wf_levels E.LEAFLEVEL T n x0.h.pgno ∧
      T x0.h.pgno = some x0.h ∧ (x0.stack = true → n = 0) := by
    refine ⟨⟨by rw [q1]; exact hs, by rw [q2]; omega⟩, ?_⟩
    rcases q4 with ⟨b1, _, _, g, _⟩ | ⟨_, _, _, h1, l1, g1, b3, _⟩
    · obtain ⟨p1, p2⟩ := served_page E T n _ x0.h hsv hw _ g
      refine ⟨by rw [p2]; exact hw, by rw [p2]; exact hlv, p1, ?_⟩
      intro h; rw [b1, hforce] at h; cases h
    · exfalso
      obtain ⟨p3, p4⟩ := served_page E T n _ h1 hsv hw _ g1
      have := hlevn h1 p3 p4
      rw [h2] at b3
      rcases b3 with b3 | b3 <;> omega
  unfold __bam_search
  rw [hx0]
  exact htot fuel n x0 hinv0 hfuel

theorem sample_chain_wf : ∀ m, m ≤ 254 →
    wf_tree sample_chain m (255 - m) ∧ wf_levels 1 sample_chain m (255 - m) := by
  intro m
  induction m with
  | zero =>
    intro _
    constructor
    · unfold wf_tree on_page
      simp only [sample_chain, if_true]
      decide
    · unfold wf_levels on_page
      simp only [sample_chain, if_true]
      decide
  | succ m ih =>
    intro hm
    obtain ⟨i1, i2⟩ := ih (by omega)
    have hpg : sample_chain (255 - (m + 1)) =
        some ⟨255 - (m + 1), 256 - (255 - (m + 1)), PageType.P_IBTREE, [0],
          [sample_sep (255 - (m + 1) + 1) 1 0]⟩ := by
      unfold sample_chain
      rw [if_neg (by omega), if_pos (by omega)]
    have hch : ∀ i < 1, child (⟨255 - (m + 1), 256 - (255 - (m + 1)), PageType.P_IBTREE, [0],
          [sample_sep (255 - (m + 1) + 1) 1 0]⟩ : PAGE) i = 255 - m := by
      intro i hi
      obtain rfl : i = 0 := by omega
      simp only [child, GET_ITEM, sample_sep, List.getD_cons_zero]
      omega
    constructor
    · unfold wf_tree on_page
      rw [hpg]
      refine ⟨rfl, rfl, by simp [NUM_ENT], by simp [NUM_ENT], ?_⟩
      intro i hi
      rw [hch i (by simpa [NUM_ENT] using hi)]
      exact i1
    · unfold wf_levels on_page
      rw [hpg]
      refine ⟨by simp only; omega, by simp only; omega, ?_⟩
      intro i hi
      rw [hch i (by simpa [NUM_ENT] using hi)]
      exact i2

theorem sample_chain_serves : serves sample_chain_env sample_chain := by
  intro n pg h hT
  simp only [sample_chain_env, hT]

/-! ## The claims -/

/-! ### C1 -/

/-- C1.  On a well-formed tree in key order (leaf slots in key order, internal
separators consistent with their subtrees) on which the key occurs exactly
once among the leaf entries, with a cache that serves the tree and a lock
manager and allocator that do not fail, `__bam_search` with `S_EXACT` set,
`S_PARENT` clear and, when `S_DELNO` is set, the entry not marked deleted,
returns (given fuel above the height) 0 with `*exactp = 1`, and the terminal
entry of the stack is a leaf page of the tree and an even index on it whose
key compares equal to the key searched. -/
theorem bam_search_exact_found (E : Env) (f : Flags) (stop : Int) (want_recno : Bool)
    (fuel : Nat) (s0 : State) (T : Nat → Option PAGE) (n : Nat)
    (hw : wf_tree T n E.bt_root) (hko : key_ordered E.bam_cmp T n E.bt_root)
    (hone : matches_in E.bam_cmp T n E.bt_root = 1)
    (hsv : serves E T) (hg : grants E)
    (_hex : f.S_EXACT = true) (hpar : f.S_PARENT = false)
    (hlive : f.S_DELNO = true → ∀ e ∈ leaf_entries T n E.bt_root,
      E.bam_cmp e.1 e.2 = 0 → deleted e.1 e.2 = false)
    (hs : 0 < s0.stk.length) (hfuel : n < fuel) :
    ∃ r, __bam_search E f stop want_recno fuel s0 = some r ∧ r.ret = 0 ∧ r.exactp = some 1 ∧
      ∃ h indx lock mode, terminal r.st = some ⟨some h, indx, lock, mode⟩ ∧
        h.type = PageType.P_LBTREE ∧ T h.pgno = some h ∧
        indx % 2 = 0 ∧ indx + 1 < NUM_ENT h ∧ E.bam_cmp h indx = 0 := by
  obtain ⟨h0, hT0, hpg0⟩ := wf_tree_page T n E.bt_root hw
  obtain ⟨x0, hroot⟩ := search_root_ok E f stop s0 h0 hg (fun k => hsv k _ h0 hT0)
  obtain ⟨k1, k2, _, nf, k4⟩ := search_root_inr E f stop s0 x0 hroot
  have hx0h : x0.h = h0 := by
    have := hsv nf E.bt_root h0 hT0
    rw [this] at k4
    injection k4 with _ k4
    exact k4.symm
  unfold __bam_search
  rw [hroot]
  simp only []
  refine search_loop_total E f stop want_recno
    (fun m x => wf_tree T m x.h.pgno ∧ T x.h.pgno = some x.h ∧
      key_ordered E.bam_cmp T m x.h.pgno ∧ matches_in E.bam_cmp T m x.h.pgno = 1 ∧
      (f.S_DELNO = true → ∀ e ∈ leaf_entries T m x.h.pgno,
        E.bam_cmp e.1 e.2 = 0 → deleted e.1 e.2 = false) ∧
      stack_ok x.st)
    (fun r => r.ret = 0 ∧ r.exactp = some 1 ∧
      ∃ h indx lock mode, terminal r.st = some ⟨some h, indx, lock, mode⟩ ∧
        h.type = PageType.P_LBTREE ∧ T h.pgno = some h ∧
        indx % 2 = 0 ∧ indx + 1 < NUM_ENT h ∧ E.bam_cmp h indx = 0)
    ?_ fuel n x0 ?_ hfuel
  · rintro m x ⟨xw, xT, xo, xone, xlive, xs⟩
    by_cases hleaf : x.h.type = PageType.P_LBTREE
    · have hm : m = 0 := (wf_tree_height T m _ x.h xT xw).1 hleaf
      subst hm
      obtain ⟨_, _, hn, _⟩ := wf_tree_leaf T _ x.h xT xw
      obtain ⟨i, i1, i2, i3, i4, i5⟩ := leaf_found_single E T _ x.h xT xw xo xone
      have hland : landing f x.h i = i := landing_single f x.h i hn i5
      have hmem : (x.h, i) ∈ leaf_entries T 0 x.h.pgno := by
        rw [leaf_entries_leaf T _ x.h xT]
        exact List.mem_map.2 ⟨i / 2, List.mem_range.2 (by omega),
          by rw [show 2 * (i / 2) = i by omega]⟩
      obtain ⟨b1, b2, b3⟩ := bam_match_ok E f want_recno x.h i x.lock x.lock_mode x.recno x.st
        hg xs (fun hd => by rw [hland]; exact xlive hd _ hmem i4)
      rw [hland] at b3
      constructor
      · intro r hr
        simp only [search_page, hleaf, if_true, search_leaf, i1] at hr
        injection hr with hr
        subst hr
        exact ⟨b1, b2, x.h, i, x.lock, x.lock_mode, b3, hleaf, xT, i2, i3, i4⟩
      · intro x1 hx1
        exact absurd hleaf (search_page_inr E f stop want_recno x x1 hx1).1
    · have hm : m ≠ 0 := fun h0 => hleaf ((wf_tree_height T m _ x.h xT xw).2 h0)
      obtain ⟨m', rfl⟩ := Nat.exists_eq_succ_of_ne_zero hm
      obtain ⟨_, _, hpos, hn, hch⟩ := wf_tree_node T m' _ x.h xT xw
      have xone' : matches_in E.bam_cmp T (m' + 1) x.h.pgno = 1 := xone
      obtain ⟨i, hi, hmi⟩ := matches_node_exists E.bam_cmp T m' x.h.pgno x.h xT (by omega)
      rw [key_ordered, on_page_iff] at xo
      obtain ⟨hx', hxT', xo⟩ := xo
      rw [xT] at hxT'
      injection hxT' with hxT'
      subst hxT'
      obtain ⟨hpat, hoc⟩ := xo i hi
      obtain ⟨q1, q2, q3⟩ := hpat hmi
      have hpick : pick_indx E x.h = i := pick_indx_eq E x.h i hleaf hn hi q1 q2 q3
      obtain ⟨h1, hT1, hpg1⟩ := wf_tree_page T m' _ (hch i hi)
      have hprog := search_page_progress E f stop want_recno x h1 hleaf hg hpar xs
        (by rw [hpick]; exact hsv _ _ h1 hT1)
      constructor
      · intro r hr
        obtain ⟨x1, hx1⟩ := hprog
        rw [hx1] at hr
        cases hr
      · intro x1 hx1
        obtain ⟨_, ⟨nf1, hf1⟩, _, hstk⟩ := search_page_inr E f stop want_recno x x1 hx1
        rw [hpick] at hf1
        have hx1h : x1.h = h1 := by
          have := hsv nf1 _ h1 hT1
          rw [this] at hf1
          injection hf1 with _ hf1
          exact hf1.symm
        have hx1pg : x1.h.pgno = child x.h i := by rw [hx1h]; exact hpg1
        have hle := matches_child_le E.bam_cmp T m' x.h.pgno x.h xT i hi
        refine ⟨m', rfl, ?_, ?_, ?_, ?_, ?_, hstk xs⟩
        · rw [hx1pg]; exact hch i hi
        · rw [hx1pg, hx1h]; exact hT1
        · rw [hx1pg]; exact hoc
        · rw [hx1pg]; omega
        · intro hd e he
          rw [hx1pg] at he
          exact xlive hd e (leaf_entries_child_mem T m' _ x.h xT i hi e he)
  · refine ⟨?_, ?_, ?_, ?_, ?_, ?_⟩
    · rw [hx0h, hpg0]; exact hw
    · rw [hx0h, hpg0]; exact hT0
    · rw [hx0h, hpg0]; exact hko
    · rw [hx0h, hpg0]; exact hone
    · rw [hx0h, hpg0]; exact hlive
    · simp only [stack_ok, k1, k2]; omega

theorem bam_search_exact_found_witness :
    wf_tree (store sample_tree) 1 (sample_env 7 1 false sample_tree).bt_root ∧
    key_ordered (sample_env 7 1 false sample_tree).bam_cmp (store sample_tree) 1
      (sample_env 7 1 false sample_tree).bt_root ∧
    matches_in (sample_env 7 1 false sample_tree).bam_cmp (store sample_tree) 1
      (sample_env 7 1 false sample_tree).bt_root = 1 ∧
    serves (sample_env 7 1 false sample_tree) (store sample_tree) ∧
    grants (sample_env 7 1 false sample_tree) ∧
    sample_flags.S_EXACT = true ∧ sample_flags.S_PARENT = false ∧
    (sample_flags.S_DELNO = true →
      ∀ e ∈ leaf_entries (store sample_tree) 1 (sample_env 7 1 false sample_tree).bt_root,
        (sample_env 7 1 false sample_tree).bam_cmp e.1 e.2 = 0 → deleted e.1 e.2 = false) ∧
    0 < sample_state.stk.length ∧ 1 < 2 ∧
    ∃ r, __bam_search (sample_env 7 1 false sample_tree) sample_flags 0 false 2 sample_state =
        some r ∧ r.ret = 0 ∧ r.exactp = some 1 ∧
      ∃ h indx lock mode, terminal r.st = some ⟨some h, indx, lock, mode⟩ ∧
        h.type = PageType.P_LBTREE ∧ store sample_tree h.pgno = some h ∧
        indx % 2 = 0 ∧ indx + 1 < NUM_ENT h ∧
        (sample_env 7 1 false sample_tree).bam_cmp h indx = 0 :=
  ⟨by decide, by decide, by decide, sample_env_serves 7 1 false sample_tree,
    sample_env_grants 7 1 false sample_tree, rfl, rfl, fun h => absurd h (by decide),
    by decide, by decide,
    bam_search_exact_found (sample_env 7 1 false sample_tree) sample_flags 0 false 2
      sample_state (store sample_tree) 1 (by decide) (by decide) (by decide)
      (sample_env_serves 7 1 false sample_tree) (sample_env_grants 7 1 false sample_tree)
      rfl rfl (fun h => absurd h (by decide)) (by decide) (by decide)⟩

/-- C1 as stated fails in two ways.  First: the tree is a single root leaf
whose only entry, key 1, is marked deleted; the tree is well formed and in key
order and key 1 occurs exactly once; searched with `S_EXACT` and `S_DELNO`, the
search returns `DB_NOTFOUND`, not 0.  Second: on the two-level tree, where key
7 occurs exactly once, a search with `S_EXACT` and `S_PARENT` and stop level 2
returns 0 without storing anything through `exactp`, and its terminal entry is
the root, an internal page. -/
theorem bam_search_exact_not_always_found :
    (wf_tree (store [sample_leaf_of 1 [1] [1]]) 0 1 ∧
      key_ordered (sample_cmp 1) (store [sample_leaf_of 1 [1] [1]]) 0 1 ∧
      matches_in (sample_cmp 1) (store [sample_leaf_of 1 [1] [1]]) 0 1 = 1 ∧
      ∃ r, __bam_search (sample_env 1 1 false [sample_leaf_of 1 [1] [1]])
          ⟨false, true, false, true, false, false⟩ 0 false 1 sample_state = some r ∧
        r.ret = DB_NOTFOUND ∧ r.ret ≠ 0) ∧
    (wf_tree (store sample_tree) 1 1 ∧
      key_ordered (sample_cmp 7) (store sample_tree) 1 1 ∧
      matches_in (sample_cmp 7) (store sample_tree) 1 1 = 1 ∧
      ∃ r, __bam_search (sample_env 7 1 false sample_tree)
          ⟨false, false, false, true, true, false⟩ 2 false 2 sample_state = some r ∧
        r.ret = 0 ∧ r.exactp = none ∧
        (terminal r.st).map (fun e => e.page.map (fun p => p.type)) =
          some (some PageType.P_IBTREE)) := by
  refine ⟨⟨by decide, by decide, by decide, _, rfl, by decide, by decide⟩,
    ⟨by decide, by decide, by decide, _, rfl, by decide, by decide, by decide⟩⟩

/-! ### C2 -/

/-- C2, as amended.  On a well-formed tree (shape and levels) on which no leaf
entry compares equal to the key, with a cache that serves the tree and a lock
manager that does not fail, `__bam_search` with `S_EXACT` set, `S_PARENT` clear
and the full stack not forced at the root (not both a record-number tree and
`S_STACK`) returns `DB_NOTFOUND` with `*exactp = 0`.  On return the stack is
cleared; the pages fetched are, in order, the pages released, so every pin
taken has been released once; and of the locks granted, exactly one was not
released by `__LPUT` or by coupling: the lock of the leaf searched, which is
the one lock handed to `__TLPUT`. -/
theorem bam_search_absent_notfound (E : Env) (f : Flags) (stop : Int) (want_recno : Bool)
    (fuel : Nat) (s0 : State) (T : Nat → Option PAGE) (n : Nat)
    (hw : wf_tree T n E.bt_root) (hlv : wf_levels E.LEAFLEVEL T n E.bt_root)
    (hzero : matches_in E.bam_cmp T n E.bt_root = 0)
    (hsv : serves E T) (hg : grants E)
    (hex : f.S_EXACT = true) (hpar : f.S_PARENT = false)
    (hstk : (E.DB_BT_RECNUM && f.S_STACK) = false)
    (hfuel : n < fuel) :
    ∃ r evs leaf l, __bam_search E f stop want_recno fuel s0 = some r ∧
      r.ret = DB_NOTFOUND ∧ r.exactp = some 0 ∧ r.st.csp = 0 ∧
      r.st.trace = s0.trace ++ evs ∧ fgets evs = fputs evs ∧
      tlputs evs = [l] ∧ still_held evs = [l] ∧
      leaf.type = PageType.P_LBTREE ∧ T leaf.pgno = some leaf ∧
      (∃ c o md, Event.lget c o leaf.pgno md (some l) ∈ evs) := by
  obtain ⟨h0, hT0, hpg0⟩ := wf_tree_page T n E.bt_root hw
  obtain ⟨x0, evs0, hroot, r1, r2, r3, r4, r5, r6, r7, r8⟩ :=
    search_root_trace E f stop s0 h0 hg (fun k => hsv k _ h0 hT0) hpg0 hpar hstk
  unfold __bam_search
  rw [hroot]
  simp only []
  have key := search_loop_total E f stop want_recno
    (fun m x => wf_tree T m x.h.pgno ∧ wf_levels E.LEAFLEVEL T m x.h.pgno ∧
      T x.h.pgno = some x.h ∧ matches_in E.bam_cmp T m x.h.pgno = 0 ∧ x.st.csp = 0 ∧
      (x.stack = true → m = 0) ∧
      ∃ evs, x.st.trace = s0.trace ++ evs ∧ fgets evs = fputs evs ++ [x.h.pgno] ∧
        tlputs evs = [] ∧ still_held evs = [x.lock] ∧
        (∃ c o md, Event.lget c o x.h.pgno md (some x.lock) ∈ evs))
    (fun r => ∃ evs leaf l, r.ret = DB_NOTFOUND ∧ r.exactp = some 0 ∧ r.st.csp = 0 ∧
      r.st.trace = s0.trace ++ evs ∧ fgets evs = fputs evs ∧
      tlputs evs = [l] ∧ still_held evs = [l] ∧
      leaf.type = PageType.P_LBTREE ∧ T leaf.pgno = some leaf ∧
      (∃ c o md, Event.lget c o leaf.pgno md (some l) ∈ evs))
    ?_ fuel n x0 ?_ hfuel
  · obtain ⟨r, hr, evs, leaf, l, hp⟩ := key
    exact ⟨r, evs, leaf, l, hr, hp⟩
  · rintro m x ⟨xw, xl, xT, xz, xcsp, xstack, evs, t1, t2, t3, t4, t5⟩
    by_cases hleaf : x.h.type = PageType.P_LBTREE
    · have hm : m = 0 := (wf_tree_height T m _ x.h xT xw).1 hleaf
      subst hm
      obtain ⟨_, _, hn, _⟩ := wf_tree_leaf T _ x.h xT xw
      constructor
      · intro r hr
        simp only [search_page, hleaf, if_true, search_leaf] at hr
        cases hp : page_search E x.h with
        | found i =>
          exfalso
          obtain ⟨p1, p2, p3⟩ := leaf_page_search_found E x.h i hleaf hn hp
          have := matches_leaf_of E.bam_cmp T x.h.pgno x.h xT (i / 2) (by omega)
            (by rw [show 2 * (i / 2) = i by omega]; exact p3)
          omega
        | miss b =>
          rw [hp] at hr
          simp only [hex, if_true] at hr
          injection hr with hr
          subst hr
          refine ⟨evs ++ [Event.fput x.h.pgno, Event.tlput x.lock], x.h, x.lock, rfl, rfl, ?_, ?_,
            ?_, ?_, ?_, hleaf, xT, ?_⟩
          · simp [notfound_exit, err_exit, __TLPUT, memp_fput, xcsp]
          · simp [notfound_exit, err_exit, __TLPUT, memp_fput, xcsp, t1]
          · rw [fgets_append, fputs_append, t2]; simp [fgets, fputs]
          · rw [tlputs_append, t3]; simp [tlputs]
          · rw [still_held_append, t4]; simp [hold_step]
          · obtain ⟨c, o, md, hmem⟩ := t5
            exact ⟨c, o, md, List.mem_append_left _ hmem⟩
      · intro x1 hx1
        exact absurd hleaf (search_page_inr E f stop want_recno x x1 hx1).1
    · have hm : m ≠ 0 := fun h0 => hleaf ((wf_tree_height T m _ x.h xT xw).2 h0)
      obtain ⟨m', rfl⟩ := Nat.exists_eq_succ_of_ne_zero hm
      obtain ⟨_, _, hpos, hn, hch⟩ := wf_tree_node T m' _ x.h xT xw
      obtain ⟨lv1, lv2, lv3⟩ := wf_levels_node E.LEAFLEVEL T m' _ x.h xT xl
      have hidx := pick_indx_lt E x.h hleaf hpos hn
      obtain ⟨h1, hT1, hpg1⟩ := wf_tree_page T m' _ (hch _ hidx)
      have hnostack : x.stack = false := by
        cases hs : x.stack with
        | false => rfl
        | true => have := xstack hs; omega
      have hstep0 : search_page E f stop want_recno x =
          next_coupled E f stop x
            (if want_recno = true then sum_nrecs x.h (pick_indx E x.h) x.recno else x.recno)
            (GET_ITEM x.h (pick_indx E x.h)).pgno := by
        unfold search_page
        rw [if_neg hleaf]
        simp only [hnostack, Bool.false_eq_true, if_false]
      have hstep := hstep0.trans (next_coupled_ok E f stop x
        (if want_recno = true then sum_nrecs x.h (pick_indx E x.h) x.recno else x.recno)
        (GET_ITEM x.h (pick_indx E x.h)).pgno h1 hg (hsv _ _ h1 hT1))
      constructor
      · intro r hr
        rw [hstep] at hr
        cases hr
      · intro x1 hx1
        rw [hstep] at hx1
        injection hx1 with hx1
        subst hx1
        have hzc : matches_in E.bam_cmp T m' (child x.h (pick_indx E x.h)) = 0 := by
          have hle := matches_child_le E.bam_cmp T m' x.h.pgno x.h xT _ hidx
          have xz' : matches_in E.bam_cmp T (m' + 1) x.h.pgno = 0 := xz
          omega
        refine ⟨m', rfl, ?_, ?_, ?_, ?_, xcsp, ?_, ?_⟩
        · simp only [hpg1]; exact hch _ hidx
        · simp only [hpg1]; exact lv3 _ hidx
        · simp only [hpg1]; exact hT1
        · simp only [hpg1]; exact hzc
        · intro hk
          simp only [keep_next, hpar, Bool.false_eq_true, false_and, false_or,
            decide_eq_true_eq] at hk
          omega
        · refine ⟨evs ++ [Event.fput x.h.pgno] ++
            [Event.lget true x.lock (GET_ITEM x.h (pick_indx E x.h)).pgno
              (next_mode f (keep_next E f stop x.h)) (some (x.st.nlget + 1))] ++
            [Event.fget (GET_ITEM x.h (pick_indx E x.h)).pgno true], ?_, ?_, ?_, ?_, ?_⟩
          · simp only [t1, List.append_assoc]
          · simp only [fgets_append, fputs_append, t2]
            simp [fgets, fputs, hpg1, child]
          · simp only [tlputs_append, t3]
            simp [tlputs]
          · simp only [still_held_append, t4]
            simp [hold_step]
          · exact ⟨true, x.lock, next_mode f (keep_next E f stop x.h), by
              simp [hpg1, child]⟩
  · refine ⟨?_, ?_, ?_, ?_, r2, ?_, evs0, r3, ?_, r5, r6, ?_⟩
    · rw [r1, hpg0]; exact hw
    · rw [r1, hpg0]; exact hlv
    · rw [r1, hpg0]; exact hT0
    · rw [r1, hpg0]; exact hzero
    · intro hs
      have h1 := r8 hs
      have h2 := wf_levels_height E.LEAFLEVEL T n E.bt_root h0 hT0 hlv
      omega
    · rw [r1]; exact r4
    · rw [r1]; exact r7

theorem bam_search_absent_notfound_witness :
    wf_tree (store sample_tree) 1 (sample_env 6 1 false sample_tree).bt_root ∧
    wf_levels (sample_env 6 1 false sample_tree).LEAFLEVEL (store sample_tree) 1
      (sample_env 6 1 false sample_tree).bt_root ∧
    matches_in (sample_env 6 1 false sample_tree).bam_cmp (store sample_tree) 1
      (sample_env 6 1 false sample_tree).bt_root = 0 ∧
    serves (sample_env 6 1 false sample_tree) (store sample_tree) ∧
    grants (sample_env 6 1 false sample_tree) ∧
    sample_flags.S_EXACT = true ∧ sample_flags.S_PARENT = false ∧
    ((sample_env 6 1 false sample_tree).DB_BT_RECNUM && sample_flags.S_STACK) = false ∧
    1 < 2 ∧
    ∃ r evs leaf l,
      __bam_search (sample_env 6 1 false sample_tree) sample_flags 0 false 2 sample_state =
        some r ∧
      r.ret = DB_NOTFOUND ∧ r.exactp = some 0 ∧ r.st.csp = 0 ∧
      r.st.trace = sample_state.trace ++ evs ∧ fgets evs = fputs evs ∧
      tlputs evs = [l] ∧ still_held evs = [l] ∧
      leaf.type = PageType.P_LBTREE ∧ store sample_tree leaf.pgno = some leaf ∧
      (∃ c o md, Event.lget c o leaf.pgno md (some l) ∈ evs) :=
  ⟨by decide, by decide, by decide, sample_env_serves 6 1 false sample_tree,
    sample_env_grants 6 1 false sample_tree, rfl, rfl, rfl, by decide,
    bam_search_absent_notfound (sample_env 6 1 false sample_tree) sample_flags 0 false 2
      sample_state (store sample_tree) 1 (by decide) (by decide) (by decide)
      (sample_env_serves 6 1 false sample_tree) (sample_env_grants 6 1 false sample_tree)
      rfl rfl rfl (by decide)⟩

/-- C2 as stated fails when the full stack is forced.  On the two-level tree,
taken as a record-number tree, key 6 compares equal to no leaf entry; searched
with `S_EXACT` and `S_STACK`, the search returns `DB_NOTFOUND` with every pin
released and the stack cleared, but two locks are handed to `__TLPUT` and
remain unreleased: the lock of the leaf searched (2) and the lock of the
stacked root (1). -/
theorem bam_search_absent_stacked_locks :
    wf_tree (store sample_tree) 1 1 ∧ wf_levels 1 (store sample_tree) 1 1 ∧
    matches_in (sample_cmp 6) (store sample_tree) 1 1 = 0 ∧
    ∃ r, __bam_search (sample_env 6 1 true sample_tree)
        ⟨false, false, false, true, false, true⟩ 0 false 2 sample_state = some r ∧
      r.ret = DB_NOTFOUND ∧ r.exactp = some 0 ∧ r.st.csp = 0 ∧
      (fgets r.st.trace).Perm (fputs r.st.trace) ∧
      tlputs r.st.trace = [2, 1] ∧ still_held r.st.trace = [1, 2] := by
  refine ⟨by decide, by decide, by decide, _, rfl, by decide, by decide, by decide, by decide,
    by decide, by decide⟩

/-! ### C3 -/

/-- C3.  On a leaf page, when the binary search finds an exact match at `i` and
`i` lies in the duplicate run `lo .. hi`, a search without `S_DELNO` returns 0
with `*exactp = 1` and terminal entry the page at index `hi` when `S_DUPLAST`
is set and at index `lo` otherwise, whichever member `i` of the run was hit.
(The allocator is assumed not to fail should the stack have to grow.) -/
theorem search_page_dup_landing (E : Env) (f : Flags) (stop : Int) (want_recno : Bool)
    (x : Loop) (i lo hi : Nat)
    (hleaf : x.h.type = PageType.P_LBTREE) (hn : NUM_ENT x.h < 65536)
    (hhit : page_search E x.h = BSearch.found i)
    (hrun : is_dup_run x.h lo hi) (h1 : lo ≤ i) (h2 : i ≤ hi)
    (hdel : f.S_DELNO = false)
    (hcal : ∀ k, E.calloc_ret k = 0) (hs : stack_ok x.st) :
    ∃ r, search_page E f stop want_recno x = Sum.inl r ∧ r.ret = 0 ∧ r.exactp = some 1 ∧
      terminal r.st = some ⟨some x.h, if f.S_DUPLAST then hi else lo, x.lock, x.lock_mode⟩ := by
  obtain ⟨hpar, _, _⟩ := leaf_page_search_found E x.h i hleaf hn hhit
  have hend : hi + 1 < NUM_ENT x.h := hrun.2.2.2.1
  refine ⟨bam_match E f want_recno x.h i x.lock x.lock_mode x.recno x.st, ?_, ?_⟩
  · simp only [search_page, search_leaf, hleaf, if_true, hhit]
  · have hwalk : dup_walk f x.h i = if f.S_DUPLAST then hi else lo := by
      unfold dup_walk
      by_cases hd : f.S_DUPLAST = true
      · simp only [hd, if_true]
        exact dup_last_run x.h lo hi hn hrun _ i h1 h2 hpar (by omega)
      · simp only [hd, if_false]
        exact dup_first_run x.h lo hi hn hrun _ i h1 h2 hpar (by omega)
    obtain ⟨e1, e2, _⟩ :=
      BT_STK_ENTER_ok E x.h (dup_walk f x.h i) x.lock x.lock_mode x.st hcal hs
    simp only [bam_match, hdel, Bool.false_eq_true, if_false]
    rw [hwalk] at e1 e2
    rw [hwalk]
    exact ⟨e1, trivial, e2⟩

theorem search_page_dup_landing_witness :
    (sample_loop sample_leaf).h.type = PageType.P_LBTREE ∧
    NUM_ENT (sample_loop sample_leaf).h < 65536 ∧
    page_search (sample_env 2 1 false [sample_leaf]) (sample_loop sample_leaf).h =
      BSearch.found 4 ∧
    is_dup_run (sample_loop sample_leaf).h 2 4 ∧ 2 ≤ 4 ∧ 4 ≤ 4 ∧
    sample_flags.S_DELNO = false ∧
    stack_ok (sample_loop sample_leaf).st ∧
    (∃ r, search_page (sample_env 2 1 false [sample_leaf]) sample_flags 0 false
        (sample_loop sample_leaf) = Sum.inl r ∧ r.ret = 0 ∧ r.exactp = some 1 ∧
      terminal r.st = some ⟨some (sample_loop sample_leaf).h,
        if sample_flags.S_DUPLAST then 4 else 2,
        (sample_loop sample_leaf).lock, (sample_loop sample_leaf).lock_mode⟩) ∧
    (__bam_search (sample_env 2 1 false [sample_leaf]) sample_flags 0 false 1 sample_state).map
        (fun r => (r.ret, r.exactp, (terminal r.st).map (fun e => e.indx))) =
      some (0, some 1, some 2) ∧
    (__bam_search (sample_env 2 1 false [sample_leaf]) { sample_flags with S_DUPLAST := true }
        0 false 1 sample_state).map
        (fun r => (r.ret, r.exactp, (terminal r.st).map (fun e => e.indx))) =
      some (0, some 1, some 4) :=
  ⟨rfl, by decide, by decide, by decide, by decide, by decide, rfl, by decide,
    search_page_dup_landing (sample_env 2 1 false [sample_leaf]) sample_flags 0 false
      (sample_loop sample_leaf) 4 2 4 rfl (by decide) (by decide) (by decide) (by decide)
      (by decide) rfl (fun _ => rfl) (by decide),
    by decide, by decide⟩

/-! ### C4 -/

/-- C4, as amended.  On a tree whose subtree record counts are correct (and
whose entries number fewer than 2^32), when a search with a record-number
output finds an exact match, the record number stored is the 1-based in-order
ordinal of the leaf entry at which the binary search matched: the `k`-th leaf
entry is the page reached together with the matched index `i`.  The index
returned on success is the one the walks over the duplicate run lead to from
`i`; it is `i` itself when the run of `i` has no other member. -/
theorem bam_search_recno_ordinal (E : Env) (f : Flags) (stop : Int) (fuel : Nat) (s0 : State)
    (r : Result) (T : Nat → Option PAGE) (n : Nat)
    (hw : wf_tree T n E.bt_root) (hc : nrecs_ok T n E.bt_root) (hsv : serves E T)
    (htot : (leaf_entries T n E.bt_root).length < 4294967296)
    (hs : 0 < s0.stk.length)
    (hr : __bam_search E f stop true fuel s0 = some r)
    (hex : r.exactp = some 1) :
    ∃ h i k, r.recnop = some k ∧ 1 ≤ k ∧
      (leaf_entries T n E.bt_root)[k - 1]? = some (h, i) ∧
      page_search E h = BSearch.found i ∧ E.bam_cmp h i = 0 ∧
      (r.ret = 0 → ∃ lock mode, terminal r.st = some ⟨some h, landing f h i, lock, mode⟩) ∧
      (is_dup_run h i i → landing f h i = i) := by
  unfold __bam_search at hr
  cases hroot : search_root E f stop s0 with
  | inl r0 =>
    rw [hroot] at hr
    injection hr with hr
    subst hr
    have := (search_root_inl E f stop s0 _ hroot).2.1
    rw [this] at hex
    cases hex
  | inr x0 =>
    rw [hroot] at hr
    simp only [] at hr
    obtain ⟨k1, k2, k3, nf, k4⟩ := search_root_inr E f stop s0 x0 hroot
    obtain ⟨h0, hT0, hpg0⟩ := wf_tree_page T n E.bt_root hw
    have hx0h : x0.h = h0 := by
      have := hsv nf E.bt_root h0 hT0
      rw [this] at k4
      injection k4 with _ k4
      exact k4.symm
    refine search_loop_inv E f stop true
      (fun x => ∃ m pre post, wf_tree T m x.h.pgno ∧ T x.h.pgno = some x.h ∧
        nrecs_ok T m x.h.pgno ∧
        leaf_entries T n E.bt_root = pre ++ leaf_entries T m x.h.pgno ++ post ∧
        x.recno = pre.length ∧ stack_ok x.st)
      (fun r => r.exactp = some 1 → ∃ h i k, r.recnop = some k ∧ 1 ≤ k ∧
        (leaf_entries T n E.bt_root)[k - 1]? = some (h, i) ∧
        page_search E h = BSearch.found i ∧ E.bam_cmp h i = 0 ∧
        (r.ret = 0 → ∃ lock mode, terminal r.st = some ⟨some h, landing f h i, lock, mode⟩) ∧
        (is_dup_run h i i → landing f h i = i))
      ?_ fuel x0 r ?_ hr hex
    · -- one iteration
      rintro x ⟨m, pre, post, xw, xT, xc, xe, xr, xs⟩
      constructor
      · intro r1 hr1 hex1
        by_cases hleaf : x.h.type = PageType.P_LBTREE
        · have hm : m = 0 := (wf_tree_height T m _ x.h xT xw).1 hleaf
          subst hm
          obtain ⟨_, _, hn, _⟩ := wf_tree_leaf T _ x.h xT xw
          rw [leaf_entries_leaf T _ x.h xT] at xe
          have hlen : pre.length + NUM_ENT x.h / 2 ≤ (leaf_entries T n E.bt_root).length := by
            rw [xe]; simp only [List.length_append, List.length_map, List.length_range]; omega
          simp only [search_page, hleaf, if_true] at hr1
          injection hr1 with hr1
          subst hr1
          obtain ⟨i, i1, i2, i3, i4, i5, i6⟩ :=
            search_leaf_recno E f x hleaf hn xs (by omega) hex1
          refine ⟨x.h, i, x.recno + i / 2 + 1, i5, by omega, ?_, i1, i4,
            fun h0 => ⟨_, _, i6 h0⟩, landing_single f x.h i hn⟩
          rw [xe, xr]
          have hidx : pre.length + i / 2 + 1 - 1 = pre.length + i / 2 := by omega
          rw [hidx, getElem?_mid _ _ _ _ (by simp only [List.length_map, List.length_range]; omega)]
          rw [List.getElem?_map, List.getElem?_range (by omega)]
          simp only [Option.map_some']
          have : 2 * (i / 2) = i := by omega
          rw [this]
        · have := (search_page_internal_inl E f stop true x r1 hleaf hr1).1
          rw [this] at hex1
          cases hex1
      · intro x1 hx1
        obtain ⟨hleaf, ⟨nf1, hf1⟩, hrec, hstk⟩ := search_page_inr E f stop true x x1 hx1
        have hm : m ≠ 0 := fun h0 => hleaf ((wf_tree_height T m _ x.h xT xw).2 h0)
        obtain ⟨m', rfl⟩ := Nat.exists_eq_succ_of_ne_zero hm
        obtain ⟨_, _, hpos, hn, hch⟩ := wf_tree_node T m' _ x.h xT xw
        have hidx := pick_indx_lt E x.h hleaf hpos hn
        have hcw := hch _ hidx
        obtain ⟨h1, hT1, hpg1⟩ := wf_tree_page T m' _ hcw
        have hx1h : x1.h = h1 := by
          have := hsv nf1 _ h1 hT1
          rw [this] at hf1
          injection hf1 with _ hf1
          exact hf1.symm
        have hx1pg : x1.h.pgno = child x.h (pick_indx E x.h) := by rw [hx1h]; exact hpg1
        rw [nrecs_ok, on_page_iff] at xc
        obtain ⟨hx', hxT', xc⟩ := xc
        rw [xT] at hxT'
        injection hxT' with hxT'
        subst hxT'
        rw [leaf_entries_node T m' _ x.h xT] at xe
        obtain ⟨rest, hsplit⟩ := flatMap_range_split
          (fun i => leaf_entries T m' (child x.h i)) (NUM_ENT x.h) (pick_indx E x.h) hidx
        rw [hsplit] at xe
        refine ⟨m', pre ++ (List.range (pick_indx E x.h)).flatMap
            (fun i => leaf_entries T m' (child x.h i)), rest ++ post, ?_, ?_, ?_, ?_, ?_, hstk xs⟩
        · rw [hx1pg]; exact hcw
        · rw [hx1pg, hx1h]; exact hT1
        · rw [hx1pg]; exact (xc _ hidx).2
        · rw [xe, hx1pg]; simp only [List.append_assoc]
        · rw [hrec, List.length_append, ← xr]
          simp only [if_true]
          apply sum_nrecs_eq
          · intro i hi; exact (xc i (by omega)).1
          · have : (leaf_entries T n E.bt_root).length =
                pre.length + (((List.range (pick_indx E x.h)).flatMap
                  (fun i => leaf_entries T m' (child x.h i))).length +
                  (leaf_entries T m' (child x.h (pick_indx E x.h))).length + rest.length) +
                  post.length := by
              rw [xe]; simp only [List.length_append]
            omega
    · -- the root
      refine ⟨n, [], [], ?_, ?_, ?_, ?_, ?_, ?_⟩
      · rw [hx0h, hpg0]; exact hw
      · rw [hx0h, hpg0]; exact hT0
      · rw [hx0h, hpg0]; exact hc
      · rw [hx0h, hpg0]; simp
      · rw [k3]; rfl
      · simp only [stack_ok, k1, k2]; omega

theorem bam_search_recno_ordinal_witness :
    wf_tree (store sample_tree) 1 (sample_env 7 1 true sample_tree).bt_root ∧
    nrecs_ok (store sample_tree) 1 (sample_env 7 1 true sample_tree).bt_root ∧
    serves (sample_env 7 1 true sample_tree) (store sample_tree) ∧
    (leaf_entries (store sample_tree) 1 (sample_env 7 1 true sample_tree).bt_root).length <
      4294967296 ∧
    0 < sample_state.stk.length ∧
    __bam_search (sample_env 7 1 true sample_tree) sample_flags 0 true 2 sample_state =
      some ((__bam_search (sample_env 7 1 true sample_tree) sample_flags 0 true 2
        sample_state).getD ⟨1, none, none, sample_state⟩) ∧
    ((__bam_search (sample_env 7 1 true sample_tree) sample_flags 0 true 2
        sample_state).getD ⟨1, none, none, sample_state⟩).exactp = some 1 ∧
    (∃ h i k,
      ((__bam_search (sample_env 7 1 true sample_tree) sample_flags 0 true 2
        sample_state).getD ⟨1, none, none, sample_state⟩).recnop = some k ∧ 1 ≤ k ∧
      (leaf_entries (store sample_tree) 1 (sample_env 7 1 true sample_tree).bt_root)[k - 1]? =
        some (h, i) ∧
      page_search (sample_env 7 1 true sample_tree) h = BSearch.found i ∧
      (sample_env 7 1 true sample_tree).bam_cmp h i = 0 ∧
      (((__bam_search (sample_env 7 1 true sample_tree) sample_flags 0 true 2
          sample_state).getD ⟨1, none, none, sample_state⟩).ret = 0 →
        ∃ lock mode,
          terminal ((__bam_search (sample_env 7 1 true sample_tree) sample_flags 0 true 2
            sample_state).getD ⟨1, none, none, sample_state⟩).st =
            some ⟨some h, landing sample_flags h i, lock, mode⟩) ∧
      (is_dup_run h i i → landing sample_flags h i = i)) ∧
    ((__bam_search (sample_env 7 1 true sample_tree) sample_flags 0 true 2
        sample_state).getD ⟨1, none, none, sample_state⟩).recnop = some 5 :=
  ⟨by decide, by decide, sample_env_serves 7 1 true sample_tree, by decide, by decide, rfl,
    by decide,
    bam_search_recno_ordinal (sample_env 7 1 true sample_tree) sample_flags 0 2 sample_state _
      (store sample_tree) 1 (by decide) (by decide) (sample_env_serves 7 1 true sample_tree)
      (by decide) (by decide) rfl (by decide),
    by decide⟩

/-- C4 as stated fails on a page with duplicates.  The tree is the single root
leaf with the keys 1, 2, 2, 3 and the key searched is 2, with a record-number
output and the default direction.  The binary search matches the second entry
for key 2 (index 4) and the record number stored is 3; the walk to the first
duplicate then returns index 2, whose ordinal `0 + 2 / 2 + 1` is 2. -/
theorem bam_search_recno_before_walk :
    ∃ r, __bam_search (sample_env 2 1 false [sample_leaf]) sample_flags 0 true 1 sample_state =
        some r ∧
      r.ret = 0 ∧ r.exactp = some 1 ∧ r.recnop = some 3 ∧
      terminal r.st = some ⟨some sample_leaf, 2, 1, db_lockmode_t.DB_LOCK_READ⟩ ∧
      r.recnop ≠ some (0 + 2 / 2 + 1) := by
  refine ⟨_, rfl, ?_, ?_, ?_, ?_, ?_⟩ <;> decide

/-! ### C5 -/

/-- C5, as amended.  When `S_DELNO` is set and `__bam_search` returns 0 with
`*exactp = 1` (an exact match), the terminal entry of the stack is a leaf page
and an index whose entry is not marked deleted.  The cursor's stack is assumed
to have at least one slot. -/
theorem bam_search_delno_exact_live (E : Env) (f : Flags) (stop : Int) (want_recno : Bool)
    (fuel : Nat) (s0 : State) (r : Result)
    (hdel : f.S_DELNO = true) (hs : 0 < s0.stk.length)
    (hr : __bam_search E f stop want_recno fuel s0 = some r)
    (hret : r.ret = 0) (hex : r.exactp = some 1) :
    ∃ h indx lock mode, terminal r.st = some ⟨some h, indx, lock, mode⟩ ∧
      h.type = PageType.P_LBTREE ∧ deleted h indx = false := by
  unfold __bam_search at hr
  cases hroot : search_root E f stop s0 with
  | inl r0 =>
    rw [hroot] at hr
    injection hr with hr
    subst hr
    have := (search_root_inl E f stop s0 _ hroot).2.1
    rw [this] at hex
    cases hex
  | inr x0 =>
    rw [hroot] at hr
    simp only [] at hr
    obtain ⟨k1, k2, _, _⟩ := search_root_inr E f stop s0 x0 hroot
    have hx0 : stack_ok x0.st := by
      simp only [stack_ok, k1, k2]; omega
    refine search_loop_inv E f stop want_recno (fun x => stack_ok x.st)
      (fun r => r.ret = 0 → r.exactp = some 1 →
        ∃ h indx lock mode, terminal r.st = some ⟨some h, indx, lock, mode⟩ ∧
          h.type = PageType.P_LBTREE ∧ deleted h indx = false)
      ?_ fuel x0 r hx0 hr hret hex
    intro x hx
    refine ⟨fun r1 hr1 h1 h2 => ?_, fun x1 hx1 => (search_page_inr E f stop want_recno x x1 hx1).2.2.2 hx⟩
    by_cases hleaf : x.h.type = PageType.P_LBTREE
    · simp only [search_page, hleaf, if_true] at hr1
      injection hr1 with hr1
      subst hr1
      obtain ⟨indx, t1, t2⟩ := search_leaf_delno E f want_recno x hdel hx h1 h2
      exact ⟨x.h, indx, x.lock, x.lock_mode, t1, hleaf, t2⟩
    · have := (search_page_internal_inl E f stop want_recno x r1 hleaf hr1).1
      rw [this] at h2
      cases h2

theorem bam_search_delno_exact_live_witness :
    ({ sample_flags with S_DELNO := true } : Flags).S_DELNO = true ∧
    0 < sample_state.stk.length ∧
    __bam_search (sample_env 2 1 false [sample_leaf_del]) { sample_flags with S_DELNO := true }
        0 false 1 sample_state =
      some ((__bam_search (sample_env 2 1 false [sample_leaf_del])
        { sample_flags with S_DELNO := true } 0 false 1 sample_state).getD
          ⟨1, none, none, sample_state⟩) ∧
    ((__bam_search (sample_env 2 1 false [sample_leaf_del])
        { sample_flags with S_DELNO := true } 0 false 1 sample_state).getD
          ⟨1, none, none, sample_state⟩).ret = 0 ∧
    ((__bam_search (sample_env 2 1 false [sample_leaf_del])
        { sample_flags with S_DELNO := true } 0 false 1 sample_state).getD
          ⟨1, none, none, sample_state⟩).exactp = some 1 ∧
    ∃ h indx lock mode,
      terminal ((__bam_search (sample_env 2 1 false [sample_leaf_del])
        { sample_flags with S_DELNO := true } 0 false 1 sample_state).getD
          ⟨1, none, none, sample_state⟩).st = some ⟨some h, indx, lock, mode⟩ ∧
      h.type = PageType.P_LBTREE ∧ deleted h indx = false :=
  ⟨rfl, by decide, rfl, by decide, by decide,
    bam_search_delno_exact_live (sample_env 2 1 false [sample_leaf_del])
      { sample_flags with S_DELNO := true } 0 false 1 sample_state _ rfl (by decide) rfl
      (by decide) (by decide)⟩

/-- C5 as stated fails for an inexact result.  The tree is a single root leaf
whose only entry, key 1, is marked deleted; the key searched is 0 and the flags
are `S_DELNO` alone.  The search returns 0 with `*exactp = 0` and index 0, and
the entry at index 0 is marked deleted. -/
theorem bam_search_delno_inexact_deleted :
    ∃ r, __bam_search (sample_env 0 1 false [sample_leaf_of 1 [1] [1]])
        ⟨false, true, false, false, false, false⟩ 0 false 1 sample_state = some r ∧
      r.ret = 0 ∧ r.exactp = some 0 ∧
      terminal r.st = some ⟨some (sample_leaf_of 1 [1] [1]), 0, 1, db_lockmode_t.DB_LOCK_READ⟩ ∧
      deleted (sample_leaf_of 1 [1] [1]) 0 = true := by
  refine ⟨_, rfl, ?_, ?_, ?_, ?_⟩ <;> decide

/-! ### C6 -/

/-- C6.  On a leaf page, when the binary search finds an exact match at `i` in
the duplicate run `lo .. hi` and `S_DELNO` is set: the index the walks end on
stays in the run (so on the page); the search returns `DB_NOTFOUND` exactly
when every entry of the run is marked deleted; otherwise it returns 0 and the
terminal entry is a non-deleted entry of the run, the lowest-indexed one by
default and the highest-indexed one with `S_DUPLAST`.  (The allocator is
assumed not to fail should the stack have to grow.) -/
theorem search_page_delno (E : Env) (f : Flags) (stop : Int) (want_recno : Bool)
    (x : Loop) (i lo hi : Nat)
    (hleaf : x.h.type = PageType.P_LBTREE) (hn : NUM_ENT x.h < 65536)
    (hhit : page_search E x.h = BSearch.found i)
    (hrun : is_dup_run x.h lo hi) (h1 : lo ≤ i) (h2 : i ≤ hi)
    (hdel : f.S_DELNO = true)
    (hcal : ∀ k, E.calloc_ret k = 0) (hs : stack_ok x.st) :
    ∃ r j, search_page E f stop want_recno x = Sum.inl r ∧
      j = del_walk f x.h (dup_walk f x.h i) ∧
      (lo ≤ j ∧ j ≤ hi ∧ j % 2 = 0 ∧ j + 1 < NUM_ENT x.h) ∧
      (r.ret = DB_NOTFOUND ↔ ∀ k, lo ≤ k → k ≤ hi → k % 2 = 0 → deleted x.h k = true) ∧
      ((∃ k, lo ≤ k ∧ k ≤ hi ∧ k % 2 = 0 ∧ deleted x.h k = false) →
        r.ret = 0 ∧ terminal r.st = some ⟨some x.h, j, x.lock, x.lock_mode⟩ ∧
        deleted x.h j = false ∧
        (f.S_DUPLAST = false → ∀ k, lo ≤ k → k < j → k % 2 = 0 → deleted x.h k = true) ∧
        (f.S_DUPLAST = true → ∀ k, j < k → k ≤ hi → k % 2 = 0 → deleted x.h k = true)) := by
  obtain ⟨hpar, _, _⟩ := leaf_page_search_found E x.h i hleaf hn hhit
  have hrun' := hrun
  obtain ⟨hlo, hhi, hle, hend, _, _, _⟩ := hrun'
  refine ⟨bam_match E f want_recno x.h i x.lock x.lock_mode x.recno x.st,
    del_walk f x.h (dup_walk f x.h i), ?_, rfl, ?_⟩
  · simp only [search_page, search_leaf, hleaf, if_true, hhit]
  · -- the index after both walks, by direction
    have key : ∃ j, j = del_walk f x.h (dup_walk f x.h i) ∧ lo ≤ j ∧ j ≤ hi ∧ j % 2 = 0 ∧
        (deleted x.h j = true → ∀ k, lo ≤ k → k ≤ hi → k % 2 = 0 → deleted x.h k = true) ∧
        (f.S_DUPLAST = false → ∀ k, lo ≤ k → k < j → k % 2 = 0 → deleted x.h k = true) ∧
        (f.S_DUPLAST = true → ∀ k, j < k → k ≤ hi → k % 2 = 0 → deleted x.h k = true) := by
      refine ⟨_, rfl, ?_⟩
      by_cases hd : f.S_DUPLAST = true
      · have hw : dup_walk f x.h i = hi := by
          simp only [dup_walk, hd, if_true]
          exact dup_last_run x.h lo hi hn hrun _ i h1 h2 hpar (by omega)
        rw [hw]
        simp only [del_walk, hd, if_true]
        obtain ⟨b1, b2, b3, b4, b5⟩ :=
          del_back_run x.h lo hi hn hrun hi hi hle (le_refl _) hhi (by omega)
        refine ⟨b1, b2, b3, ?_, fun hc => by simp at hc, fun _ => b4⟩
        intro hdl k k1 k2 k3
        have := b5 hdl
        by_cases hk : k = lo
        · rw [hk, ← this]; exact hdl
        · exact b4 k (by omega) k2 k3
      · have hd' : f.S_DUPLAST = false := by simpa using hd
        have hw : dup_walk f x.h i = lo := by
          simp only [dup_walk, hd', Bool.false_eq_true, if_false]
          exact dup_first_run x.h lo hi hn hrun _ i h1 h2 hpar (by omega)
        rw [hw]
        simp only [del_walk, hd', Bool.false_eq_true, if_false]
        obtain ⟨b1, b2, b3, b4, b5⟩ :=
          del_fwd_run x.h lo hi hn hrun (NUM_ENT x.h) lo (le_refl _) hle hlo (by omega)
        refine ⟨b1, b2, b3, ?_, fun _ => b4, fun hc => by simp at hc⟩
        intro hdl k k1 k2 k3
        have := b5 hdl
        by_cases hk : k = hi
        · rw [hk, ← this]; exact hdl
        · exact b4 k k1 (by omega) k3
    obtain ⟨j, hj, j1, j2, j3, j4, j5, j6⟩ := key
    rw [← hj]
    refine ⟨⟨j1, j2, j3, by omega⟩, ?_, ?_⟩
    · by_cases hdj : deleted x.h j = true
      · simp only [bam_match, hdel, if_true, ← hj, hdj]
        exact ⟨fun _ => j4 hdj, fun _ => trivial⟩
      · obtain ⟨e1, _⟩ := BT_STK_ENTER_ok E x.h j x.lock x.lock_mode x.st hcal hs
        simp only [bam_match, hdel, if_true, ← hj, hdj, Bool.false_eq_true, if_false, e1]
        constructor
        · intro hc; simp [DB_NOTFOUND] at hc
        · intro hall; exact absurd (hall j j1 j2 j3) hdj
    · rintro ⟨k, k1, k2, k3, k4⟩
      have hdj : ¬ deleted x.h j = true := by
        intro hc
        have := j4 hc k k1 k2 k3
        rw [k4] at this
        exact Bool.false_ne_true this
      obtain ⟨e1, e2, _⟩ := BT_STK_ENTER_ok E x.h j x.lock x.lock_mode x.st hcal hs
      simp only [bam_match, hdel, if_true, ← hj, hdj, Bool.false_eq_true, if_false]
      exact ⟨e1, e2, trivial, j5, j6⟩

theorem search_page_delno_witness :
    (sample_loop sample_leaf_del).h.type = PageType.P_LBTREE ∧
    NUM_ENT (sample_loop sample_leaf_del).h < 65536 ∧
    page_search (sample_env 2 1 false [sample_leaf_del]) (sample_loop sample_leaf_del).h =
      BSearch.found 4 ∧
    is_dup_run (sample_loop sample_leaf_del).h 2 4 ∧ 2 ≤ 4 ∧ 4 ≤ 4 ∧
    ({ sample_flags with S_DELNO := true } : Flags).S_DELNO = true ∧
    stack_ok (sample_loop sample_leaf_del).st ∧
    (∃ r j, search_page (sample_env 2 1 false [sample_leaf_del])
        { sample_flags with S_DELNO := true } 0 false (sample_loop sample_leaf_del) = Sum.inl r ∧
      j = del_walk { sample_flags with S_DELNO := true } (sample_loop sample_leaf_del).h
        (dup_walk { sample_flags with S_DELNO := true } (sample_loop sample_leaf_del).h 4) ∧
      (2 ≤ j ∧ j ≤ 4 ∧ j % 2 = 0 ∧ j + 1 < NUM_ENT (sample_loop sample_leaf_del).h) ∧
      (r.ret = DB_NOTFOUND ↔
        ∀ k, 2 ≤ k → k ≤ 4 → k % 2 = 0 → deleted (sample_loop sample_leaf_del).h k = true) ∧
      ((∃ k, 2 ≤ k ∧ k ≤ 4 ∧ k % 2 = 0 ∧ deleted (sample_loop sample_leaf_del).h k = false) →
        r.ret = 0 ∧
        terminal r.st = some ⟨some (sample_loop sample_leaf_del).h, j,
          (sample_loop sample_leaf_del).lock, (sample_loop sample_leaf_del).lock_mode⟩ ∧
        deleted (sample_loop sample_leaf_del).h j = false ∧
        (({ sample_flags with S_DELNO := true } : Flags).S_DUPLAST = false →
          ∀ k, 2 ≤ k → k < j → k % 2 = 0 → deleted (sample_loop sample_leaf_del).h k = true) ∧
        (({ sample_flags with S_DELNO := true } : Flags).S_DUPLAST = true →
          ∀ k, j < k → k ≤ 4 → k % 2 = 0 →
            deleted (sample_loop sample_leaf_del).h k = true))) ∧
    (__bam_search (sample_env 2 1 false [sample_leaf_del]) { sample_flags with S_DELNO := true }
        0 false 1 sample_state).map
        (fun r => (r.ret, (terminal r.st).map (fun e => e.indx))) = some (0, some 4) :=
  ⟨rfl, by decide, by decide, by decide, by decide, by decide, rfl, by decide,
    search_page_delno (sample_env 2 1 false [sample_leaf_del])
      { sample_flags with S_DELNO := true } 0 false
      (sample_loop sample_leaf_del) 4 2 4 rfl (by decide) (by decide) (by decide) (by decide)
      (by decide) rfl (fun _ => rfl) (by decide),
    by decide⟩

/-! ### C7 -/

/-- C7 fails when the sum of the counts does not fit 32 bits.  In a region
with 1 clean and 2^32 - 1 dirty pages whose list holds an eligible buffer,
`st_page_clean + st_page_dirty` is 0 in `u_int32_t`: `__memp_trick` takes the
exit `total == 0`, writes nothing and returns 0, while the region has pages,
has dirty pages, is below the ratio 50 / 100 and has an eligible buffer. -/
theorem memp_trick_sum_wraps :
    ∃ r c, __memp_trick (fun _ => WriteOutcome.wrote) 0
        (sample_pool [⟨[sample_bh 0 true], 1, 4294967295, 0⟩]) 0 50 true none 4294967296 =
        some r ∧
      r.ret = 0 ∧ r.nwrotep = some 0 ∧ r.dbmp.writes = [] ∧
      r.dbmp.reginfo[0]? = some c ∧
      c.st_page_clean = 1 ∧ c.st_page_dirty = 4294967295 ∧
      ¬ (c.st_page_clean + c.st_page_dirty = 0 ∨ c.st_page_dirty = 0 ∨
        ((50 : Nat) : ℚ) / 100 ≤
          (c.st_page_clean : ℚ) / ((c.st_page_clean : ℚ) + (c.st_page_dirty : ℚ))) ∧
      ∃ b ∈ c.bhq, eligible (sample_pool [⟨[sample_bh 0 true], 1, 4294967295, 0⟩]) b = true := by
  refine ⟨_, ⟨[sample_bh 0 true], 1, 4294967295, 0⟩, rfl, by decide, by decide, by decide,
    by decide, rfl, rfl, ?_, sample_bh 0 true, by decide, by decide⟩
  simp only
  norm_num

/-- C7 as the code has it.  Let the clean and the dirty count of the region
sum to less than 2^32.  `__memp_trick` returns whenever the fuel exceeds the
region's dirty count (each write that succeeds moves one page from dirty to
clean).  When it returns 0, the final counts of the region satisfy
clean / (clean + dirty) >= pct / 100 over the rationals, or the region has no
page or no dirty page, or no buffer of the region's list is eligible.  With
pct = 100 and every dirty buffer eligible, no dirty page remains: the dirty
count is 0 or no buffer is dirty, and both when the dirty count was the number
of dirty buffers. -/
theorem memp_trick_ratio_or_no_eligible (io : BH → WriteOutcome) (flush : Int)
    (dbmp : DB_MPOOL) (ncache pct : Nat) (has_nwrotep : Bool) (nwrotep : Option Nat)
    (fuel : Nat) (c_mp : MPOOL)
    (hreg : dbmp.reginfo[ncache]? = some c_mp)
    (hb : c_mp.st_page_clean + c_mp.st_page_dirty < 4294967296)
    (hfuel : c_mp.st_page_dirty < fuel) :
    ∃ r c, __memp_trick io flush dbmp ncache pct has_nwrotep nwrotep fuel = some r ∧
      r.dbmp.reginfo[ncache]? = some c ∧
      (r.ret = 0 →
        ((c.st_page_clean + c.st_page_dirty = 0 ∨ c.st_page_dirty = 0 ∨
            (pct : ℚ) / 100 ≤ (c.st_page_clean : ℚ) / ((c.st_page_clean : ℚ) + (c.st_page_dirty : ℚ))) ∨
          ∀ b ∈ c.bhq, eligible dbmp b = false) ∧
        (pct = 100 → (∀ b ∈ c_mp.bhq, b.BH_DIRTY = true → eligible dbmp b = true) →
          (c.st_page_dirty = 0 ∨ ∀ b ∈ c.bhq, b.BH_DIRTY = false) ∧
          (ndirty c_mp.bhq = c_mp.st_page_dirty →
            c.st_page_dirty = 0 ∧ ∀ b ∈ c.bhq, b.BH_DIRTY = false))) := by
  have hlt : ncache < dbmp.reginfo.length := by
    rcases Nat.lt_or_ge ncache dbmp.reginfo.length with h | h
    · exact h
    · rw [List.getElem?_eq_none h] at hreg; cases hreg
  have hget : dbmp.reginfo.getD ncache ⟨[], 0, 0, 0⟩ = c_mp := by
    simp [List.getD, hreg]
  obtain ⟨r, hr, hexit⟩ := trick_loop_exit io dbmp pct fuel c_mp 0 [] hfuel
  have hinv := trick_loop_dirty_eligible io dbmp pct fuel c_mp 0 [] r
  have hsum := trick_loop_sum io dbmp pct fuel c_mp 0 [] r hr
  have hb' : r.c_mp.st_page_clean + r.c_mp.st_page_dirty < 4294967296 := by omega
  refine ⟨trick_done flush dbmp ncache has_nwrotep nwrotep r,
    { r.c_mp with st_page_trickle := r.c_mp.st_page_trickle + r.nwrote }, ?_, ?_, ?_⟩
  · simp only [__memp_trick, hget, hr]
  · simp only [trick_done, List.getElem?_set_self hlt]
  · simp only [trick_done]
    intro hret
    have hret0 : r.ret = 0 := by
      by_cases h1 : r.nwrote ≠ 0 ∧ dbmp.extents = true
      · rw [if_pos h1] at hret
        by_cases h2 : flush ≠ 0 ∧ r.ret = 0
        · rw [if_pos h2] at hret; exact absurd hret h2.1
        · rw [if_neg h2] at hret; exact hret
      · rw [if_neg h1] at hret; exact hret
    have hex := hexit hret0
    refine ⟨?_, ?_⟩
    · rcases hex with hex | hex
      · exact Or.inl (ratio_met_exact _ _ _ hb' hex)
      · exact Or.inr hex
    · intro hp hall
      have hall' := hinv hall hr
      have hdis : r.c_mp.st_page_dirty = 0 ∨ ∀ b ∈ r.c_mp.bhq, b.BH_DIRTY = false := by
        rcases hex with hex | hex
        · left
          rcases ratio_met_nat _ _ _ hb' hex with h | h | h
          · omega
          · exact h
          · subst hp
            by_cases ht : r.c_mp.st_page_clean + r.c_mp.st_page_dirty = 0
            · omega
            · have := (Nat.le_div_iff_mul_le (Nat.pos_of_ne_zero ht)).1 h
              omega
        · right
          intro b hb
          by_contra hd
          have hd' : b.BH_DIRTY = true := by simpa using hd
          have := hall' b hb hd'
          rw [hex b hb] at this
          exact Bool.false_ne_true this
      refine ⟨hdis, fun hcnt => ?_⟩
      have hcons := trick_loop_consistent io dbmp pct fuel c_mp 0 [] r hcnt hr
      rcases hdis with h0 | h0
      · refine ⟨h0, fun b hb => ?_⟩
        have hz : ndirty r.c_mp.bhq = 0 := by omega
        unfold ndirty at hz
        rw [List.countP_eq_zero] at hz
        simpa using hz b hb
      · refine ⟨?_, h0⟩
        rw [← hcons]
        unfold ndirty
        rw [List.countP_eq_zero]
        intro b hb
        simp [h0 b hb]

theorem memp_trick_ratio_or_no_eligible_witness :
    (sample_pool [sample_region 2 8]).reginfo[0]? = some (sample_region 2 8) ∧
    (sample_region 2 8).st_page_clean + (sample_region 2 8).st_page_dirty < 4294967296 ∧
    (sample_region 2 8).st_page_dirty < 9 ∧
    (∃ r c, __memp_trick (fun _ => WriteOutcome.wrote) 0 (sample_pool [sample_region 2 8])
        0 100 true none 9 = some r ∧
      r.dbmp.reginfo[0]? = some c ∧
      (r.ret = 0 →
        ((c.st_page_clean + c.st_page_dirty = 0 ∨ c.st_page_dirty = 0 ∨
            ((100 : Nat) : ℚ) / 100 ≤
              (c.st_page_clean : ℚ) / ((c.st_page_clean : ℚ) + (c.st_page_dirty : ℚ))) ∨
          ∀ b ∈ c.bhq, eligible (sample_pool [sample_region 2 8]) b = false) ∧
        (100 = 100 →
          (∀ b ∈ (sample_region 2 8).bhq, b.BH_DIRTY = true →
            eligible (sample_pool [sample_region 2 8]) b = true) →
          (c.st_page_dirty = 0 ∨ ∀ b ∈ c.bhq, b.BH_DIRTY = false) ∧
          (ndirty (sample_region 2 8).bhq = (sample_region 2 8).st_page_dirty →
            c.st_page_dirty = 0 ∧ ∀ b ∈ c.bhq, b.BH_DIRTY = false)))) ∧
    (__memp_trick (fun _ => WriteOutcome.wrote) 0 (sample_pool [sample_region 2 8])
        0 100 true none 9).map
        (fun r => (r.ret, r.nwrotep,
          r.dbmp.reginfo.map (fun c => (c.st_page_clean, c.st_page_dirty, ndirty c.bhq)))) =
      some (0, some 8, [(10, 0, 0)]) ∧
    (__memp_trick (fun _ => WriteOutcome.wrote) 0 (sample_pool [sample_region 2 8])
        0 50 true none 9).map
        (fun r => (r.ret, r.nwrotep,
          r.dbmp.reginfo.map (fun c => (c.st_page_clean, c.st_page_dirty, ndirty c.bhq)))) =
      some (0, some 3, [(5, 5, 5)]) :=
  ⟨rfl, by decide, by decide,
    memp_trick_ratio_or_no_eligible (fun _ => WriteOutcome.wrote) 0
      (sample_pool [sample_region 2 8]) 0 100 true none 9 (sample_region 2 8) rfl (by decide)
      (by decide),
    by decide, by decide⟩

/-! ### C8 -/

/-- C8 fails when `st_page_clean * 100` does not fit 32 bits.  In a region
with 42949673 clean pages and one dirty page, held by an eligible buffer that
the layer below writes, the ratio holds at pct = 50, so the least `n` of the
claim is 0; the product is 4 in `u_int32_t`, the exit test fails, and
`__memp_trick` writes the page and stores the count 1. -/
theorem memp_trick_product_wraps :
    ndirty [sample_bh 0 true] = 1 ∧
    (∀ b ∈ [sample_bh 0 true], b.BH_DIRTY = true →
      eligible (sample_pool [⟨[sample_bh 0 true], 42949673, 1, 0⟩]) b = true) ∧
    IsLeast {n | 1 - n = 0 ∨ ((42949673 + n) * 100) / (42949673 + 1) ≥ 50} 0 ∧
    (42949673 * 100) % 4294967296 = 4 ∧
    ∃ r, __memp_trick (fun _ => WriteOutcome.wrote) 0
        (sample_pool [⟨[sample_bh 0 true], 42949673, 1, 0⟩]) 0 50 true none 2 = some r ∧
      r.ret = 0 ∧ r.nwrotep = some 1 ∧ r.dbmp.writes = [(0, 0)] ∧
      r.dbmp.reginfo = [⟨[sample_bh 0 false], 42949674, 0, 1⟩] := by
  refine ⟨by decide, by decide, ⟨?_, fun _ _ => Nat.zero_le _⟩, by decide, _, rfl, ?_⟩
  · show 1 - 0 = 0 ∨ ((42949673 + 0) * 100) / (42949673 + 1) ≥ 50
    decide
  · decide

/-- C8 as the code has it.  Let a hundred times the sum of the clean and the
dirty count of the region be less than 2^32.  When every dirty buffer of the
region is eligible, the dirty count is the number of dirty buffers and every
write succeeds, the count stored through `nwrotep` is the least `n` with
`d - n = 0` or `((c + n) * 100) / (c + d) >= pct` (integer division), exactly
`n` writes are attempted, and when `n = 0` the pool is left as it was. -/
theorem memp_trick_count_least (io : BH → WriteOutcome) (flush : Int)
    (dbmp : DB_MPOOL) (ncache pct : Nat) (nwrotep : Option Nat) (fuel : Nat) (c_mp : MPOOL)
    (hreg : dbmp.reginfo[ncache]? = some c_mp)
    (hb : (c_mp.st_page_clean + c_mp.st_page_dirty) * 100 < 4294967296)
    (hio : ∀ b, io b = WriteOutcome.wrote)
    (hcnt : ndirty c_mp.bhq = c_mp.st_page_dirty)
    (hall : ∀ b ∈ c_mp.bhq, b.BH_DIRTY = true → eligible dbmp b = true)
    (hfuel : c_mp.st_page_dirty < fuel) :
    ∃ r n, __memp_trick io flush dbmp ncache pct true nwrotep fuel = some r ∧
      r.nwrotep = some n ∧
      r.dbmp.writes.length = dbmp.writes.length + n ∧
      IsLeast {n | c_mp.st_page_dirty - n = 0 ∨
        ((c_mp.st_page_clean + n) * 100) / (c_mp.st_page_clean + c_mp.st_page_dirty) ≥ pct} n ∧
      (n = 0 → r.dbmp = dbmp) := by
  have hget : dbmp.reginfo.getD ncache ⟨[], 0, 0, 0⟩ = c_mp := by
    simp [List.getD, hreg]
  obtain ⟨r, n, hr, _, hnw, hle, hmet, hleast, htried, hzero⟩ :=
    trick_loop_count io dbmp pct hio fuel c_mp 0 [] hfuel hcnt hall
  have htot : ∀ m, m ≤ c_mp.st_page_dirty →
      c_mp.st_page_clean + m + (c_mp.st_page_dirty - m) = c_mp.st_page_clean + c_mp.st_page_dirty := by
    intro m hm; omega
  have hsm : ∀ m, m ≤ c_mp.st_page_dirty →
      (ratio_met pct (c_mp.st_page_clean + m) (c_mp.st_page_dirty - m) ↔
        (c_mp.st_page_clean + c_mp.st_page_dirty = 0 ∨ c_mp.st_page_dirty - m = 0 ∨
          pct ≤ ((c_mp.st_page_clean + m) * 100) /
            (c_mp.st_page_clean + c_mp.st_page_dirty))) := by
    intro m hm
    have := ratio_met_small pct (c_mp.st_page_clean + m) (c_mp.st_page_dirty - m)
      (by rw [htot m hm]; exact hb)
    rw [htot m hm] at this
    exact this
  refine ⟨trick_done flush dbmp ncache true nwrotep r, n, ?_, ?_, ?_, ⟨?_, ?_⟩, ?_⟩
  · simp only [__memp_trick, hget, hr]
  · simp [trick_done, hnw]
  · simp only [trick_done, List.length_append, List.length_map]
    simpa using htried
  · show c_mp.st_page_dirty - n = 0 ∨ _
    rcases (hsm n hle).1 hmet with h | h | h
    · left; omega
    · left; exact h
    · right; exact h
  · intro m hm
    by_contra hlt
    have hlt' : m < n := Nat.lt_of_not_le hlt
    apply hleast m hlt'
    have hm' : c_mp.st_page_dirty - m = 0 ∨
        ((c_mp.st_page_clean + m) * 100) / (c_mp.st_page_clean + c_mp.st_page_dirty) ≥ pct := hm
    apply (hsm m (by omega)).2
    rcases hm' with h | h
    · exact Or.inr (Or.inl h)
    · exact Or.inr (Or.inr h)
  · intro hn
    obtain ⟨hc, ht⟩ := hzero hn
    have hnw0 : r.nwrote = 0 := by omega
    simp only [trick_done, hc, ht, hnw0, Nat.add_zero, List.map_nil, List.append_nil]
    have : ({ c_mp with st_page_trickle := c_mp.st_page_trickle } : MPOOL) = c_mp := rfl
    rw [this, set_same _ _ _ hreg]

theorem memp_trick_count_least_witness :
    (sample_pool [sample_region 2 8]).reginfo[0]? = some (sample_region 2 8) ∧
    ((sample_region 2 8).st_page_clean + (sample_region 2 8).st_page_dirty) * 100 < 4294967296 ∧
    ndirty (sample_region 2 8).bhq = (sample_region 2 8).st_page_dirty ∧
    (∀ b ∈ (sample_region 2 8).bhq, b.BH_DIRTY = true →
      eligible (sample_pool [sample_region 2 8]) b = true) ∧
    (sample_region 2 8).st_page_dirty < 9 ∧
    (∃ r n, __memp_trick (fun _ => WriteOutcome.wrote) 0 (sample_pool [sample_region 2 8])
        0 50 true none 9 = some r ∧
      r.nwrotep = some n ∧
      r.dbmp.writes.length = (sample_pool [sample_region 2 8]).writes.length + n ∧
      IsLeast {n | (sample_region 2 8).st_page_dirty - n = 0 ∨
        (((sample_region 2 8).st_page_clean + n) * 100) /
          ((sample_region 2 8).st_page_clean + (sample_region 2 8).st_page_dirty) ≥ 50} n ∧
      (n = 0 → r.dbmp = sample_pool [sample_region 2 8])) ∧
    (__memp_trick (fun _ => WriteOutcome.wrote) 0 (sample_pool [sample_region 2 8])
        0 50 true none 9).map (fun r => r.nwrotep) = some (some 3) ∧
    (__memp_trick (fun _ => WriteOutcome.wrote) 0 (sample_pool [sample_region 7 3])
        0 50 true none 4).map (fun r => (r.nwrotep, r.dbmp)) =
      some (some 0, sample_pool [sample_region 7 3]) :=
  ⟨rfl, by decide, by decide, by decide, by decide,
    memp_trick_count_least (fun _ => WriteOutcome.wrote) 0
      (sample_pool [sample_region 2 8]) 0 50 none 9 (sample_region 2 8) rfl (by decide)
      (fun _ => rfl) (by decide) (by decide) (by decide),
    by decide, by decide⟩

/-! ### C9 -/

/-- C9 at a pool of two regions, the first with 2 clean and 8 dirty pages, the
second with 7 clean and 3 dirty pages, and pct = 50: the call succeeds, three
pages are written (all in the first region, whose pages-trickled statistic
becomes 3), and the count stored through `nwrotep` is 0, the count of the
second region. -/
theorem memp_trickle_reports_last_region_only :
    ∃ dbmp, __memp_trickle (fun _ => WriteOutcome.wrote) 0
        ⟨false, some (sample_pool [sample_region 2 8, sample_region 7 3])⟩ 50 true 9 =
      some (0, some 0, ⟨false, some dbmp⟩) ∧
      dbmp.writes = [(0, 0), (0, 1), (0, 2)] ∧
      dbmp.reginfo.map (fun c => c.st_page_trickle) = [3, 0] := by
  refine ⟨_, rfl, ?_, ?_⟩ <;> decide

/-! ### C10 -/

/-- C10.  On an environment that is not in the panic state and has a pool, a
`pct` below 1 or above 100 makes `__memp_trickle` return `EINVAL`; the count
stored through `nwrotep` is 0 and the environment, with every region's buffer
list, counts and statistics and the log of attempted writes, is returned as it
was. -/
theorem memp_trickle_einval (io : BH → WriteOutcome) (flush : Int) (dbenv : DB_ENV)
    (dbmp : DB_MPOOL) (pct : Int) (has_nwrotep : Bool) (fuel : Nat)
    (hpanic : dbenv.panic = false) (hmp : dbenv.mp_handle = some dbmp)
    (hpct : pct < 1 ∨ pct > 100) :
    __memp_trickle io flush dbenv pct has_nwrotep fuel =
      some (EINVAL, if has_nwrotep then some 0 else none, dbenv) := by
  simp only [__memp_trickle, hpanic, hmp, hpct, if_true, Bool.false_eq_true, if_false]

theorem memp_trickle_einval_witness :
    (⟨false, some (sample_pool [sample_region 2 8])⟩ : DB_ENV).panic = false ∧
    (⟨false, some (sample_pool [sample_region 2 8])⟩ : DB_ENV).mp_handle =
      some (sample_pool [sample_region 2 8]) ∧
    ((101 : Int) < 1 ∨ (101 : Int) > 100) ∧
    __memp_trickle (fun _ => WriteOutcome.wrote) 0 ⟨false, some (sample_pool [sample_region 2 8])⟩
        101 true 9 =
      some (EINVAL, if true then some 0 else none, ⟨false, some (sample_pool [sample_region 2 8])⟩) :=
  ⟨rfl, rfl, by decide,
    memp_trickle_einval (fun _ => WriteOutcome.wrote) 0 ⟨false, some (sample_pool [sample_region 2 8])⟩
      (sample_pool [sample_region 2 8]) 101 true 9 rfl rfl (by decide)⟩

/-! ### C11 -/

/-- C11.  For every region and `pct`, `__memp_trick` returns, and every write
it attempted was attempted on the buffer that was, in the region as it stood at
that attempt, the first buffer of the list that is unpinned, marked dirty, not
locked for I/O and not owned by a temporary file.  No buffer of a temporary
file is among those attempted, and when every dirty buffer of the region
belongs to a temporary file the call attempts no write, returns 0, stores the
count 0 and leaves the regions as they were, whatever the ratio. -/
theorem memp_trick_first_writable (io : BH → WriteOutcome) (flush : Int) (dbmp : DB_MPOOL)
    (ncache pct : Nat) (has_nwrotep : Bool) (nwrotep : Option Nat) (fuel : Nat) (c_mp : MPOOL)
    (hreg : dbmp.reginfo[ncache]? = some c_mp) (hfuel : c_mp.st_page_dirty < fuel) :
    ∃ r ks, __memp_trick io flush dbmp ncache pct has_nwrotep nwrotep fuel = some r ∧
      r.dbmp.writes = dbmp.writes ++ ks.map (fun k => (ncache, k)) ∧
      each_first_writable io dbmp c_mp ks ∧
      (∀ k ∈ ks, ∀ b, c_mp.bhq[k]? = some b → (R_ADDR dbmp b).MP_TEMP = false) ∧
      ((∀ b ∈ c_mp.bhq, b.BH_DIRTY = true → (R_ADDR dbmp b).MP_TEMP = true) →
        ks = [] ∧ r.ret = 0 ∧ r.nwrotep = (if has_nwrotep then some 0 else nwrotep) ∧
        r.dbmp.reginfo = dbmp.reginfo) := by
  have hget : dbmp.reginfo.getD ncache ⟨[], 0, 0, 0⟩ = c_mp := by
    simp [List.getD_eq_getElem?_getD, hreg]
  obtain ⟨r0, hr0, _⟩ := trick_loop_exit io dbmp pct fuel c_mp 0 [] hfuel
  obtain ⟨ks, h1, h2, h3, h4⟩ := trick_loop_attempts io dbmp pct fuel c_mp 0 [] r0 hr0
  refine ⟨trick_done flush dbmp ncache has_nwrotep nwrotep r0, ks, ?_, ?_, h2, h3, ?_⟩
  · simp only [__memp_trick, hget, hr0]
  · simp only [trick_done, h1, List.nil_append]
  · intro htemp
    have hks : ks = [] := by
      cases ks with
      | nil => rfl
      | cons k ks' =>
        exfalso
        simp only [each_first_writable] at h2
        split at h2
        · exact h2
        · rename_i b hb
          have hmem : b ∈ c_mp.bhq := by
            obtain ⟨hlt, hbe⟩ := List.getElem?_eq_some_iff.1 hb
            exact hbe ▸ List.getElem_mem hlt
          have := htemp b hmem h2.1.2.1.2.1
          rw [h2.1.2.1.2.2.2] at this
          cases this
    obtain ⟨e1, e2, e3⟩ := h4 hks
    refine ⟨hks, ?_, ?_, ?_⟩
    · simp only [trick_done, e1, e2]
      simp
    · simp only [trick_done, e2]
    · simp only [trick_done, e2, e3, Nat.add_zero]
      exact set_same _ _ _ hreg

theorem memp_trick_first_writable_witness :
    (⟨[⟨[⟨7, 0, 0, true, false⟩, ⟨8, 1, 0, true, false⟩, ⟨9, 1, 0, false, false⟩], 1, 2, 0⟩],
        [⟨true⟩, ⟨false⟩], false, []⟩ : DB_MPOOL).reginfo[0]? =
      some ⟨[⟨7, 0, 0, true, false⟩, ⟨8, 1, 0, true, false⟩, ⟨9, 1, 0, false, false⟩], 1, 2, 0⟩ ∧
    (2 : Nat) < 3 ∧
    (∃ r ks, __memp_trick (fun _ => WriteOutcome.wrote) 0
        ⟨[⟨[⟨7, 0, 0, true, false⟩, ⟨8, 1, 0, true, false⟩, ⟨9, 1, 0, false, false⟩], 1, 2, 0⟩],
          [⟨true⟩, ⟨false⟩], false, []⟩ 0 100 true none 3 = some r ∧
      r.dbmp.writes = [] ++ ks.map (fun k => (0, k)) ∧
      each_first_writable (fun _ => WriteOutcome.wrote)
        ⟨[⟨[⟨7, 0, 0, true, false⟩, ⟨8, 1, 0, true, false⟩, ⟨9, 1, 0, false, false⟩], 1, 2, 0⟩],
          [⟨true⟩, ⟨false⟩], false, []⟩
        ⟨[⟨7, 0, 0, true, false⟩, ⟨8, 1, 0, true, false⟩, ⟨9, 1, 0, false, false⟩], 1, 2, 0⟩ ks ∧
      (∀ k ∈ ks, ∀ b,
        ([⟨7, 0, 0, true, false⟩, ⟨8, 1, 0, true, false⟩, ⟨9, 1, 0, false, false⟩] : List BH)[k]? =
            some b →
          (R_ADDR ⟨[⟨[⟨7, 0, 0, true, false⟩, ⟨8, 1, 0, true, false⟩, ⟨9, 1, 0, false, false⟩],
            1, 2, 0⟩], [⟨true⟩, ⟨false⟩], false, []⟩ b).MP_TEMP = false) ∧
      ((∀ b ∈ ([⟨7, 0, 0, true, false⟩, ⟨8, 1, 0, true, false⟩, ⟨9, 1, 0, false, false⟩] : List BH),
          b.BH_DIRTY = true →
          (R_ADDR ⟨[⟨[⟨7, 0, 0, true, false⟩, ⟨8, 1, 0, true, false⟩, ⟨9, 1, 0, false, false⟩],
            1, 2, 0⟩], [⟨true⟩, ⟨false⟩], false, []⟩ b).MP_TEMP = true) →
        ks = [] ∧ r.ret = 0 ∧ r.nwrotep = (if true then some 0 else none) ∧
        r.dbmp.reginfo =
          [⟨[⟨7, 0, 0, true, false⟩, ⟨8, 1, 0, true, false⟩, ⟨9, 1, 0, false, false⟩], 1, 2, 0⟩])) ∧
    (__memp_trick (fun _ => WriteOutcome.wrote) 0
        ⟨[⟨[⟨7, 0, 0, true, false⟩, ⟨8, 1, 0, true, false⟩, ⟨9, 1, 0, false, false⟩], 1, 2, 0⟩],
          [⟨true⟩, ⟨false⟩], false, []⟩ 0 100 true none 3).map
        (fun r => (r.ret, r.nwrotep, r.dbmp.writes)) = some (0, some 1, [(0, 1)]) ∧
    (__memp_trick (fun _ => WriteOutcome.wrote) 0
        ⟨[⟨[⟨7, 0, 0, true, false⟩], 0, 1, 0⟩], [⟨true⟩], false, []⟩ 0 100 true none 2).map
        (fun r => (r.ret, r.nwrotep, r.dbmp.writes, r.dbmp.reginfo)) =
      some (0, some 0, [], [⟨[⟨7, 0, 0, true, false⟩], 0, 1, 0⟩]) :=
  ⟨rfl, by decide,
    memp_trick_first_writable (fun _ => WriteOutcome.wrote) 0 _ 0 100 true none 3 _ rfl (by decide),
    by decide, by decide⟩

/-! ### C12 -/

/-- C12.  Let the loop of `__memp_trickle` stand at cache `i` of any pool, and
let `__memp_trick` on that cache write the buffers at the positions `ks` with
success and then attempt the buffer `b` at position `k`, which the layer below
reports as not written.  Then the call returns `EPERM`; the attempts logged
are those at `ks` and the one at `k`, all in cache `i`, and none after it; the
count stored through `nwrotep` is the number of writes that succeeded, and the
pages-trickled statistic of the cache has grown by that number; every other
cache is as it was. -/
theorem memp_trickle_not_written_eperm (io : BH → WriteOutcome) (flush : Int) (pct : Nat)
    (has_nwrotep : Bool) (fuel n i : Nat) (dbmp : DB_MPOOL) (nwrotep : Option Nat)
    (c_mp c : MPOOL) (ks : List Nat) (k : Nat) (b : BH)
    (hreg : dbmp.reginfo[i]? = some c_mp)
    (hrun : wrote_run io dbmp pct c_mp ks c)
    (hunmet : ¬ ratio_met pct c.st_page_clean c.st_page_dirty)
    (hfirst : first_writable dbmp c.bhq k b)
    (hio : io b = WriteOutcome.not_written)
    (hfuel : ks.length < fuel) :
    trickle_loop io flush pct has_nwrotep fuel (n + 1) i dbmp nwrotep =
      some ⟨EPERM, if has_nwrotep then some ks.length else nwrotep,
        { dbmp with
          reginfo := dbmp.reginfo.set i
            { c with st_page_trickle := c.st_page_trickle + ks.length },
          writes := dbmp.writes ++ (ks ++ [k]).map (fun k => (i, k)) }⟩ := by
  have hget : dbmp.reginfo.getD i ⟨[], 0, 0, 0⟩ = c_mp := by
    simp [List.getD_eq_getElem?_getD, hreg]
  have hloop := trick_loop_not_written io dbmp pct c k b hunmet hfirst hio ks fuel c_mp 0 []
    hrun hfuel
  simp only [trickle_loop, __memp_trick, hget, hloop, trick_done, Nat.zero_add, List.nil_append]
  have hE : ¬ (EPERM = 0) := by decide
  by_cases hx : ¬ ks.length = 0 ∧ dbmp.extents = true
  · simp [hx, hE]
  · simp [hx, hE]

theorem memp_trickle_not_written_eperm_witness :
    (sample_pool [sample_region 1 2, sample_region 0 1]).reginfo[0]? = some (sample_region 1 2) ∧
    wrote_run sample_io (sample_pool [sample_region 1 2, sample_region 0 1]) 100
      (sample_region 1 2) [0]
      ⟨[sample_bh 0 false, sample_bh 1 true, sample_bh 2 false], 2, 1, 0⟩ ∧
    ¬ ratio_met 100 2 1 ∧
    first_writable (sample_pool [sample_region 1 2, sample_region 0 1])
      [sample_bh 0 false, sample_bh 1 true, sample_bh 2 false] 1 (sample_bh 1 true) ∧
    sample_io (sample_bh 1 true) = WriteOutcome.not_written ∧
    [0].length < 3 ∧
    trickle_loop sample_io 0 100 true 3 (1 + 1) 0
        (sample_pool [sample_region 1 2, sample_region 0 1]) (some 0) =
      some ⟨EPERM, if true then some [0].length else some 0,
        { sample_pool [sample_region 1 2, sample_region 0 1] with
          reginfo := (sample_pool [sample_region 1 2, sample_region 0 1]).reginfo.set 0
            { (⟨[sample_bh 0 false, sample_bh 1 true, sample_bh 2 false], 2, 1, 0⟩ : MPOOL) with
              st_page_trickle := 0 + [0].length },
          writes := (sample_pool [sample_region 1 2, sample_region 0 1]).writes ++
            ([0] ++ [1]).map (fun k => (0, k)) }⟩ ∧
    __memp_trickle sample_io 0 ⟨false, some (sample_pool [sample_region 1 2, sample_region 0 1])⟩
        100 true 3 =
      some (EPERM, some 1,
        ⟨false, some ⟨[⟨[sample_bh 0 false, sample_bh 1 true, sample_bh 2 false], 2, 1, 1⟩,
          sample_region 0 1], [⟨false⟩], false, [(0, 0), (0, 1)]⟩⟩) :=
  ⟨rfl, by decide, by decide, by decide, rfl, by decide,
    memp_trickle_not_written_eperm sample_io 0 100 true 3 1 0
      (sample_pool [sample_region 1 2, sample_region 0 1]) (some 0) (sample_region 1 2)
      ⟨[sample_bh 0 false, sample_bh 1 true, sample_bh 2 false], 2, 1, 0⟩ [0] 1 (sample_bh 1 true)
      rfl (by decide) (by decide) (by decide) rfl (by decide),
    by decide⟩

/-! ### C13 -/

/-- C13 holds for the two fetches of the root and fails for the fetch of a
child.  In the sample tree, searched for key 7: when the first fetch (the
root) fails, the lock 1 taken for it is released by `__LPUT`; when, on a tree
of one leaf searched with `S_WRITE`, the fetch after the upgrade fails, the
write lock 2 is released by `__LPUT`.  When the fetch of the leaf, page 3,
fails, the call returns the error while the lock 2 taken for page 3 is handed
neither to `__LPUT` nor to `__TLPUT`: in the coupled descent no lock is
released at all, and in the stacked descent (record numbers and `S_STACK`)
only the lock 1 of the stacked root is. -/
theorem bam_search_child_fetch_keeps_lock :
    (∃ r, __bam_search (failing_env 7 1 false sample_tree 0) sample_flags 0 false 2
        sample_state = some r ∧ r.ret = EINVAL ∧
      r.st.trace = [Event.lget false 0 1 db_lockmode_t.DB_LOCK_READ (some 1),
        Event.fget 1 false, Event.lput 1] ∧
      still_held r.st.trace = []) ∧
    (∃ r, __bam_search (failing_env 2 1 false [sample_leaf] 1)
        { sample_flags with S_WRITE := true } 0 false 2 sample_state = some r ∧ r.ret = EINVAL ∧
      r.st.trace = [Event.lget false 0 1 db_lockmode_t.DB_LOCK_READ (some 1),
        Event.fget 1 true, Event.fput 1, Event.lput 1,
        Event.lget false 1 1 db_lockmode_t.DB_LOCK_WRITE (some 2),
        Event.fget 1 false, Event.lput 2] ∧
      still_held r.st.trace = []) ∧
    (∃ r, __bam_search (failing_env 7 1 false sample_tree 1) sample_flags 0 false 2
        sample_state = some r ∧ r.ret = EINVAL ∧
      r.st.trace = [Event.lget false 0 1 db_lockmode_t.DB_LOCK_READ (some 1),
        Event.fget 1 true, Event.fput 1,
        Event.lget true 1 3 db_lockmode_t.DB_LOCK_READ (some 2),
        Event.fget 3 false] ∧
      still_held r.st.trace = [2] ∧ lputs r.st.trace = [] ∧ tlputs r.st.trace = []) ∧
    (∃ r, __bam_search (failing_env 7 1 true sample_tree 1)
        { sample_flags with S_STACK := true } 0 false 2 sample_state = some r ∧ r.ret = EINVAL ∧
      r.st.trace = [Event.lget false 0 1 db_lockmode_t.DB_LOCK_WRITE (some 1),
        Event.fget 1 true,
        Event.lget false 1 3 db_lockmode_t.DB_LOCK_WRITE (some 2),
        Event.fget 3 false, Event.fput 1, Event.tlput 1] ∧
      lputs r.st.trace = [] ∧ tlputs r.st.trace = [1]) := by
  refine ⟨⟨_, rfl, ?_⟩, ⟨_, rfl, ?_⟩, ⟨_, rfl, ?_⟩, ⟨_, rfl, ?_⟩⟩ <;> decide

/-! ### C14 -/

/-- C14.  On a stack whose current entry lies in the storage, `__bam_stkrel`
returns 0 and the calls it makes are those for the entries `sp .. csp`, taken
from the first (shallowest) to the last (deepest): for each entry one
`memp_fput` of its page when the page reference is not null, then one release
of its lock when the handle is valid, `__LPUT` when `nolocks` is set and
`__TLPUT` otherwise.  It makes no other call, and it leaves `csp` at `sp`. -/
theorem bam_stkrel_releases_in_order (nolocks : Bool) (s : State)
    (hs : s.csp < s.stk.length) :
    (__bam_stkrel nolocks s).1 = 0 ∧
    (s.stk.take (s.csp + 1)).length = s.csp + 1 ∧
    (__bam_stkrel nolocks s).2.trace =
      s.trace ++ (s.stk.take (s.csp + 1)).flatMap (release_events nolocks) ∧
    fputs ((s.stk.take (s.csp + 1)).flatMap (release_events nolocks)) =
      (s.stk.take (s.csp + 1)).filterMap (fun e => e.page.map (fun p => p.pgno)) ∧
    (if nolocks then lputs else tlputs) ((s.stk.take (s.csp + 1)).flatMap (release_events nolocks)) =
      ((s.stk.take (s.csp + 1)).filter (fun e => e.lock ≠ LOCK_INVALID)).map (fun e => e.lock) ∧
    (if nolocks then tlputs else lputs) ((s.stk.take (s.csp + 1)).flatMap (release_events nolocks)) =
      [] ∧
    (__bam_stkrel nolocks s).2.csp = 0 := by
  obtain ⟨h1, h2, _, h4, _⟩ := stkrel_state nolocks s
  obtain ⟨l1, l2, l3, l4⟩ := lputs_release (s.stk.take (s.csp + 1))
  refine ⟨h1, ?_, h2, fputs_release nolocks _, ?_, ?_, h4⟩
  · rw [List.length_take]; omega
  · cases nolocks
    · exact l3
    · exact l1
  · cases nolocks
    · exact l4
    · exact l2

theorem bam_stkrel_releases_in_order_witness :
    sample_stack.csp < sample_stack.stk.length ∧
    ((__bam_stkrel true sample_stack).1 = 0 ∧
      (sample_stack.stk.take (sample_stack.csp + 1)).length = sample_stack.csp + 1 ∧
      (__bam_stkrel true sample_stack).2.trace =
        sample_stack.trace ++
          (sample_stack.stk.take (sample_stack.csp + 1)).flatMap (release_events true) ∧
      fputs ((sample_stack.stk.take (sample_stack.csp + 1)).flatMap (release_events true)) =
        (sample_stack.stk.take (sample_stack.csp + 1)).filterMap
          (fun e => e.page.map (fun p => p.pgno)) ∧
      (if true then lputs else tlputs)
          ((sample_stack.stk.take (sample_stack.csp + 1)).flatMap (release_events true)) =
        ((sample_stack.stk.take (sample_stack.csp + 1)).filter
          (fun e => e.lock ≠ LOCK_INVALID)).map (fun e => e.lock) ∧
      (if true then tlputs else lputs)
          ((sample_stack.stk.take (sample_stack.csp + 1)).flatMap (release_events true)) = [] ∧
      (__bam_stkrel true sample_stack).2.csp = 0) ∧
    (__bam_stkrel true sample_stack).2.trace =
      [Event.fput 2, Event.lput 4, Event.lput 5, Event.fput 3] ∧
    (__bam_stkrel false sample_stack).2.trace =
      [Event.fput 2, Event.tlput 4, Event.tlput 5, Event.fput 3] :=
  ⟨by decide, bam_stkrel_releases_in_order true sample_stack (by decide), by decide, by decide⟩

/-! ### C15 -/

/-- C15 fails on the code.  `__bam_stkrel` resets `csp` and leaves every entry
as it was, with its page reference and its lock handle.  After the search for
key 7 in the sample tree, which fetched the root (page 1) and the leaf (page 3)
and released the root, a first `__bam_stkrel` releases the pin of page 3 and
the lock 2 and leaves them in the entry at `sp`; a second one issued right
after it releases page 3 and lock 2 again. -/
theorem bam_stkrel_twice_releases_again :
    (∀ nolocks s, (__bam_stkrel nolocks s).2.stk = s.stk ∧ (__bam_stkrel nolocks s).2.csp = 0) ∧
    ∃ r, __bam_search (sample_env 7 1 false sample_tree) sample_flags 0 false 2 sample_state =
        some r ∧ r.ret = 0 ∧
      terminal r.st = some ⟨some (sample_leaf_of 3 [5, 7] []), 2, 2, db_lockmode_t.DB_LOCK_READ⟩ ∧
      terminal (__bam_stkrel false r.st).2 =
        some ⟨some (sample_leaf_of 3 [5, 7] []), 2, 2, db_lockmode_t.DB_LOCK_READ⟩ ∧
      (__bam_stkrel false r.st).2.trace = r.st.trace ++ [Event.fput 3, Event.tlput 2] ∧
      (__bam_stkrel false (__bam_stkrel false r.st).2).2.trace =
        r.st.trace ++ [Event.fput 3, Event.tlput 2] ++ [Event.fput 3, Event.tlput 2] ∧
      fgets (__bam_stkrel false (__bam_stkrel false r.st).2).2.trace = [1, 3] ∧
      fputs (__bam_stkrel false (__bam_stkrel false r.st).2).2.trace = [1, 3, 3] := by
  refine ⟨fun nolocks s => ⟨(stkrel_state nolocks s).2.2.1, rfl⟩, _, rfl, ?_⟩
  decide

/-! ### C16 -/

/-- C16.  On a well-formed tree served by the cache, searched without
`S_PARENT` and without stacking forced at the root, a search that returns 0
ends on a leaf page whose entry records the mode `DB_LOCK_WRITE` exactly when
`S_WRITE` is set; that mode is the one in which the lock of the entry was
requested for the leaf, and every lock requested for a page that is not a leaf
was requested in read mode.  When the root is the leaf, the calls are the read
lock and the fetch, followed with `S_WRITE` by the release of the page and of
that lock, the write lock and a second fetch. -/
theorem bam_search_lock_modes (E : Env) (f : Flags) (stop : Int) (want_recno : Bool)
    (fuel : Nat) (s0 : State) (r : Result) (T : Nat → Option PAGE) (n : Nat)
    (hw : wf_tree T n E.bt_root) (hlv : wf_levels E.LEAFLEVEL T n E.bt_root)
    (hsv : serves E T) (hpar : f.S_PARENT = false)
    (hforce : (E.DB_BT_RECNUM && f.S_STACK) = false) (hs : 0 < s0.stk.length)
    (hr : __bam_search E f stop want_recno fuel s0 = some r) (hret : r.ret = 0) :
    ∃ evs leaf indx lock mode, r.st.trace = s0.trace ++ evs ∧
      terminal r.st = some ⟨some leaf, indx, lock, mode⟩ ∧
      leaf.type = PageType.P_LBTREE ∧ T leaf.pgno = some leaf ∧
      (mode = db_lockmode_t.DB_LOCK_WRITE ↔ f.S_WRITE = true) ∧
      (∃ c o, Event.lget c o leaf.pgno mode (some lock) ∈ evs) ∧
      (∀ c o pg md got h, Event.lget c o pg md got ∈ evs → T pg = some h →
        h.type ≠ PageType.P_LBTREE → md = db_lockmode_t.DB_LOCK_READ) ∧
      (n = 0 → f.S_WRITE = false →
        evs = [Event.lget false LOCK_INVALID E.bt_root db_lockmode_t.DB_LOCK_READ (some lock),
          Event.fget E.bt_root true]) ∧
      (n = 0 → f.S_WRITE = true → ∃ l1,
        evs = [Event.lget false LOCK_INVALID E.bt_root db_lockmode_t.DB_LOCK_READ (some l1),
          Event.fget E.bt_root true, Event.fput E.bt_root, Event.lput l1,
          Event.lget false l1 E.bt_root db_lockmode_t.DB_LOCK_WRITE (some lock),
          Event.fget E.bt_root true]) := by
  have hinv := search_loop_inv E f stop want_recno
    (fun x => stack_ok x.st ∧ ∃ m, m ≤ n ∧ wf_tree T m x.h.pgno ∧
      wf_levels E.LEAFLEVEL T m x.h.pgno ∧ T x.h.pgno = some x.h ∧
      (x.stack = true → m = 0) ∧
      (m = 0 → (x.lock_mode = db_lockmode_t.DB_LOCK_WRITE ↔ f.S_WRITE = true)) ∧
      ∃ evs, x.st.trace = s0.trace ++ evs ∧
        (∃ c o, Event.lget c o x.h.pgno x.lock_mode (some x.lock) ∈ evs) ∧
        (∀ c o pg md got h, Event.lget c o pg md got ∈ evs → T pg = some h →
          h.type ≠ PageType.P_LBTREE → md = db_lockmode_t.DB_LOCK_READ) ∧
        (n = 0 → f.S_WRITE = false →
          evs = [Event.lget false LOCK_INVALID E.bt_root db_lockmode_t.DB_LOCK_READ
            (some x.lock), Event.fget E.bt_root true]) ∧
        (n = 0 → f.S_WRITE = true → ∃ l1,
          evs = [Event.lget false LOCK_INVALID E.bt_root db_lockmode_t.DB_LOCK_READ (some l1),
            Event.fget E.bt_root true, Event.fput E.bt_root, Event.lput l1,
            Event.lget false l1 E.bt_root db_lockmode_t.DB_LOCK_WRITE (some x.lock),
            Event.fget E.bt_root true]))
    (fun r => r.ret = 0 → ∃ evs leaf indx lock mode, r.st.trace = s0.trace ++ evs ∧
      terminal r.st = some ⟨some leaf, indx, lock, mode⟩ ∧
      leaf.type = PageType.P_LBTREE ∧ T leaf.pgno = some leaf ∧
      (mode = db_lockmode_t.DB_LOCK_WRITE ↔ f.S_WRITE = true) ∧
      (∃ c o, Event.lget c o leaf.pgno mode (some lock) ∈ evs) ∧
      (∀ c o pg md got h, Event.lget c o pg md got ∈ evs → T pg = some h →
        h.type ≠ PageType.P_LBTREE → md = db_lockmode_t.DB_LOCK_READ) ∧
      (n = 0 → f.S_WRITE = false →
        evs = [Event.lget false LOCK_INVALID E.bt_root db_lockmode_t.DB_LOCK_READ (some lock),
          Event.fget E.bt_root true]) ∧
      (n = 0 → f.S_WRITE = true → ∃ l1,
        evs = [Event.lget false LOCK_INVALID E.bt_root db_lockmode_t.DB_LOCK_READ (some l1),
          Event.fget E.bt_root true, Event.fput E.bt_root, Event.lput l1,
          Event.lget false l1 E.bt_root db_lockmode_t.DB_LOCK_WRITE (some lock),
          Event.fget E.bt_root true]))
    (by
      intro x ⟨hsx, m, hmn, hwx, hlx, hTx, hstk, hmode, evs, ht, hown, hread, hz1, hz2⟩
      have hlen : (x.st.stk.take x.st.csp).length = x.st.csp := by
        rw [List.length_take]; have := hsx.2; omega
      constructor
      · intro r hx hret
        obtain ⟨indx, k1, _, k3, k4, k5⟩ :=
          search_page_success E f stop want_recno x r hsx hx hret
        have hleaf : x.h.type = PageType.P_LBTREE := by
          rcases k5 with k5 | k5
          · exact k5
          · rw [hpar] at k5; cases k5.2.2.1
        have hm0 : m = 0 := (wf_tree_height T m x.h.pgno x.h hTx hwx).1 hleaf
        refine ⟨evs, x.h, indx, x.lock, x.lock_mode, by rw [k4, ht], ?_, hleaf, hTx, hmode hm0,
          hown, hread, hz1, hz2⟩
        unfold terminal
        rw [k1]
        exact getElem?_of_take_succ _ _ _ _ k3 hlen
      · intro x1 hx
        obtain ⟨hint, g1, g2, _, _, g5, hcase⟩ := search_page_step E f stop want_recno x x1 hsx hx
        have hm : m ≠ 0 := fun h0 =>
          hint ((wf_tree_height T m x.h.pgno x.h hTx hwx).2 h0)
        obtain ⟨m', rfl⟩ : ∃ m', m = m' + 1 := ⟨m - 1, by omega⟩
        rcases hcase with ⟨c0, _⟩ | ⟨_, c1, c2, _, _, c6⟩
        · exact absurd (hstk c0) hm
        · obtain ⟨d1, d2, d3, d4⟩ := search_page_child E T m' x x1.h hsv hTx hwx _ g1
          obtain ⟨v1, _, v3⟩ := wf_levels_node E.LEAFLEVEL T m' x.h.pgno x.h hTx hlx
          have hk := keep_next_leaf E f stop x.h m' hpar v1
          refine ⟨g5, m', by omega, d3, by rw [d2]; exact v3 _ d4, d1, ?_, ?_,
            _, by rw [c6, ht, List.append_assoc], ?_, ?_, ?_, ?_⟩
          · rw [c1]; exact hk.1
          · intro h0
            rw [c2, hk.2 h0]
            unfold next_mode
            cases f.S_WRITE <;> simp
          · refine ⟨true, x.lock, ?_⟩
            rw [d2, c2]
            simp
          · intro c o pg md got h hmem hT hty
            rcases List.mem_append.1 hmem with hmem | hmem
            · exact hread c o pg md got h hmem hT hty
            · simp only [List.mem_cons, List.mem_singleton, List.not_mem_nil, or_false,
                false_or, reduceCtorEq, Event.lget.injEq] at hmem
              obtain ⟨_, _, e3, e4, _⟩ := hmem
              rw [e3, ← d2, d1] at hT
              injection hT with hT
              subst hT
              have hm' : m' ≠ 0 := fun h0 =>
                hty ((wf_tree_height T m' x1.h.pgno x1.h d1 d3).2 h0)
              have hkf : keep_next E f stop x.h = false := by
                cases hkk : keep_next E f stop x.h
                · rfl
                · exact absurd (hk.1 hkk) hm'
              rw [e4, hkf]
              rfl
          · intro h0; omega
          · intro h0; omega)
  unfold __bam_search at hr
  split at hr
  · rename_i r0 h0
    injection hr with hr; subst hr
    exact absurd hret (search_root_inl _ _ _ _ _ h0).1
  · rename_i x0 h0
    obtain ⟨q1, q2, _, q4⟩ := search_root_step E f stop s0 x0 h0
    have hpost := hinv fuel x0 r (by
      refine ⟨⟨by rw [q1]; exact hs, by rw [q2]; omega⟩, n, Nat.le_refl _, ?_⟩
      rcases q4 with ⟨b1, b2, b3, g, _, _, _, ht⟩ | ⟨_, b1, b2, h1, l1, g1, b3, g2, _, _, _, _, ht⟩
      · obtain ⟨p1, p2⟩ := served_page E T n _ x0.h hsv hw _ g
        rw [hforce] at b1 b2 b3 ht
        have hnw : ¬ (f.S_WRITE = true ∧ x0.h.level = E.LEAFLEVEL) := by
          intro hc
          exact b3 ⟨rfl, Or.inr hc⟩
        have hlev := wf_levels_height E.LEAFLEVEL T n x0.h.pgno x0.h p1 (by rw [p2]; exact hlv)
        refine ⟨by rw [p2]; exact hw, by rw [p2]; exact hlv, p1, ?_, ?_, _, ht, ?_, ?_, ?_, ?_⟩
        · intro h; rw [b1] at h; cases h
        · intro hn0
          rw [b2]
          have : ¬ f.S_WRITE = true := fun hwr => hnw ⟨hwr, by rw [hlev, hn0]; rfl⟩
          simp [root_mode, this]
        · exact ⟨false, LOCK_INVALID, by rw [p2, b2]; simp⟩
        · intro c o pg md got h hmem _ _
          simp only [List.mem_cons, List.mem_singleton, List.not_mem_nil, or_false,
            reduceCtorEq, Event.lget.injEq] at hmem
          rw [hmem.2.2.2.1]
          rfl
        · intro _ _; rfl
        · intro hn0 hwr
          exact absurd ⟨hwr, by rw [hlev, hn0]; rfl⟩ hnw
      · obtain ⟨p1, p2⟩ := served_page E T n _ x0.h hsv hw _ g2
        obtain ⟨p3, p4⟩ := served_page E T n _ h1 hsv hw _ g1
        have hlev1 := wf_levels_height E.LEAFLEVEL T n h1.pgno h1 p3 (by rw [p4]; exact hlv)
        have hcond : f.S_WRITE = true ∧ h1.level = E.LEAFLEVEL := by
          rcases b3 with b3 | b3
          · rw [hpar] at b3; cases b3.1
          · exact b3
        have hn0 : n = 0 := by have := hcond.2; omega
        have hleaf : x0.h.type = PageType.P_LBTREE :=
          (wf_tree_height T n x0.h.pgno x0.h p1 (by rw [p2]; exact hw)).2 hn0
        refine ⟨by rw [p2]; exact hw, by rw [p2]; exact hlv, p1, fun _ => hn0, ?_, _, ht,
          ?_, ?_, ?_, ?_⟩
        · intro _; rw [b2]; simp [hcond.1]
        · exact ⟨false, l1, by rw [p2, b2]; simp⟩
        · intro c o pg md got h hmem hT hty
          simp only [List.mem_cons, List.mem_singleton, List.not_mem_nil, or_false,
            reduceCtorEq, Event.lget.injEq, false_or] at hmem
          rcases hmem with hmem | hmem
          · exact hmem.2.2.2.1
          · exfalso
            rw [hmem.2.2.1, ← p2, p1] at hT
            injection hT with hT
            subst hT
            exact hty hleaf
        · intro _ hwr
          rw [hcond.1] at hwr; cases hwr
        · intro _ _
          exact ⟨l1, by rw [p4]⟩) hr
    exact hpost hret

theorem bam_search_lock_modes_witness :
    wf_tree (store sample_tree) 1 (sample_env 7 1 false sample_tree).bt_root ∧
    wf_levels (sample_env 7 1 false sample_tree).LEAFLEVEL (store sample_tree) 1
      (sample_env 7 1 false sample_tree).bt_root ∧
    serves (sample_env 7 1 false sample_tree) (store sample_tree) ∧
    ({ sample_flags with S_WRITE := true } : Flags).S_PARENT = false ∧
    ((sample_env 7 1 false sample_tree).DB_BT_RECNUM &&
      ({ sample_flags with S_WRITE := true } : Flags).S_STACK) = false ∧
    0 < sample_state.stk.length ∧
    __bam_search (sample_env 7 1 false sample_tree) { sample_flags with S_WRITE := true } 0 false 2
        sample_state =
      some (sample_search (sample_env 7 1 false sample_tree) { sample_flags with S_WRITE := true }
        0 false 2) ∧
    (sample_search (sample_env 7 1 false sample_tree) { sample_flags with S_WRITE := true }
      0 false 2).ret = 0 ∧
    (∃ evs leaf indx lock mode,
      (sample_search (sample_env 7 1 false sample_tree) { sample_flags with S_WRITE := true }
        0 false 2).st.trace = sample_state.trace ++ evs ∧
      terminal (sample_search (sample_env 7 1 false sample_tree)
        { sample_flags with S_WRITE := true } 0 false 2).st = some ⟨some leaf, indx, lock, mode⟩ ∧
      leaf.type = PageType.P_LBTREE ∧ store sample_tree leaf.pgno = some leaf ∧
      (mode = db_lockmode_t.DB_LOCK_WRITE ↔
        ({ sample_flags with S_WRITE := true } : Flags).S_WRITE = true) ∧
      (∃ c o, Event.lget c o leaf.pgno mode (some lock) ∈ evs) ∧
      (∀ c o pg md got h, Event.lget c o pg md got ∈ evs → store sample_tree pg = some h →
        h.type ≠ PageType.P_LBTREE → md = db_lockmode_t.DB_LOCK_READ) ∧
      (1 = 0 → ({ sample_flags with S_WRITE := true } : Flags).S_WRITE = false →
        evs = [Event.lget false LOCK_INVALID (sample_env 7 1 false sample_tree).bt_root
            db_lockmode_t.DB_LOCK_READ (some lock),
          Event.fget (sample_env 7 1 false sample_tree).bt_root true]) ∧
      (1 = 0 → ({ sample_flags with S_WRITE := true } : Flags).S_WRITE = true → ∃ l1,
        evs = [Event.lget false LOCK_INVALID (sample_env 7 1 false sample_tree).bt_root
            db_lockmode_t.DB_LOCK_READ (some l1),
          Event.fget (sample_env 7 1 false sample_tree).bt_root true,
          Event.fput (sample_env 7 1 false sample_tree).bt_root, Event.lput l1,
          Event.lget false l1 (sample_env 7 1 false sample_tree).bt_root
            db_lockmode_t.DB_LOCK_WRITE (some lock),
          Event.fget (sample_env 7 1 false sample_tree).bt_root true])) ∧
    (sample_search (sample_env 7 1 false sample_tree) { sample_flags with S_WRITE := true }
        0 false 2).st.trace =
      [Event.lget false 0 1 db_lockmode_t.DB_LOCK_READ (some 1), Event.fget 1 true,
        Event.fput 1, Event.lget true 1 3 db_lockmode_t.DB_LOCK_WRITE (some 2),
        Event.fget 3 true] ∧
    (sample_search (sample_env 7 1 false sample_tree) sample_flags 0 false 2).st.trace =
      [Event.lget false 0 1 db_lockmode_t.DB_LOCK_READ (some 1), Event.fget 1 true,
        Event.fput 1, Event.lget true 1 3 db_lockmode_t.DB_LOCK_READ (some 2),
        Event.fget 3 true] ∧
    (sample_search (sample_env 2 1 false [sample_leaf]) { sample_flags with S_WRITE := true }
        0 false 1).st.trace =
      [Event.lget false 0 1 db_lockmode_t.DB_LOCK_READ (some 1), Event.fget 1 true,
        Event.fput 1, Event.lput 1, Event.lget false 1 1 db_lockmode_t.DB_LOCK_WRITE (some 2),
        Event.fget 1 true] ∧
    (terminal (sample_search (sample_env 2 1 false [sample_leaf])
        { sample_flags with S_WRITE := true } 0 false 1).st).map (fun e => e.lock_mode) =
      some db_lockmode_t.DB_LOCK_WRITE :=
  ⟨by decide, by decide, sample_env_serves 7 1 false sample_tree, by decide, by decide, by decide,
    rfl, by decide,
    bam_search_lock_modes (sample_env 7 1 false sample_tree)
      { sample_flags with S_WRITE := true } 0 false 2 sample_state _ (store sample_tree) 1
      (by decide) (by decide) (sample_env_serves 7 1 false sample_tree) (by decide) (by decide)
      (by decide) rfl (by decide),
    by decide, by decide, by decide, by decide⟩

/-! ### C17 -/

/-- C17 fails with `S_STACK` alone and with record numbers alone: the root of
the sample tree is fetched, released and its lock given up by coupling, and
the stack returned holds the leaf only. -/
theorem bam_search_stack_flag_alone :
    (∃ r, __bam_search (sample_env 7 1 false sample_tree) { sample_flags with S_STACK := true }
        0 false 2 sample_state = some r ∧ r.ret = 0 ∧ r.st.csp = 0 ∧
      (r.st.stk.take (r.st.csp + 1)).map (fun e => e.page.map (fun p => p.pgno)) = [some 3] ∧
      fgets r.st.trace = [1, 3] ∧ fputs r.st.trace = [1] ∧ still_held r.st.trace = [2]) ∧
    (∃ r, __bam_search (sample_env 7 1 true sample_tree) sample_flags
        0 false 2 sample_state = some r ∧ r.ret = 0 ∧ r.st.csp = 0 ∧
      (r.st.stk.take (r.st.csp + 1)).map (fun e => e.page.map (fun p => p.pgno)) = [some 3] ∧
      fgets r.st.trace = [1, 3] ∧ fputs r.st.trace = [1] ∧ still_held r.st.trace = [2]) := by
  refine ⟨⟨_, rfl, ?_⟩, ⟨_, rfl, ?_⟩⟩ <;> decide

/-- C17 as the code has it.  When the tree tracks record numbers and `S_STACK`
is set, a search that returns 0 leaves the whole descent in the stack: the
entries `sp .. csp` hold, in order, the page fetched for the root and then the
page fetched for the child of the slot recorded in the entry before; there is
one entry for each fetch, no page was released, no lock was handed to `__LPUT`
or `__TLPUT`, and the locks granted and still held are the locks of the
entries, in order, each a valid handle. -/
theorem bam_search_full_stack (E : Env) (f : Flags) (stop : Int) (want_recno : Bool)
    (fuel : Nat) (s0 : State) (r : Result)
    (hforce : (E.DB_BT_RECNUM && f.S_STACK) = true) (hs : 0 < s0.stk.length)
    (hr : __bam_search E f stop want_recno fuel s0 = some r) (hret : r.ret = 0) :
    ∃ evs, r.st.trace = s0.trace ++ evs ∧
      (r.st.stk.take (r.st.csp + 1)).length = r.st.csp + 1 ∧
      descent E s0.nfget E.bt_root (r.st.stk.take (r.st.csp + 1)) ∧
      (fgets evs).length = r.st.csp + 1 ∧ fputs evs = [] ∧
      lputs evs = [] ∧ tlputs evs = [] ∧
      still_held evs = (r.st.stk.take (r.st.csp + 1)).map (fun e => e.lock) ∧
      (∀ e ∈ r.st.stk.take (r.st.csp + 1), e.lock ≠ LOCK_INVALID) := by
  have hinv := search_loop_inv E f stop want_recno
    (fun x => stack_ok x.st ∧ x.stack = true ∧ x.lock ≠ LOCK_INVALID ∧
      x.st.nfget = s0.nfget + (x.st.csp + 1) ∧
      descent E s0.nfget E.bt_root (x.st.stk.take x.st.csp) ∧
      E.memp_fget (s0.nfget + x.st.csp) (next_pg E.bt_root (x.st.stk.take x.st.csp)) = (0, x.h) ∧
      (∀ e ∈ x.st.stk.take x.st.csp, e.lock ≠ LOCK_INVALID) ∧
      ∃ evs, x.st.trace = s0.trace ++ evs ∧
        (fgets evs).length = x.st.csp + 1 ∧ fputs evs = [] ∧ lputs evs = [] ∧ tlputs evs = [] ∧
        still_held evs = (x.st.stk.take x.st.csp).map (fun e => e.lock) ++ [x.lock])
    (fun r => r.ret = 0 → ∃ evs, r.st.trace = s0.trace ++ evs ∧
      (r.st.stk.take (r.st.csp + 1)).length = r.st.csp + 1 ∧
      descent E s0.nfget E.bt_root (r.st.stk.take (r.st.csp + 1)) ∧
      (fgets evs).length = r.st.csp + 1 ∧ fputs evs = [] ∧
      lputs evs = [] ∧ tlputs evs = [] ∧
      still_held evs = (r.st.stk.take (r.st.csp + 1)).map (fun e => e.lock) ∧
      (∀ e ∈ r.st.stk.take (r.st.csp + 1), e.lock ≠ LOCK_INVALID))
    (by
      intro x ⟨hsx, hstk, hlk, hnf, hd, hfx, hlocks, evs, ht, a1, a2, a3, a4, a5⟩
      have hlen : (x.st.stk.take x.st.csp).length = x.st.csp := by
        rw [List.length_take]; have := hsx.2; omega
      constructor
      · intro r hx hret
        obtain ⟨indx, k1, k2, k3, k4, _⟩ := search_page_success E f stop want_recno x r hsx hx hret
        refine ⟨evs, by rw [k4, ht], ?_, ?_, by rw [k1]; exact a1, a2, a3, a4, ?_, ?_⟩
        · rw [k1, List.length_take]; omega
        · rw [k1, k3]
          exact descent_snoc E x.h indx x.lock x.lock_mode _ _ _ hd (by rw [hlen]; exact hfx)
        · rw [k1, k3, a5]; simp
        · rw [k1, k3]
          intro e he
          rcases List.mem_append.1 he with he | he
          · exact hlocks e he
          · simp only [List.mem_singleton] at he
            subst he
            exact hlk
      · intro x1 hx
        obtain ⟨_, g1, g2, _, g4, g5, hcase⟩ := search_page_step E f stop want_recno x x1 hsx hx
        rcases hcase with ⟨_, _, c0, _, c1, c2, c3⟩ | ⟨c0, _⟩
        · have hlen1 : (x.st.stk.take x.st.csp ++
              [(⟨some x.h, pick_indx E x.h, x.lock, x.lock_mode⟩ : EPG)]).length = x.st.csp + 1 := by
            rw [List.length_append, hlen]; rfl
          refine ⟨g5, c0, by rw [g2]; exact Nat.succ_ne_zero _, by rw [g4, hnf, c1]; omega, ?_, ?_, ?_,
            _, by rw [c3, ht, List.append_assoc], ?_, ?_, ?_, ?_, ?_⟩
          · rw [c1, c2]
            exact descent_snoc E x.h _ x.lock x.lock_mode _ _ _ hd (by rw [hlen]; exact hfx)
          · rw [c1, c2, next_pg_snoc]
            rw [hnf] at g1
            exact g1
          · rw [c1, c2]
            intro e he
            rcases List.mem_append.1 he with he | he
            · exact hlocks e he
            · simp only [List.mem_singleton] at he
              subst he
              exact hlk
          · rw [fgets_append, List.length_append, a1, c1]; rfl
          · rw [fputs_append, a2]; rfl
          · rw [lputs_append, a3]; rfl
          · rw [tlputs_append, a4]; rfl
          · rw [still_held_stacked, a5, c1, c2]; simp
        · rw [hstk] at c0; cases c0)
  unfold __bam_search at hr
  split at hr
  · rename_i r0 h0
    injection hr with hr; subst hr
    exact absurd hret (search_root_inl _ _ _ _ _ h0).1
  · rename_i x0 h0
    obtain ⟨q1, q2, _, q4⟩ := search_root_step E f stop s0 x0 h0
    have hpost := hinv fuel x0 r (by
      rcases q4 with ⟨b1, _, _, g, b2, _, b3, ht⟩ | ⟨b1, _⟩
      · refine ⟨⟨by rw [q1]; exact hs, by rw [q2]; omega⟩, by rw [b1, hforce],
          by rw [b2]; exact Nat.succ_ne_zero _, by rw [b3, q2], ?_, ?_, ?_, _, ht, ?_, rfl, rfl, rfl,
          ?_⟩
        · rw [q2]; simp [descent]
        · rw [q2]; simpa [next_pg] using g
        · rw [q2]; simp
        · rw [q2]; rfl
        · rw [q2]; simp [still_held, hold_step]
      · rw [hforce] at b1; cases b1) hr
    exact hpost hret

theorem bam_search_full_stack_witness :
    ((sample_env 7 1 true sample_tree).DB_BT_RECNUM &&
      ({ sample_flags with S_STACK := true } : Flags).S_STACK) = true ∧
    0 < sample_state.stk.length ∧
    __bam_search (sample_env 7 1 true sample_tree) { sample_flags with S_STACK := true } 0 false 2
        sample_state =
      some (sample_search (sample_env 7 1 true sample_tree) { sample_flags with S_STACK := true }
        0 false 2) ∧
    (sample_search (sample_env 7 1 true sample_tree) { sample_flags with S_STACK := true }
      0 false 2).ret = 0 ∧
    (∃ evs,
      (sample_search (sample_env 7 1 true sample_tree) { sample_flags with S_STACK := true }
        0 false 2).st.trace = sample_state.trace ++ evs ∧
      ((sample_search (sample_env 7 1 true sample_tree) { sample_flags with S_STACK := true }
          0 false 2).st.stk.take
        ((sample_search (sample_env 7 1 true sample_tree) { sample_flags with S_STACK := true }
          0 false 2).st.csp + 1)).length =
        (sample_search (sample_env 7 1 true sample_tree) { sample_flags with S_STACK := true }
          0 false 2).st.csp + 1 ∧
      descent (sample_env 7 1 true sample_tree) sample_state.nfget
        (sample_env 7 1 true sample_tree).bt_root
        ((sample_search (sample_env 7 1 true sample_tree) { sample_flags with S_STACK := true }
          0 false 2).st.stk.take
        ((sample_search (sample_env 7 1 true sample_tree) { sample_flags with S_STACK := true }
          0 false 2).st.csp + 1)) ∧
      (fgets evs).length =
        (sample_search (sample_env 7 1 true sample_tree) { sample_flags with S_STACK := true }
          0 false 2).st.csp + 1 ∧
      fputs evs = [] ∧ lputs evs = [] ∧ tlputs evs = [] ∧
      still_held evs =
        ((sample_search (sample_env 7 1 true sample_tree) { sample_flags with S_STACK := true }
          0 false 2).st.stk.take
        ((sample_search (sample_env 7 1 true sample_tree) { sample_flags with S_STACK := true }
          0 false 2).st.csp + 1)).map (fun e => e.lock) ∧
      (∀ e ∈ (sample_search (sample_env 7 1 true sample_tree) { sample_flags with S_STACK := true }
          0 false 2).st.stk.take
        ((sample_search (sample_env 7 1 true sample_tree) { sample_flags with S_STACK := true }
          0 false 2).st.csp + 1), e.lock ≠ LOCK_INVALID)) ∧
    ((sample_search (sample_env 7 1 true sample_tree) { sample_flags with S_STACK := true }
        0 false 2).st.stk.take
      ((sample_search (sample_env 7 1 true sample_tree) { sample_flags with S_STACK := true }
        0 false 2).st.csp + 1)).map (fun e => (e.page.map (fun p => p.pgno), e.indx, e.lock)) =
      [(some 1, 1, 1), (some 3, 2, 2)] ∧
    still_held (sample_search (sample_env 7 1 true sample_tree)
      { sample_flags with S_STACK := true } 0 false 2).st.trace = [1, 2] :=
  ⟨by decide, by decide, rfl, by decide,
    bam_search_full_stack (sample_env 7 1 true sample_tree)
      { sample_flags with S_STACK := true } 0 false 2 sample_state _ (by decide) (by decide) rfl
      (by decide),
    by decide, by decide⟩

/-! ### C18 -/

/-- C18 as the code has it.  On a well-formed tree served by the cache,
searched with `S_PARENT` and a stop level between the leaf level and the level
of the root such that `stop + 1` fits a `u_int8_t`, a search that returns 0
ends on a page of the tree whose level is `stop`.  When that is the level of
the root the page is the root, entered at `sp`; otherwise the entry before the
terminal one holds the parent: a page of the tree one level higher whose
recorded slot points to the terminal page. -/
theorem bam_search_stops_at_level (E : Env) (f : Flags) (stop : Int) (want_recno : Bool)
    (fuel : Nat) (s0 : State) (r : Result) (T : Nat → Option PAGE) (n : Nat)
    (hw : wf_tree T n E.bt_root) (hlv : wf_levels E.LEAFLEVEL T n E.bt_root)
    (hsv : serves E T) (hpar : f.S_PARENT = true)
    (hlo : (E.LEAFLEVEL : Int) ≤ stop) (hhi : stop ≤ (E.LEAFLEVEL : Int) + n)
    (h8 : stop + 1 < 256) (hs : 0 < s0.stk.length)
    (hr : __bam_search E f stop want_recno fuel s0 = some r) (hret : r.ret = 0) :
    ∃ h indx lock mode, terminal r.st = some ⟨some h, indx, lock, mode⟩ ∧
      T h.pgno = some h ∧ (h.level : Int) = stop ∧
      (stop = (E.LEAFLEVEL : Int) + n → h.pgno = E.bt_root ∧ r.st.csp = 0) ∧
      (stop < (E.LEAFLEVEL : Int) + n → ∃ p pi pl pm, 0 < r.st.csp ∧
        r.st.stk[r.st.csp - 1]? = some ⟨some p, pi, pl, pm⟩ ∧ T p.pgno = some p ∧
        child p pi = h.pgno ∧ p.level = h.level + 1) := by
  have hinv := search_loop_inv E f stop want_recno
    (fun x => stack_ok x.st ∧ ∃ m, m ≤ n ∧ wf_tree T m x.h.pgno ∧
      wf_levels E.LEAFLEVEL T m x.h.pgno ∧ T x.h.pgno = some x.h ∧
      stop ≤ (E.LEAFLEVEL : Int) + m ∧
      (x.stack = true ∨ stop + 1 < (E.LEAFLEVEL : Int) + m) ∧
      (m = n → x.h.pgno = E.bt_root ∧ x.st.csp = 0) ∧
      (stop = (E.LEAFLEVEL : Int) + m → m < n → ∃ p pi pl pm, 0 < x.st.csp ∧
        x.st.stk[x.st.csp - 1]? = some ⟨some p, pi, pl, pm⟩ ∧ T p.pgno = some p ∧
        child p pi = x.h.pgno ∧ p.level = x.h.level + 1))
    (fun r => r.ret = 0 → ∃ h indx lock mode, terminal r.st = some ⟨some h, indx, lock, mode⟩ ∧
      T h.pgno = some h ∧ (h.level : Int) = stop ∧
      (stop = (E.LEAFLEVEL : Int) + n → h.pgno = E.bt_root ∧ r.st.csp = 0) ∧
      (stop < (E.LEAFLEVEL : Int) + n → ∃ p pi pl pm, 0 < r.st.csp ∧
        r.st.stk[r.st.csp - 1]? = some ⟨some p, pi, pl, pm⟩ ∧ T p.pgno = some p ∧
        child p pi = h.pgno ∧ p.level = h.level + 1))
    (by
      intro x ⟨hsx, m, hmn, hwx, hlx, hTx, hstop, hstk, hroot, hlink⟩
      have hlen : (x.st.stk.take x.st.csp).length = x.st.csp := by
        rw [List.length_take]; have := hsx.2; omega
      have hlevx := wf_levels_height E.LEAFLEVEL T m x.h.pgno x.h hTx hlx
      constructor
      · intro r hx hret
        obtain ⟨indx, k1, _, k3, _, k5⟩ :=
          search_page_success E f stop want_recno x r hsx hx hret
        have hlev : (x.h.level : Int) = stop := by
          rcases k5 with k5 | k5
          · have hm0 : m = 0 := (wf_tree_height T m x.h.pgno x.h hTx hwx).1 k5
            rw [hlevx, hm0]
            rw [hm0] at hstop
            push_cast at hstop ⊢
            omega
          · exact k5.2.2.2.1.symm
        have hsm : stop = (E.LEAFLEVEL : Int) + m := by
          rw [← hlev, hlevx]; push_cast; rfl
        refine ⟨x.h, indx, x.lock, x.lock_mode, ?_, hTx, hlev, ?_, ?_⟩
        · unfold terminal
          rw [k1]
          exact getElem?_of_take_succ _ _ _ _ k3 hlen
        · intro h1
          have hm : m = n := by omega
          rw [k1]
          exact hroot hm
        · intro h1
          have hm : m < n := by omega
          obtain ⟨p, pi, pl, pm, l1, l2, l3, l4, l5⟩ := hlink hsm hm
          refine ⟨p, pi, pl, pm, by rw [k1]; exact l1, ?_, l3, l4, l5⟩
          rw [k1, getElem?_of_take_succ_lt _ _ _ _ _ k3 hsx.2 (by omega)]
          exact l2
      · intro x1 hx
        obtain ⟨hint, g1, _, _, _, g5, hcase⟩ := search_page_step E f stop want_recno x x1 hsx hx
        have hm : m ≠ 0 := fun h0 =>
          hint ((wf_tree_height T m x.h.pgno x.h hTx hwx).2 h0)
        obtain ⟨m', rfl⟩ : ∃ m', m = m' + 1 := ⟨m - 1, by omega⟩
        obtain ⟨d1, d2, d3, d4⟩ := search_page_child E T m' x x1.h hsv hTx hwx _ g1
        obtain ⟨v1, v2, v3⟩ := wf_levels_node E.LEAFLEVEL T m' x.h.pgno x.h hTx hlx
        have hlv1 : wf_levels E.LEAFLEVEL T m' x1.h.pgno := by rw [d2]; exact v3 _ d4
        have hlev1 := wf_levels_height E.LEAFLEVEL T m' x1.h.pgno x1.h d1 hlv1
        refine ⟨g5, m', by omega, d3, hlv1, d1, ?_⟩
        rcases hcase with ⟨_, c1, c2, _, c4, c5, _⟩ | ⟨c0, c1, _, c3, c4, _⟩
        · have hne : stop ≠ (x.h.level : Int) := fun h => c1 ⟨hpar, h⟩
          rw [v1] at hne
          push_cast at hne hstop
          refine ⟨by omega, Or.inl c2, fun h => by omega, ?_⟩
          intro _ _
          refine ⟨x.h, pick_indx E x.h, x.lock, x.lock_mode, by omega, ?_, hTx, d2.symm,
            by rw [hlev1, v1]; omega⟩
          rw [c4, Nat.add_sub_cancel]
          exact getElem?_of_take_succ _ _ _ _ c5 hlen
        · have hlt : stop + 1 < (E.LEAFLEVEL : Int) + (m' + 1 : Nat) := by
            rcases hstk with h | h
            · rw [c0] at h; cases h
            · exact h
          push_cast at hlt
          have hk := keep_next_parent E f stop x.h m' hpar v1 v2 hlo h8
          refine ⟨by omega, ?_, fun h => by omega, fun h => by omega⟩
          cases hkk : keep_next E f stop x.h
          · right
            by_contra hcon
            have := hk.2 (by omega)
            rw [hkk] at this
            cases this
          · left; rw [c1]; exact hkk)
  unfold __bam_search at hr
  split at hr
  · rename_i r0 h0
    injection hr with hr; subst hr
    exact absurd hret (search_root_inl _ _ _ _ _ h0).1
  · rename_i x0 h0
    obtain ⟨q1, q2, _, q4⟩ := search_root_step E f stop s0 x0 h0
    have hpost := hinv fuel x0 r (by
      refine ⟨⟨by rw [q1]; exact hs, by rw [q2]; omega⟩, n, Nat.le_refl _, ?_⟩
      have hx0 : T x0.h.pgno = some x0.h ∧ x0.h.pgno = E.bt_root := by
        rcases q4 with ⟨_, _, _, g, _⟩ | ⟨_, _, _, h1, l1, _, _, g2, _⟩
        · exact served_page E T n _ x0.h hsv hw _ g
        · exact served_page E T n _ x0.h hsv hw _ g2
      obtain ⟨p1, p2⟩ := hx0
      have hlev := wf_levels_height E.LEAFLEVEL T n x0.h.pgno x0.h p1 (by rw [p2]; exact hlv)
      refine ⟨by rw [p2]; exact hw, by rw [p2]; exact hlv, p1, hhi, ?_, fun _ => ⟨p2, q2⟩,
        fun _ h => absurd h (Nat.lt_irrefl _)⟩
      rcases q4 with ⟨b1, _, b3, _⟩ | ⟨_, b1, _⟩
      · cases hfc : (E.DB_BT_RECNUM && f.S_STACK)
        · right
          rw [hfc] at b3
          by_contra hcon
          apply b3
          refine ⟨rfl, Or.inl ⟨hpar, ?_⟩⟩
          rw [hlev]
          omega
        · left; rw [b1, hfc]
      · exact Or.inl b1) hr
    exact hpost hret

theorem bam_search_stops_at_level_witness :
    wf_tree (store sample_tree3) 2 (sample_env 7 1 false sample_tree3).bt_root ∧
    wf_levels (sample_env 7 1 false sample_tree3).LEAFLEVEL (store sample_tree3) 2
      (sample_env 7 1 false sample_tree3).bt_root ∧
    serves (sample_env 7 1 false sample_tree3) (store sample_tree3) ∧
    ({ sample_flags with S_PARENT := true } : Flags).S_PARENT = true ∧
    (((sample_env 7 1 false sample_tree3).LEAFLEVEL : Nat) : Int) ≤ 2 ∧
    (2 : Int) ≤ (((sample_env 7 1 false sample_tree3).LEAFLEVEL : Nat) : Int) + (2 : Nat) ∧
    (2 : Int) + 1 < 256 ∧
    0 < sample_state.stk.length ∧
    __bam_search (sample_env 7 1 false sample_tree3) { sample_flags with S_PARENT := true } 2
        false 3 sample_state =
      some (sample_search (sample_env 7 1 false sample_tree3)
        { sample_flags with S_PARENT := true } 2 false 3) ∧
    (sample_search (sample_env 7 1 false sample_tree3) { sample_flags with S_PARENT := true }
      2 false 3).ret = 0 ∧
    (∃ h indx lock mode,
      terminal (sample_search (sample_env 7 1 false sample_tree3)
        { sample_flags with S_PARENT := true } 2 false 3).st =
          some ⟨some h, indx, lock, mode⟩ ∧
      store sample_tree3 h.pgno = some h ∧ (h.level : Int) = 2 ∧
      ((2 : Int) = (((sample_env 7 1 false sample_tree3).LEAFLEVEL : Nat) : Int) + (2 : Nat) →
        h.pgno = (sample_env 7 1 false sample_tree3).bt_root ∧
        (sample_search (sample_env 7 1 false sample_tree3)
          { sample_flags with S_PARENT := true } 2 false 3).st.csp = 0) ∧
      ((2 : Int) < (((sample_env 7 1 false sample_tree3).LEAFLEVEL : Nat) : Int) + (2 : Nat) →
        ∃ p pi pl pm,
          0 < (sample_search (sample_env 7 1 false sample_tree3)
            { sample_flags with S_PARENT := true } 2 false 3).st.csp ∧
          (sample_search (sample_env 7 1 false sample_tree3)
            { sample_flags with S_PARENT := true } 2 false 3).st.stk[
              (sample_search (sample_env 7 1 false sample_tree3)
                { sample_flags with S_PARENT := true } 2 false 3).st.csp - 1]? =
            some ⟨some p, pi, pl, pm⟩ ∧
          store sample_tree3 p.pgno = some p ∧ child p pi = h.pgno ∧
          p.level = h.level + 1)) ∧
    ((sample_search (sample_env 7 1 false sample_tree3) { sample_flags with S_PARENT := true }
        2 false 3).st.stk.take 2).map (fun e => e.page.map (fun p => (p.pgno, p.level))) =
      [some (1, 3), some (2, 2)] ∧
    (sample_search (sample_env 7 1 false sample_tree3) { sample_flags with S_PARENT := true }
      2 false 3).st.csp = 1 ∧
    ((sample_search (sample_env 7 1 false sample_tree3) { sample_flags with S_PARENT := true }
        1 false 3).st.stk.take 2).map (fun e => e.page.map (fun p => (p.pgno, p.level))) =
      [some (2, 2), some (4, 1)] ∧
    (sample_search (sample_env 7 1 false sample_tree3) { sample_flags with S_PARENT := true }
      1 false 3).st.csp = 1 ∧
    ((sample_search (sample_env 7 1 false sample_tree3) { sample_flags with S_PARENT := true }
        3 false 3).st.stk.take 1).map (fun e => e.page.map (fun p => (p.pgno, p.level))) =
      [some (1, 3)] ∧
    (sample_search (sample_env 7 1 false sample_tree3) { sample_flags with S_PARENT := true }
      3 false 3).st.csp = 0 :=
  ⟨by decide, by decide, sample_env_serves 7 1 false sample_tree3, by decide, by decide,
    by decide, by decide, by decide, rfl, by decide,
    bam_search_stops_at_level (sample_env 7 1 false sample_tree3)
      { sample_flags with S_PARENT := true } 2 false 3 sample_state _ (store sample_tree3) 2
      (by decide) (by decide) (sample_env_serves 7 1 false sample_tree3) (by decide) (by decide)
      (by decide) (by decide) (by decide) rfl (by decide),
    by decide, by decide, by decide, by decide, by decide, by decide⟩

/-- C18 fails at the stop level 255.  In the tree `sample_chain`, whose root
is at level 255 and whose leaf at level 1, a search with `S_PARENT` and
`stop = 255` returns 0 with a terminal entry for a page at level 1:
`(u_int8_t)(stop + 1)` is 0, so the root is not kept and the descent goes on to
the leaf. -/
theorem bam_search_stop_255_reaches_leaf :
    wf_tree sample_chain 254 sample_chain_env.bt_root ∧
    wf_levels sample_chain_env.LEAFLEVEL sample_chain 254 sample_chain_env.bt_root ∧
    serves sample_chain_env sample_chain ∧
    (sample_chain sample_chain_env.bt_root).map (fun h => h.level) = some 255 ∧
    ∃ r, __bam_search sample_chain_env ⟨false, false, false, false, true, false⟩ 255 false 255
        sample_state = some r ∧ r.ret = 0 ∧
      ∃ h indx lock mode, terminal r.st = some ⟨some h, indx, lock, mode⟩ ∧
        h.level = 1 ∧ (h.level : Int) ≠ 255 := by
  obtain ⟨w1, w2⟩ := sample_chain_wf 254 (Nat.le_refl _)
  refine ⟨w1, w2, sample_chain_serves, by decide, ?_⟩
  obtain ⟨r, h1, h2, h, indx, lock, mode, h3, h4⟩ :=
    search_stop_255 sample_chain_env ⟨false, false, false, false, true, false⟩ false 255
      sample_state sample_chain 254 w1 w2 sample_chain_serves
      ⟨fun _ => rfl, fun _ => rfl⟩ (by decide) (by decide) rfl rfl rfl (by decide) (by decide)
  refine ⟨r, h1, h2, h, indx, lock, mode, h3, h4, ?_⟩
  rw [h4]
  decide

/-! ### C19 -/

/-- C19.  Let the slots of the page `x.h` be in key order (stride `P_INDX` on
a leaf page, `O_INDX` on any other) and let the key compare equal to none of
them.  Then the binary search ends without a match at a `base` that is a
multiple of the stride and at most `NUM_ENT`, such that the key is greater
than every slot before `base` and less than every slot from `base` on.  On a
leaf page without `S_EXACT` the iteration returns 0 with `*exactp = 0` and an
entry for the page at index `base`.  On any other page the slot chosen is
`base - 1` when `base > 0` and 0 otherwise, and the search descends through
it: when no lock request, allocation or fetch fails, the iteration takes the
lock of the child of that slot, fetches it and goes round the loop on the page
fetched, unless the descent is stacked and stops at this level by `S_PARENT`,
in which case it returns 0 with an entry for the page at that slot. -/
theorem page_search_miss_base (E : Env) (f : Flags) (stop : Int) (want_recno : Bool) (x : Loop)
    (jump : Nat) (hjump : jump = if x.h.type = PageType.P_LBTREE then P_INDX else O_INDX)
    (hn : NUM_ENT x.h < 65536)
    (hsorted : slots_sorted (E.bam_cmp x.h) jump (NUM_ENT x.h / jump))
    (hnone : ∀ k < NUM_ENT x.h / jump, E.bam_cmp x.h (k * jump) ≠ 0) :
    ∃ k, page_search E x.h = BSearch.miss (k * jump) ∧
      k ≤ NUM_ENT x.h / jump ∧ k * jump ≤ NUM_ENT x.h ∧
      (∀ a < k, 0 < E.bam_cmp x.h (a * jump)) ∧
      (∀ a, k ≤ a → a < NUM_ENT x.h / jump → E.bam_cmp x.h (a * jump) < 0) ∧
      (x.h.type = PageType.P_LBTREE → f.S_EXACT = false →
        (∀ m, E.calloc_ret m = 0) → stack_ok x.st →
        ∃ r, search_page E f stop want_recno x = Sum.inl r ∧ r.ret = 0 ∧ r.exactp = some 0 ∧
          terminal r.st = some ⟨some x.h, k * jump, x.lock, x.lock_mode⟩) ∧
      (x.h.type ≠ PageType.P_LBTREE →
        pick_indx E x.h = (if k * jump > 0 then k * jump - 1 else 0) ∧
        (∀ x1, search_page E f stop want_recno x = Sum.inr x1 →
          ∃ m, E.memp_fget m (child x.h (if k * jump > 0 then k * jump - 1 else 0)) =
            (0, x1.h)) ∧
        (∀ h1, grants E → stack_ok x.st →
          ¬ (x.stack = true ∧ f.S_PARENT = true ∧ stop = (x.h.level : Int)) →
          E.memp_fget x.st.nfget (child x.h (if k * jump > 0 then k * jump - 1 else 0)) =
            (0, h1) →
          ∃ x1, search_page E f stop want_recno x = Sum.inr x1 ∧ x1.h = h1 ∧
            x1.lock = x.st.nlget + 1 ∧
            ∃ c md, x1.st.trace = x.st.trace ++
              (if x.stack = true then [] else [Event.fput x.h.pgno]) ++
              [Event.lget c x.lock (child x.h (if k * jump > 0 then k * jump - 1 else 0)) md
                (some x1.lock),
                Event.fget (child x.h (if k * jump > 0 then k * jump - 1 else 0)) true]) ∧
        (x.stack = true → f.S_PARENT = true → stop = (x.h.level : Int) →
          (∀ m, E.calloc_ret m = 0) → stack_ok x.st →
          ∃ r, search_page E f stop want_recno x = Sum.inl r ∧ r.ret = 0 ∧
            terminal r.st = some ⟨some x.h, if k * jump > 0 then k * jump - 1 else 0,
              x.lock, x.lock_mode⟩)) := by
  have hjpos : 0 < jump := by
    rw [hjump]; split <;> decide
  have hle : NUM_ENT x.h / jump * jump ≤ NUM_ENT x.h := Nat.div_mul_le_self _ _
  have hspec := bsearch_spec (E.bam_cmp x.h) jump (NUM_ENT x.h / jump) (by omega)
    (NUM_ENT x.h / jump) 0 (NUM_ENT x.h / jump) (Nat.le_refl _) (by omega)
  simp only [Nat.zero_mul, Nat.zero_add] at hspec
  have hps : page_search E x.h =
      bsearch (E.bam_cmp x.h) jump (NUM_ENT x.h / jump) 0 (NUM_ENT x.h / jump) := by
    unfold page_search
    simp only [← hjump]
  cases hb : bsearch (E.bam_cmp x.h) jump (NUM_ENT x.h / jump) 0 (NUM_ENT x.h / jump) with
  | found i =>
    obtain ⟨k, _, hk, hi, hz⟩ := hspec.1 i hb
    exact absurd (hi ▸ hz) (hnone k hk)
  | miss b =>
    obtain ⟨k, _, hk, hbk, hord⟩ := hspec.2 b hb
    obtain ⟨hbefore, hafter⟩ := hord hsorted
    subst hbk
    have hkle : k * jump ≤ NUM_ENT x.h :=
      Nat.le_trans (Nat.mul_le_mul_right _ hk) hle
    refine ⟨k, hps.trans hb, hk, hkle, fun a ha => hbefore a (Nat.zero_le _) ha, hafter, ?_, ?_⟩
    · intro hleaf hex hcal hs
      have hsp : search_page E f stop want_recno x = Sum.inl (search_leaf E f want_recno x) := by
        unfold search_page
        rw [if_pos hleaf]
      obtain ⟨e1, e2, _⟩ := BT_STK_ENTER_ok E x.h (k * jump) x.lock x.lock_mode x.st hcal hs
      refine ⟨_, hsp, ?_, ?_, ?_⟩ <;>
        simp only [search_leaf, hps, hb, hex, Bool.false_eq_true, if_false] <;> assumption
    · intro hint
      have hpick : pick_indx E x.h = (if k * jump > 0 then k * jump - 1 else 0) := by
        unfold pick_indx
        simp only [hps, hb, O_INDX]
        split
        · rfl
        · omega
      refine ⟨hpick, ?_, ?_, ?_⟩
      · intro x1 hx1
        obtain ⟨_, hm, _⟩ := search_page_inr E f stop want_recno x x1 hx1
        rw [hpick] at hm
        exact hm
      · intro h1 hg hs hstop hf
        have := search_page_descends E f stop want_recno x h1 hint hg hs hstop
          (by rw [hpick]; exact hf)
        rw [hpick] at this
        exact this
      · intro hst hpar hlev hcal hs
        obtain ⟨e1, e2, _⟩ := BT_STK_ENTER_ok E x.h (pick_indx E x.h) x.lock x.lock_mode x.st
          hcal hs
        rw [hpick] at e1 e2
        refine ⟨⟨(BT_STK_ENTER E x.h (if k * jump > 0 then k * jump - 1 else 0) x.lock
            x.lock_mode x.st).1, none, none,
          (BT_STK_ENTER E x.h (if k * jump > 0 then k * jump - 1 else 0) x.lock
            x.lock_mode x.st).2⟩, ?_, e1, e2⟩
        unfold search_page
        simp only [hint, if_false, hst, if_true]
        unfold next_stacked
        rw [if_pos ⟨hpar, hlev⟩, hpick]

theorem page_search_miss_base_witness :
    (2 = if (sample_loop (sample_leaf_of 1 [1, 3, 5] [])).h.type = PageType.P_LBTREE then P_INDX else O_INDX) ∧
    NUM_ENT (sample_loop (sample_leaf_of 1 [1, 3, 5] [])).h < 65536 ∧
    slots_sorted ((sample_env 4 1 false []).bam_cmp (sample_loop (sample_leaf_of 1 [1, 3, 5] [])).h) 2 (NUM_ENT (sample_loop (sample_leaf_of 1 [1, 3, 5] [])).h / 2) ∧
    (∀ k < NUM_ENT (sample_loop (sample_leaf_of 1 [1, 3, 5] [])).h / 2, (sample_env 4 1 false []).bam_cmp (sample_loop (sample_leaf_of 1 [1, 3, 5] [])).h (k * 2) ≠ 0) ∧
    (∃ k, page_search (sample_env 4 1 false []) (sample_loop (sample_leaf_of 1 [1, 3, 5] [])).h = BSearch.miss (k * 2) ∧
      k ≤ NUM_ENT (sample_loop (sample_leaf_of 1 [1, 3, 5] [])).h / 2 ∧ k * 2 ≤ NUM_ENT (sample_loop (sample_leaf_of 1 [1, 3, 5] [])).h ∧
      (∀ a < k, 0 < (sample_env 4 1 false []).bam_cmp (sample_loop (sample_leaf_of 1 [1, 3, 5] [])).h (a * 2)) ∧
      (∀ a, k ≤ a → a < NUM_ENT (sample_loop (sample_leaf_of 1 [1, 3, 5] [])).h / 2 → (sample_env 4 1 false []).bam_cmp (sample_loop (sample_leaf_of 1 [1, 3, 5] [])).h (a * 2) < 0) ∧
      ((sample_loop (sample_leaf_of 1 [1, 3, 5] [])).h.type = PageType.P_LBTREE → ({ sample_flags with S_EXACT := false } : Flags).S_EXACT = false →
        (∀ m, (sample_env 4 1 false []).calloc_ret m = 0) → stack_ok (sample_loop (sample_leaf_of 1 [1, 3, 5] [])).st →
        ∃ r, search_page (sample_env 4 1 false []) ({ sample_flags with S_EXACT := false } : Flags) 0 false (sample_loop (sample_leaf_of 1 [1, 3, 5] [])) = Sum.inl r ∧ r.ret = 0 ∧ r.exactp = some 0 ∧
          terminal r.st = some ⟨some (sample_loop (sample_leaf_of 1 [1, 3, 5] [])).h, k * 2, (sample_loop (sample_leaf_of 1 [1, 3, 5] [])).lock, (sample_loop (sample_leaf_of 1 [1, 3, 5] [])).lock_mode⟩) ∧
      ((sample_loop (sample_leaf_of 1 [1, 3, 5] [])).h.type ≠ PageType.P_LBTREE →
        pick_indx (sample_env 4 1 false []) (sample_loop (sample_leaf_of 1 [1, 3, 5] [])).h = (if k * 2 > 0 then k * 2 - 1 else 0) ∧
        (∀ x1, search_page (sample_env 4 1 false []) ({ sample_flags with S_EXACT := false } : Flags) 0 false (sample_loop (sample_leaf_of 1 [1, 3, 5] [])) = Sum.inr x1 →
          ∃ m, (sample_env 4 1 false []).memp_fget m (child (sample_loop (sample_leaf_of 1 [1, 3, 5] [])).h (if k * 2 > 0 then k * 2 - 1 else 0)) =
            (0, x1.h)) ∧
        (∀ h1, grants (sample_env 4 1 false []) → stack_ok (sample_loop (sample_leaf_of 1 [1, 3, 5] [])).st →
          ¬ ((sample_loop (sample_leaf_of 1 [1, 3, 5] [])).stack = true ∧ ({ sample_flags with S_EXACT := false } : Flags).S_PARENT = true ∧ 0 = ((sample_loop (sample_leaf_of 1 [1, 3, 5] [])).h.level : Int)) →
          (sample_env 4 1 false []).memp_fget (sample_loop (sample_leaf_of 1 [1, 3, 5] [])).st.nfget (child (sample_loop (sample_leaf_of 1 [1, 3, 5] [])).h (if k * 2 > 0 then k * 2 - 1 else 0)) =
            (0, h1) →
          ∃ x1, search_page (sample_env 4 1 false []) ({ sample_flags with S_EXACT := false } : Flags) 0 false (sample_loop (sample_leaf_of 1 [1, 3, 5] [])) = Sum.inr x1 ∧ x1.h = h1 ∧
            x1.lock = (sample_loop (sample_leaf_of 1 [1, 3, 5] [])).st.nlget + 1 ∧
            ∃ c md, x1.st.trace = (sample_loop (sample_leaf_of 1 [1, 3, 5] [])).st.trace ++
              (if (sample_loop (sample_leaf_of 1 [1, 3, 5] [])).stack = true then [] else [Event.fput (sample_loop (sample_leaf_of 1 [1, 3, 5] [])).h.pgno]) ++
              [Event.lget c (sample_loop (sample_leaf_of 1 [1, 3, 5] [])).lock (child (sample_loop (sample_leaf_of 1 [1, 3, 5] [])).h (if k * 2 > 0 then k * 2 - 1 else 0)) md
                (some x1.lock),
                Event.fget (child (sample_loop (sample_leaf_of 1 [1, 3, 5] [])).h (if k * 2 > 0 then k * 2 - 1 else 0)) true]) ∧
        ((sample_loop (sample_leaf_of 1 [1, 3, 5] [])).stack = true → ({ sample_flags with S_EXACT := false } : Flags).S_PARENT = true → 0 = ((sample_loop (sample_leaf_of 1 [1, 3, 5] [])).h.level : Int) →
          (∀ m, (sample_env 4 1 false []).calloc_ret m = 0) → stack_ok (sample_loop (sample_leaf_of 1 [1, 3, 5] [])).st →
          ∃ r, search_page (sample_env 4 1 false []) ({ sample_flags with S_EXACT := false } : Flags) 0 false (sample_loop (sample_leaf_of 1 [1, 3, 5] [])) = Sum.inl r ∧ r.ret = 0 ∧
            terminal r.st = some ⟨some (sample_loop (sample_leaf_of 1 [1, 3, 5] [])).h, if k * 2 > 0 then k * 2 - 1 else 0,
              (sample_loop (sample_leaf_of 1 [1, 3, 5] [])).lock, (sample_loop (sample_leaf_of 1 [1, 3, 5] [])).lock_mode⟩))) ∧
    (1 = if (sample_loop sample_root).h.type = PageType.P_LBTREE then P_INDX else O_INDX) ∧
    NUM_ENT (sample_loop sample_root).h < 65536 ∧
    slots_sorted ((sample_env 6 1 false sample_tree).bam_cmp (sample_loop sample_root).h) 1 (NUM_ENT (sample_loop sample_root).h / 1) ∧
    (∀ k < NUM_ENT (sample_loop sample_root).h / 1, (sample_env 6 1 false sample_tree).bam_cmp (sample_loop sample_root).h (k * 1) ≠ 0) ∧
    (∃ k, page_search (sample_env 6 1 false sample_tree) (sample_loop sample_root).h = BSearch.miss (k * 1) ∧
      k ≤ NUM_ENT (sample_loop sample_root).h / 1 ∧ k * 1 ≤ NUM_ENT (sample_loop sample_root).h ∧
      (∀ a < k, 0 < (sample_env 6 1 false sample_tree).bam_cmp (sample_loop sample_root).h (a * 1)) ∧
      (∀ a, k ≤ a → a < NUM_ENT (sample_loop sample_root).h / 1 → (sample_env 6 1 false sample_tree).bam_cmp (sample_loop sample_root).h (a * 1) < 0) ∧
      ((sample_loop sample_root).h.type = PageType.P_LBTREE → sample_flags.S_EXACT = false →
        (∀ m, (sample_env 6 1 false sample_tree).calloc_ret m = 0) → stack_ok (sample_loop sample_root).st →
        ∃ r, search_page (sample_env 6 1 false sample_tree) sample_flags 0 false (sample_loop sample_root) = Sum.inl r ∧ r.ret = 0 ∧ r.exactp = some 0 ∧
          terminal r.st = some ⟨some (sample_loop sample_root).h, k * 1, (sample_loop sample_root).lock, (sample_loop sample_root).lock_mode⟩) ∧
      ((sample_loop sample_root).h.type ≠ PageType.P_LBTREE →
        pick_indx (sample_env 6 1 false sample_tree) (sample_loop sample_root).h = (if k * 1 > 0 then k * 1 - 1 else 0) ∧
        (∀ x1, search_page (sample_env 6 1 false sample_tree) sample_flags 0 false (sample_loop sample_root) = Sum.inr x1 →
          ∃ m, (sample_env 6 1 false sample_tree).memp_fget m (child (sample_loop sample_root).h (if k * 1 > 0 then k * 1 - 1 else 0)) =
            (0, x1.h)) ∧
        (∀ h1, grants (sample_env 6 1 false sample_tree) → stack_ok (sample_loop sample_root).st →
          ¬ ((sample_loop sample_root).stack = true ∧ sample_flags.S_PARENT = true ∧ 0 = ((sample_loop sample_root).h.level : Int)) →
          (sample_env 6 1 false sample_tree).memp_fget (sample_loop sample_root).st.nfget (child (sample_loop sample_root).h (if k * 1 > 0 then k * 1 - 1 else 0)) =
            (0, h1) →
          ∃ x1, search_page (sample_env 6 1 false sample_tree) sample_flags 0 false (sample_loop sample_root) = Sum.inr x1 ∧ x1.h = h1 ∧
            x1.lock = (sample_loop sample_root).st.nlget + 1 ∧
            ∃ c md, x1.st.trace = (sample_loop sample_root).st.trace ++
              (if (sample_loop sample_root).stack = true then [] else [Event.fput (sample_loop sample_root).h.pgno]) ++
              [Event.lget c (sample_loop sample_root).lock (child (sample_loop sample_root).h (if k * 1 > 0 then k * 1 - 1 else 0)) md
                (some x1.lock),
                Event.fget (child (sample_loop sample_root).h (if k * 1 > 0 then k * 1 - 1 else 0)) true]) ∧
        ((sample_loop sample_root).stack = true → sample_flags.S_PARENT = true → 0 = ((sample_loop sample_root).h.level : Int) →
          (∀ m, (sample_env 6 1 false sample_tree).calloc_ret m = 0) → stack_ok (sample_loop sample_root).st →
          ∃ r, search_page (sample_env 6 1 false sample_tree) sample_flags 0 false (sample_loop sample_root) = Sum.inl r ∧ r.ret = 0 ∧
            terminal r.st = some ⟨some (sample_loop sample_root).h, if k * 1 > 0 then k * 1 - 1 else 0,
              (sample_loop sample_root).lock, (sample_loop sample_root).lock_mode⟩))) ∧
    page_search (sample_env 4 1 false []) (sample_leaf_of 1 [1, 3, 5] []) = BSearch.miss 4 ∧
    (__bam_search (sample_env 4 1 false [sample_leaf_of 1 [1, 3, 5] []])
        { sample_flags with S_EXACT := false } 0 false 1 sample_state).map
        (fun r => (r.ret, r.exactp, (terminal r.st).map (fun e => e.indx))) =
      some (0, some 0, some 4) ∧
    page_search (sample_env 6 1 false sample_tree) sample_root = BSearch.miss 2 ∧
    pick_indx (sample_env 6 1 false sample_tree) sample_root = 1 ∧
    (search_page (sample_env 6 1 false sample_tree) sample_flags 0 false
        (sample_loop sample_root)).elim (fun _ => none)
        (fun x1 => some (x1.h, x1.lock, x1.st.trace)) =
      some (sample_leaf_of 3 [5, 7] [], 1,
        [Event.fput 1, Event.lget true 1 3 db_lockmode_t.DB_LOCK_READ (some 1),
          Event.fget 3 true]) ∧
    (search_page (sample_env 6 1 false sample_tree) { sample_flags with S_PARENT := true } 2
        false { sample_loop sample_root with stack := true }).elim
        (fun r => some (r.ret, (terminal r.st).map (fun e => (e.page.map (fun p => p.pgno), e.indx))))
        (fun _ => none) =
      some (0, some (some 1, 1)) ∧
    page_search (sample_env 1 1 false [])
        ⟨1, 2, PageType.P_IBTREE, [0, 1], [sample_sep 2 3 3, sample_sep 3 2 5]⟩ =
      BSearch.miss 0 ∧
    pick_indx (sample_env 1 1 false [])
        ⟨1, 2, PageType.P_IBTREE, [0, 1], [sample_sep 2 3 3, sample_sep 3 2 5]⟩ = 0 :=
  ⟨by decide, by decide, by decide, by decide,
    page_search_miss_base (sample_env 4 1 false []) { sample_flags with S_EXACT := false } 0 false
      (sample_loop (sample_leaf_of 1 [1, 3, 5] [])) 2 (by decide) (by decide) (by decide)
      (by decide),
    by decide, by decide, by decide, by decide,
    page_search_miss_base (sample_env 6 1 false sample_tree) sample_flags 0 false
      (sample_loop sample_root) 1 (by decide) (by decide) (by decide) (by decide),
    by decide, by decide, by decide, by decide, by decide, by decide, by decide, by decide⟩

/-! ### C20 -/

/-- C20.  Whenever `__bam_search` returns 0, the calls it made, `evs`, contain
as many successful fetches as releases of a page plus stack entries
(`csp - sp + 1`), and every entry `sp .. csp` holds a page.  When the cache
returns for a page number a page carrying that number, the pages fetched are,
up to order, the pages released together with the pages of the entries
`sp .. csp`, one pin for each entry. -/
theorem bam_search_pins_are_stack (E : Env) (f : Flags) (stop : Int) (want_recno : Bool)
    (fuel : Nat) (s0 : State) (r : Result) (hs : 0 < s0.stk.length)
    (hr : __bam_search E f stop want_recno fuel s0 = some r) (hret : r.ret = 0) :
    ∃ evs, r.st.trace = s0.trace ++ evs ∧
      (fgets evs).length = (fputs evs).length + (r.st.csp + 1) ∧
      (r.st.stk.take (r.st.csp + 1)).length = r.st.csp + 1 ∧
      (∀ e ∈ r.st.stk.take (r.st.csp + 1), e.page ≠ none) ∧
      ((∀ n pg, (E.memp_fget n pg).1 = 0 → (E.memp_fget n pg).2.pgno = pg) →
        (fgets evs).Perm (fputs evs ++
          (r.st.stk.take (r.st.csp + 1)).filterMap (fun e => e.page.map (fun p => p.pgno)))) := by
  generalize hF : (∀ n pg, (E.memp_fget n pg).1 = 0 → (E.memp_fget n pg).2.pgno = pg) = F
  have hfaith : F → ∀ n pg h, E.memp_fget n pg = (0, h) → h.pgno = pg := by
    intro hf n pg h hget
    rw [← hF] at hf
    have := hf n pg (by rw [hget])
    rw [hget] at this
    exact this
  have hinv := search_loop_inv E f stop want_recno
    (fun x => stack_ok x.st ∧ ∃ evs, x.st.trace = s0.trace ++ evs ∧
      (fgets evs).length = (fputs evs).length + (x.st.csp + 1) ∧
      (∀ e ∈ x.st.stk.take x.st.csp, e.page ≠ none) ∧
      (F → (fgets evs).Perm (fputs evs ++
        ((x.st.stk.take x.st.csp).filterMap (fun e => e.page.map (fun p => p.pgno)) ++
          [x.h.pgno]))))
    (fun r => r.ret = 0 → ∃ evs, r.st.trace = s0.trace ++ evs ∧
      (fgets evs).length = (fputs evs).length + (r.st.csp + 1) ∧
      (r.st.stk.take (r.st.csp + 1)).length = r.st.csp + 1 ∧
      (∀ e ∈ r.st.stk.take (r.st.csp + 1), e.page ≠ none) ∧
      (F → (fgets evs).Perm (fputs evs ++
        (r.st.stk.take (r.st.csp + 1)).filterMap (fun e => e.page.map (fun p => p.pgno)))))
    (by
      intro x ⟨hsx, evs, ht, hcnt, hpg, hperm⟩
      constructor
      · intro r hx hret
        obtain ⟨indx, k1, k2, k3, k4, _⟩ := search_page_success E f stop want_recno x r hsx hx hret
        refine ⟨evs, by rw [k4, ht], by rw [k1]; exact hcnt, ?_, ?_, ?_⟩
        · rw [k1, List.length_take]; omega
        · rw [k1, k3]
          intro e he
          rcases List.mem_append.1 he with he | he
          · exact hpg e he
          · simp only [List.mem_singleton] at he
            subst he
            simp
        · intro hf
          rw [k1, k3]
          simpa [List.filterMap_append] using hperm hf
      · intro x1 hx
        obtain ⟨_, g1, _, _, _, g5, hcase⟩ := search_page_step E f stop want_recno x x1 hsx hx
        refine ⟨g5, ?_⟩
        rcases hcase with ⟨_, _, _, _, c1, c2, c3⟩ | ⟨_, _, _, c1, c2, c3⟩
        · refine ⟨_, by rw [c3, ht, List.append_assoc], ?_, ?_, ?_⟩
          · have e1 : ∀ l m l', fgets [Event.lget false l (child x.h (pick_indx E x.h)) m l',
                Event.fget (child x.h (pick_indx E x.h)) true] = [child x.h (pick_indx E x.h)] :=
              fun _ _ _ => rfl
            have e2 : ∀ l m l', fputs [Event.lget false l (child x.h (pick_indx E x.h)) m l',
                Event.fget (child x.h (pick_indx E x.h)) true] = [] := fun _ _ _ => rfl
            simp only [fgets_append, fputs_append, List.length_append, e1, e2,
              List.length_singleton, List.length_nil]
            omega
          · rw [c1, c2]
            intro e he
            rcases List.mem_append.1 he with he | he
            · exact hpg e he
            · simp only [List.mem_singleton] at he
              subst he
              simp
          · intro hf
            rw [c1, c2]
            have hp := hperm hf
            have hpgno := hfaith hf _ _ _ g1
            rw [hpgno]
            simp only [fgets_append, fputs_append]
            have e1 : ∀ l m l', fgets [Event.lget false l (child x.h (pick_indx E x.h)) m l',
                Event.fget (child x.h (pick_indx E x.h)) true] = [child x.h (pick_indx E x.h)] :=
              fun _ _ _ => rfl
            have e2 : ∀ l m l', fputs [Event.lget false l (child x.h (pick_indx E x.h)) m l',
                Event.fget (child x.h (pick_indx E x.h)) true] = [] := fun _ _ _ => rfl
            rw [e1, e2, List.append_nil]
            simp only [List.filterMap_append, List.filterMap_cons, List.filterMap_nil,
              Option.map_some']
            have := List.Perm.append_right [child x.h (pick_indx E x.h)] hp
            simpa [List.append_assoc] using this
        · refine ⟨_, by rw [c3, ht, List.append_assoc], ?_, ?_, ?_⟩
          · have e1 : ∀ l m l', fgets [Event.fput x.h.pgno,
                Event.lget true l (child x.h (pick_indx E x.h)) m l',
                Event.fget (child x.h (pick_indx E x.h)) true] = [child x.h (pick_indx E x.h)] :=
              fun _ _ _ => rfl
            have e2 : ∀ l m l', fputs [Event.fput x.h.pgno,
                Event.lget true l (child x.h (pick_indx E x.h)) m l',
                Event.fget (child x.h (pick_indx E x.h)) true] = [x.h.pgno] := fun _ _ _ => rfl
            simp only [fgets_append, fputs_append, List.length_append, e1, e2,
              List.length_singleton]
            omega
          · rw [c1, c2]
            exact hpg
          · intro hf
            rw [c1, c2]
            have hp := hperm hf
            have hpgno := hfaith hf _ _ _ g1
            rw [hpgno]
            simp only [fgets_append, fputs_append]
            have e1 : ∀ l m l', fgets [Event.fput x.h.pgno,
                Event.lget true l (child x.h (pick_indx E x.h)) m l',
                Event.fget (child x.h (pick_indx E x.h)) true] = [child x.h (pick_indx E x.h)] :=
              fun _ _ _ => rfl
            have e2 : ∀ l m l', fputs [Event.fput x.h.pgno,
                Event.lget true l (child x.h (pick_indx E x.h)) m l',
                Event.fget (child x.h (pick_indx E x.h)) true] = [x.h.pgno] := fun _ _ _ => rfl
            rw [e1, e2]
            rw [List.perm_iff_count] at hp ⊢
            intro a
            have := hp a
            simp only [List.count_append] at this ⊢
            omega)
  unfold __bam_search at hr
  split at hr
  · rename_i r0 h0
    injection hr with hr; subst hr
    exact absurd hret (search_root_inl _ _ _ _ _ h0).1
  · rename_i x0 h0
    obtain ⟨q1, q2, _, q4⟩ := search_root_step E f stop s0 x0 h0
    have hpost := hinv fuel x0 r (by
      refine ⟨⟨by rw [q1]; exact hs, by rw [q2]; omega⟩, ?_⟩
      rcases q4 with ⟨_, _, _, g, _, _, _, ht⟩ | ⟨_, _, _, h1, l1, g1, _, g2, _, _, _, _, ht⟩
      · refine ⟨_, ht, ?_, ?_, ?_⟩
        · rw [q2]; simp [fgets, fputs]
        · rw [q2]; simp
        · intro hf
          rw [q2, hfaith hf _ _ _ g]
          simp [fgets, fputs]
      · refine ⟨_, ht, ?_, ?_, ?_⟩
        · rw [q2]; simp [fgets, fputs]
        · rw [q2]; simp
        · intro hf
          rw [q2, hfaith hf _ _ _ g1, hfaith hf _ _ _ g2]
          simp [fgets, fputs]) hr
    obtain ⟨evs, p1, p2, p3, p4, p5⟩ := hpost hret
    exact ⟨evs, p1, p2, p3, p4, p5⟩

theorem bam_search_pins_are_stack_witness :
    0 < sample_state.stk.length ∧
    __bam_search (sample_env 7 1 true sample_tree) { sample_flags with S_STACK := true } 0 false 2
        sample_state =
      some (sample_search (sample_env 7 1 true sample_tree) { sample_flags with S_STACK := true }
        0 false 2) ∧
    (sample_search (sample_env 7 1 true sample_tree) { sample_flags with S_STACK := true }
      0 false 2).ret = 0 ∧
    (∃ evs,
      (sample_search (sample_env 7 1 true sample_tree) { sample_flags with S_STACK := true }
        0 false 2).st.trace = sample_state.trace ++ evs ∧
      (fgets evs).length = (fputs evs).length +
        ((sample_search (sample_env 7 1 true sample_tree) { sample_flags with S_STACK := true }
          0 false 2).st.csp + 1) ∧
      ((sample_search (sample_env 7 1 true sample_tree) { sample_flags with S_STACK := true }
          0 false 2).st.stk.take
        ((sample_search (sample_env 7 1 true sample_tree) { sample_flags with S_STACK := true }
          0 false 2).st.csp + 1)).length =
        (sample_search (sample_env 7 1 true sample_tree) { sample_flags with S_STACK := true }
          0 false 2).st.csp + 1 ∧
      (∀ e ∈ (sample_search (sample_env 7 1 true sample_tree) { sample_flags with S_STACK := true }
          0 false 2).st.stk.take
        ((sample_search (sample_env 7 1 true sample_tree) { sample_flags with S_STACK := true }
          0 false 2).st.csp + 1), e.page ≠ none) ∧
      ((∀ n pg, ((sample_env 7 1 true sample_tree).memp_fget n pg).1 = 0 →
          ((sample_env 7 1 true sample_tree).memp_fget n pg).2.pgno = pg) →
        (fgets evs).Perm (fputs evs ++
          ((sample_search (sample_env 7 1 true sample_tree) { sample_flags with S_STACK := true }
            0 false 2).st.stk.take
          ((sample_search (sample_env 7 1 true sample_tree) { sample_flags with S_STACK := true }
            0 false 2).st.csp + 1)).filterMap (fun e => e.page.map (fun p => p.pgno))))) ∧
    (sample_search (sample_env 7 1 true sample_tree) { sample_flags with S_STACK := true }
      0 false 2).st.csp = 1 ∧
    fgets (sample_search (sample_env 7 1 true sample_tree) { sample_flags with S_STACK := true }
      0 false 2).st.trace = [1, 3] ∧
    fputs (sample_search (sample_env 7 1 true sample_tree) { sample_flags with S_STACK := true }
      0 false 2).st.trace = [] ∧
    (fgets (sample_search (sample_env 7 1 false sample_tree) sample_flags 0 false 2).st.trace,
      fputs (sample_search (sample_env 7 1 false sample_tree) sample_flags 0 false 2).st.trace,
      (sample_search (sample_env 7 1 false sample_tree) sample_flags 0 false 2).st.csp) =
      ([1, 3], [1], 0) :=
  ⟨by decide, rfl, by decide,
    bam_search_pins_are_stack (sample_env 7 1 true sample_tree)
      { sample_flags with S_STACK := true } 0 false 2 sample_state _ (by decide) rfl (by decide),
    by decide, by decide, by decide, by decide⟩

end BerkeleyDB
